import Mathlib

/-!
Shallow embedding of the circuit data model and operations of `circuit.py`
(classes `Pin`, `Connection`, `Component`, `Circuit`).  Python objects are
modelled as Lean structures; in-place mutation is modelled by explicit state
passing.  Python dicts are modelled as insertion-ordered association lists;
object identity of `Connection` values (used by `list.remove` / `in`) is
modelled by a ghost numeric id drawn from a fresh counter (`Circuit.nextId`),
standing in for `uuid.uuid4()`.  Display-only attributes that no modelled
operation reads (`Connection.path_points`, `Connection.color`, `Component.rect`,
`Component.selected`, `Component.image`) are omitted.
-/

namespace ACAD

/-- Pin electrical states.  In the source these are the constants
`1 / 0 / None / -1`; the four values are modelled as an enumeration with
structural (Python `==`) equality. -/
inductive PinState where
  | HIGH
  | LOW
  | UNKNOWN
  | CONFLICT
  deriving DecidableEq, Repr

def PIN_STATE_HIGH : PinState := PinState.HIGH

def PIN_STATE_LOW : PinState := PinState.LOW

def PIN_STATE_UNKNOWN : PinState := PinState.UNKNOWN

def PIN_STATE_CONFLICT : PinState := PinState.CONFLICT

def PIN_TYPE_DIGITAL : String := "digital"

def PIN_TYPE_ANALOG : String := "analog"

def PIN_TYPE_POWER : String := "power"

def PIN_TYPE_GND : String := "gnd"

def PIN_TYPE_COMPONENT : String := "component_terminal"

/-- Python property values (`properties` dict values) restricted to the
shapes the modelled code reads: strings, booleans and integers. -/
inductive PropVal where
  | pstr (s : String)
  | pbool (b : Bool)
  | pint (n : Int)
  deriving DecidableEq, Repr

/-- Python truthiness of a property value. -/
def PropVal.truthy : PropVal → Bool
  | .pstr s => s ≠ ""
  | .pbool b => b
  | .pint n => n ≠ 0

/-- Values accepted in a component's declared `connections` mapping before the
`str(v)` coercion performed by `Component.__init__`. -/
inductive ConnVal where
  | vstr (s : String)
  | vint (n : Int)
  deriving DecidableEq, Repr

/-- Python `str(v)` on a declared-connection value. -/
def ConnVal.pyStr : ConnVal → String
  | .vstr s => s
  | .vint n => toString n

/-- Python dict lookup `d[k]` / `d.get(k)` on an association list
(first entry with the key; a well-formed dict has unique keys). -/
def dictGet? : List (String × α) → String → Option α
  | [], _ => none
  | e :: rest, k => if e.1 = k then some e.2 else dictGet? rest k

/-- Python `k in d`. -/
def dictMem : List (String × α) → String → Bool
  | [], _ => false
  | e :: rest, k => e.1 == k || dictMem rest k

/-- Python dict assignment `d[k] = v`: update the entry in place if the key is
present, else append a new entry (insertion order semantics). -/
def dictSet (d : List (String × α)) (k : String) (v : α) : List (String × α) :=
  match d with
  | [] => [(k, v)]
  | e :: rest => if e.1 = k then (k, v) :: rest else e :: dictSet rest k v

/-- Update the value at key `k` in place (no-op when absent). -/
def dictModify (d : List (String × α)) (k : String) (f : α → α) : List (String × α) :=
  match d with
  | [] => []
  | e :: rest => if e.1 = k then (e.1, f e.2) :: rest else e :: dictModify rest k f

/-- Build a Python dict by successive insertion (dict literal / comprehension
semantics: a later duplicate key overwrites the earlier value in place). -/
def pyDict (xs : List (String × α)) : List (String × α) :=
  xs.foldl (fun acc e => dictSet acc e.1 e.2) []

/-- Python `list.remove(x)`: drop the first matching element (here: the first
element satisfying the identity-proxy predicate); no-op when absent. -/
def removeFirst (p : α → Bool) : List α → List α
  | [] => []
  | x :: xs => if p x then xs else x :: removeFirst p xs

/-- Python `str.isdigit()` (ASCII digits; the modelled labels are ASCII). -/
def pyIsDigit (s : String) : Bool :=
  !s.data.isEmpty && s.data.all Char.isDigit

/-- ASCII lowering of one character. -/
def pyLowerChar (ch : Char) : Char :=
  if 'A' ≤ ch ∧ ch ≤ 'Z' then Char.ofNat (ch.toNat + 32) else ch

/-- Python `str.lower()` (ASCII lowering; the modelled types are ASCII). -/
def pyLower (s : String) : String :=
  ⟨s.data.map pyLowerChar⟩

/-- `Connection.__init__`: a wire between two pin ids.  `id` is the ghost
numeric stand-in for the `uuid.uuid4()` string (fresh per creation). -/
structure Connection where
  id : Nat
  pin1_id : String
  pin2_id : String
  deriving DecidableEq, Repr

/-- `Pin`: a named terminal on a component. -/
structure Pin where
  id : String
  name : String
  pin_type : String
  component_id : String
  position_offset : Int × Int
  connected_to : List Connection
  state : PinState
  deriving DecidableEq, Repr

/-- The pin id built by `Pin.__init__`: `f"pin_{component_id}_{name}"`. -/
def mkPinId (component_id name : String) : String :=
  "pin_" ++ component_id ++ "_" ++ name

/-- `Pin.__init__`. -/
def mkPin (name pin_type component_id : String) (position_offset : Int × Int) : Pin :=
  { id := mkPinId component_id name
    name := name
    pin_type := pin_type
    component_id := component_id
    position_offset := position_offset
    connected_to := []
    state := PIN_STATE_UNKNOWN }

/-- `Pin.add_connection`: append the connection unless already present
(Python membership by object identity, modelled by the ghost id). -/
def Pin.add_connection (p : Pin) (connection : Connection) : Pin :=
  if p.connected_to.any (fun c => c.id == connection.id) then p
  else { p with connected_to := p.connected_to ++ [connection] }

/-- `Pin.remove_connection`: drop the connection if present. -/
def Pin.remove_connection (p : Pin) (connection : Connection) : Pin :=
  { p with connected_to := removeFirst (fun c => c.id == connection.id) p.connected_to }

/-- `Component._create_pins` pin-layout table: for a component type,
the list of `(pin name, (pin type, position offset))` entries. -/
def pinConfigs (t : String) : List (String × String × (Int × Int)) :=
  if t = "arduinouno" then
    [("D0", (PIN_TYPE_DIGITAL, (0, 20))), ("D1", (PIN_TYPE_DIGITAL, (0, 30))),
     ("D2", (PIN_TYPE_DIGITAL, (0, 40))), ("D3", (PIN_TYPE_DIGITAL, (0, 50))),
     ("D4", (PIN_TYPE_DIGITAL, (0, 60))), ("D5", (PIN_TYPE_DIGITAL, (0, 70))),
     ("D6", (PIN_TYPE_DIGITAL, (0, 80))), ("D7", (PIN_TYPE_DIGITAL, (0, 90))),
     ("D8", (PIN_TYPE_DIGITAL, (0, 100))), ("D9", (PIN_TYPE_DIGITAL, (0, 110))),
     ("D10", (PIN_TYPE_DIGITAL, (0, 120))), ("D11", (PIN_TYPE_DIGITAL, (0, 130))),
     ("D12", (PIN_TYPE_DIGITAL, (0, 140))), ("D13", (PIN_TYPE_DIGITAL, (0, 150))),
     ("A0", (PIN_TYPE_ANALOG, (100, 20))), ("A1", (PIN_TYPE_ANALOG, (100, 30))),
     ("A2", (PIN_TYPE_ANALOG, (100, 40))), ("A3", (PIN_TYPE_ANALOG, (100, 50))),
     ("A4", (PIN_TYPE_ANALOG, (100, 60))), ("A5", (PIN_TYPE_ANALOG, (100, 70))),
     ("5V", (PIN_TYPE_POWER, (100, 90))), ("3.3V", (PIN_TYPE_POWER, (100, 100))),
     ("GND", (PIN_TYPE_GND, (100, 110))), ("GND2", (PIN_TYPE_GND, (100, 120))),
     ("VIN", (PIN_TYPE_POWER, (100, 130)))]
  else if t = "led" then
    [("anode", (PIN_TYPE_COMPONENT, (15, 0))), ("cathode", (PIN_TYPE_COMPONENT, (15, 30)))]
  else if t = "button" then
    [("pin1", (PIN_TYPE_COMPONENT, (0, 20))), ("pin2", (PIN_TYPE_COMPONENT, (40, 20)))]
  else if t = "resistor" then
    [("pin1", (PIN_TYPE_COMPONENT, (0, 10))), ("pin2", (PIN_TYPE_COMPONENT, (60, 10)))]
  else if t = "potentiometer" then
    [("wiper", (PIN_TYPE_COMPONENT, (25, 0))), ("pin1", (PIN_TYPE_COMPONENT, (0, 20))),
     ("pin2", (PIN_TYPE_COMPONENT, (50, 20)))]
  else if t = "servo" then
    [("signal", (PIN_TYPE_COMPONENT, (30, 0))), ("power", (PIN_TYPE_POWER, (15, 40))),
     ("ground", (PIN_TYPE_GND, (45, 40)))]
  else if t = "motor" then
    [("plus", (PIN_TYPE_COMPONENT, (0, 25))), ("minus", (PIN_TYPE_COMPONENT, (50, 25)))]
  else if t = "motor_driver" then
    [("in1", (PIN_TYPE_COMPONENT, (0, 10))), ("in2", (PIN_TYPE_COMPONENT, (0, 25))),
     ("in3", (PIN_TYPE_COMPONENT, (0, 40))), ("in4", (PIN_TYPE_COMPONENT, (0, 55))),
     ("ena", (PIN_TYPE_COMPONENT, (35, 0))), ("enb", (PIN_TYPE_COMPONENT, (55, 0))),
     ("out1", (PIN_TYPE_COMPONENT, (70, 10))), ("out2", (PIN_TYPE_COMPONENT, (70, 25))),
     ("out3", (PIN_TYPE_COMPONENT, (70, 40))), ("out4", (PIN_TYPE_COMPONENT, (70, 55))),
     ("vcc", (PIN_TYPE_POWER, (35, 70))), ("gnd", (PIN_TYPE_GND, (55, 70)))]
  else if t = "ultrasonic" then
    [("trig", (PIN_TYPE_COMPONENT, (10, 0))), ("echo", (PIN_TYPE_COMPONENT, (30, 0))),
     ("vcc", (PIN_TYPE_POWER, (10, 30))), ("gnd", (PIN_TYPE_GND, (30, 30)))]
  else if t = "bluetooth" then
    [("tx", (PIN_TYPE_COMPONENT, (0, 10))), ("rx", (PIN_TYPE_COMPONENT, (0, 25))),
     ("vcc", (PIN_TYPE_POWER, (50, 10))), ("gnd", (PIN_TYPE_GND, (50, 25)))]
  else if t = "lcd" then
    [("rs", (PIN_TYPE_COMPONENT, (10, 0))), ("en", (PIN_TYPE_COMPONENT, (25, 0))),
     ("d4", (PIN_TYPE_COMPONENT, (40, 0))), ("d5", (PIN_TYPE_COMPONENT, (55, 0))),
     ("d6", (PIN_TYPE_COMPONENT, (70, 0))), ("d7", (PIN_TYPE_COMPONENT, (85, 0))),
     ("vcc", (PIN_TYPE_POWER, (10, 40))), ("gnd", (PIN_TYPE_GND, (25, 40)))]
  else if t = "buzzer" then
    [("plus", (PIN_TYPE_COMPONENT, (15, 0))), ("minus", (PIN_TYPE_COMPONENT, (15, 30)))]
  else []

/-- `Component._get_default_size`. -/
def defaultSize (t : String) : Int × Int :=
  if t = "arduinouno" then (100, 160)
  else if t = "led" then (30, 30)
  else if t = "button" then (40, 40)
  else if t = "resistor" then (60, 20)
  else if t = "potentiometer" then (50, 40)
  else if t = "servo" then (60, 40)
  else if t = "motor" then (50, 50)
  else if t = "motor_driver" then (70, 70)
  else if t = "ultrasonic" then (60, 30)
  else if t = "bluetooth" then (50, 40)
  else if t = "lcd" then (80, 40)
  else if t = "buzzer" then (30, 30)
  else (40, 40)

/-- `Component._get_default_color`. -/
def defaultColor (t : String) : Int × Int × Int :=
  if t = "arduinouno" then (0, 120, 0)
  else if t = "led" then (255, 100, 100)
  else if t = "button" then (100, 100, 100)
  else if t = "resistor" then (200, 180, 0)
  else if t = "potentiometer" then (150, 150, 0)
  else if t = "servo" then (100, 100, 200)
  else if t = "motor" then (150, 50, 150)
  else if t = "motor_driver" then (50, 150, 150)
  else if t = "ultrasonic" then (0, 150, 200)
  else if t = "bluetooth" then (0, 0, 150)
  else if t = "lcd" then (100, 200, 200)
  else if t = "buzzer" then (200, 100, 0)
  else (150, 150, 150)

/-- `Component`: a typed device instance. -/
structure Component where
  id : String
  type : String
  position : Int × Int
  properties : List (String × PropVal)
  connections : List (String × String)
  width : Int
  height : Int
  color : Int × Int × Int
  pins : List (String × Pin)
  deriving DecidableEq, Repr

/-- `Component._create_pins`: build the pin dict from the layout table. -/
def createPins (t component_id : String) : List (String × Pin) :=
  (pinConfigs t).map (fun e => (e.1, mkPin e.1 e.2.1 component_id e.2.2))

/-- `Component.__init__` with an explicit (non-empty) id.  The `uuid4`
fallback for a missing/falsy id is not modelled: every call site in the
modelled code supplies an id. -/
def mkComponent (id ctype : String) (position : Int × Int)
    (properties : List (String × PropVal)) (connections : List (String × ConnVal)) :
    Component :=
  let t := pyLower ctype
  { id := id
    type := t
    position := position
    properties := properties
    connections := connections.map (fun e => (e.1, e.2.pyStr))
    width := (defaultSize t).1
    height := (defaultSize t).2
    color := defaultColor t
    pins := createPins t id }

/-- Per-component snapshot entry of `Circuit.simulation_state`. -/
structure CompSnapshot where
  type : String
  properties : List (String × PropVal)
  pin_states : List (String × PinState)
  deriving DecidableEq, Repr

/-- `Circuit.simulation_state`. -/
structure SimState where
  components : List (String × CompSnapshot)
  deriving DecidableEq, Repr

/-- `Circuit`: aggregate root.  `selected_component` holds the selected
component's id (the source holds an object reference); `nextId` is the ghost
fresh-id counter for connections. -/
structure Circuit where
  components : List Component
  connections : List Connection
  selected_component : Option String
  simulation_state : SimState
  nextId : Nat
  deriving DecidableEq, Repr

/-- `Circuit()` with no arguments. -/
def Circuit.empty : Circuit :=
  { components := [], connections := [], selected_component := none
    simulation_state := ⟨[]⟩, nextId := 0 }

/-- `Circuit.get_component_by_id`. -/
def Circuit.get_component_by_id (c : Circuit) (component_id : String) : Option Component :=
  c.components.find? (fun comp => comp.id == component_id)

/-- `Component` part of `Circuit.get_pin_by_id`: first pin of the component
with the given id (dict iteration order). -/
def Component.findPin (comp : Component) (pin_id : String) : Option Pin :=
  (comp.pins.find? (fun e => e.2.id == pin_id)).map (·.2)

/-- `Circuit.get_pin_by_id`: first matching pin in component order. -/
def Circuit.get_pin_by_id (c : Circuit) (pin_id : String) : Option Pin :=
  c.components.findSome? (fun comp => comp.findPin pin_id)

/-- Update (in place) the first pin with the given id inside a component
list; identity when no pin matches.  This models a Python mutation of the
object returned by `get_pin_by_id`. -/
def updateCompListPin (pin_id : String) (f : Pin → Pin) : List Component → List Component
  | [] => []
  | comp :: rest =>
    if comp.pins.any (fun e => e.2.id == pin_id) then
      { comp with pins := dictModifyPinById pin_id f comp.pins } :: rest
    else comp :: updateCompListPin pin_id f rest
where
  /-- Update the first entry whose pin has the given id. -/
  dictModifyPinById (pin_id : String) (f : Pin → Pin) :
      List (String × Pin) → List (String × Pin)
    | [] => []
    | e :: rest =>
      if e.2.id == pin_id then (e.1, f e.2) :: rest
      else e :: dictModifyPinById pin_id f rest

/-- Mutation of the pin object returned by `get_pin_by_id`. -/
def Circuit.updatePinById (c : Circuit) (pin_id : String) (f : Pin → Pin) : Circuit :=
  { c with components := updateCompListPin pin_id f c.components }

/-- `Circuit.add_component`: appends a fresh component whose id is
`f"{component_type}_{len(self.components)}"`; returns the new circuit and the
created component. -/
def Circuit.add_component (c : Circuit) (component_type : String) (position : Int × Int) :
    Circuit × Component :=
  let component :=
    mkComponent (component_type ++ "_" ++ toString c.components.length) component_type
      position [] []
  ({ c with components := c.components ++ [component] }, component)

/-- `Circuit.remove_component`: cascade-removes the component's connections
from the circuit's connection list, then the component itself.  (The source
does not touch any surviving pin's `connected_to` back-references.) -/
def Circuit.remove_component (c : Circuit) (component_id : String) : Circuit :=
  match c.components.find? (fun comp => comp.id == component_id) with
  | none => c
  | some component =>
    let component_pin_ids := component.pins.map (fun e => e.2.id)
    { c with
      connections := c.connections.filter
        (fun conn => !(component_pin_ids.contains conn.pin1_id ||
                       component_pin_ids.contains conn.pin2_id))
      components := removeFirst (fun comp => comp.id == component_id) c.components
      selected_component :=
        if c.selected_component == some component_id then none
        else c.selected_component }

/-- `Circuit.add_connection`: duplicate check (either endpoint order), then
append; back-references are added to the two looked-up pins only when both
lookups succeed. -/
def Circuit.add_connection (c : Circuit) (pin1_id pin2_id : String) :
    Circuit × Option Connection :=
  if c.connections.any (fun conn =>
      (conn.pin1_id == pin1_id && conn.pin2_id == pin2_id) ||
      (conn.pin1_id == pin2_id && conn.pin2_id == pin1_id)) then
    (c, none)
  else
    let connection : Connection := { id := c.nextId, pin1_id := pin1_id, pin2_id := pin2_id }
    let c1 : Circuit :=
      { c with connections := c.connections ++ [connection], nextId := c.nextId + 1 }
    match c1.get_pin_by_id pin1_id, c1.get_pin_by_id pin2_id with
    | some _, some _ =>
      let c2 := c1.updatePinById pin1_id (fun p => p.add_connection connection)
      let c3 := c2.updatePinById pin2_id (fun p => p.add_connection connection)
      (c3, some connection)
    | _, _ => (c1, some connection)

/-- `Circuit.remove_connection`: clean both endpoints' back-references, then
drop the connection from the list. -/
def Circuit.remove_connection (c : Circuit) (connection_id : Nat) : Circuit :=
  match c.connections.find? (fun conn => conn.id == connection_id) with
  | none => c
  | some connection =>
    let c1 := c.updatePinById connection.pin1_id (fun p => p.remove_connection connection)
    let c2 := c1.updatePinById connection.pin2_id (fun p => p.remove_connection connection)
    { c2 with connections := removeFirst (fun conn => conn.id == connection_id) c2.connections }

/-- One serialized component entry (`comp_data` dict).  `id`/`type` are
`none` when the key is absent (defaulted by `update_from_data`); a missing
`properties`/`connections` key behaves exactly like an empty dict, so both
are stored as plain association lists. -/
structure CompData where
  id : Option String
  type : Option String
  properties : List (String × PropVal)
  connections : List (String × ConnVal)
  deriving DecidableEq, Repr

/-- Serialized circuit data (`data` dict); `components = none` models a dict
without a `"components"` key. -/
structure CircuitData where
  components : Option (List CompData)
  deriving DecidableEq, Repr

/-- One declared-connection entry of `Circuit._create_connections_from_components`:
skip checks, digit normalization, GND special-casing, then `add_connection`.
`arduino` and `component` are the loop's object references (only their
immutable `pins` name/id data is read). -/
def processConnEntry (c : Circuit) (arduino component : Component)
    (comp_pin_name arduino_pin_name : String) : Circuit :=
  if !(dictMem arduino.pins arduino_pin_name) && !(pyIsDigit arduino_pin_name) &&
      !(["GND", "5V", "3.3V", "VIN"].contains arduino_pin_name) then
    c
  else
    let apn := if pyIsDigit arduino_pin_name then "D" ++ arduino_pin_name else arduino_pin_name
    match dictGet? component.pins comp_pin_name with
    | none => c
    | some comp_pin =>
      let arduino_pin? :=
        if apn == "GND" && dictMem arduino.pins "GND" then dictGet? arduino.pins "GND"
        else if apn == "GND" && dictMem arduino.pins "GND2" then dictGet? arduino.pins "GND2"
        else if dictMem arduino.pins apn then dictGet? arduino.pins apn
        else none
      match arduino_pin? with
      | none => c
      | some arduino_pin => (c.add_connection comp_pin.id arduino_pin.id).1

/-- Body of the component loop of `_create_connections_from_components`:
process component `i`, skipping the Arduino itself. -/
def processComponentConnections (arduino : Component) (c : Circuit) (i : Nat) : Circuit :=
  match c.components.get? i with
  | none => c
  | some component =>
    if component.id == arduino.id then c
    else
      component.connections.foldl
        (fun acc e => processConnEntry acc arduino component e.1 (e.2)) c

/-- `Circuit._create_connections_from_components`: synthesize an Arduino when
none exists, then derive a connection for each component's declared entry. -/
def Circuit.create_connections_from_components (c : Circuit) : Circuit :=
  let ard := c.components.find? (fun comp => comp.type == "arduinouno")
  let arduino := match ard with
    | some a => a
    | none => mkComponent "arduino_main" "arduinouno" (50, 50) [] []
  let c1 := match ard with
    | some _ => c
    | none => { c with components := c.components ++ [arduino] }
  (List.range c1.components.length).foldl (processComponentConnections arduino) c1

/-- `Circuit.update_from_data`: clear the circuit, instantiate the declared
components on a 3-column grid, then derive connections. -/
def Circuit.update_from_data (c : Circuit) (data : CircuitData) : Circuit :=
  let c0 := { c with components := [], connections := [] }
  let c1 :=
    match data.components with
    | none => c0
    | some comps =>
      { c0 with
        components := comps.enum.map (fun (e : Nat × CompData) =>
          let i := e.1
          let comp_data := e.2
          let row : Nat := i / 3
          let col : Nat := i % 3
          mkComponent (comp_data.id.getD ("comp_" ++ toString i))
            (comp_data.type.getD "unknown")
            (50 + (col : Int) * 100, 50 + (row : Int) * 80)
            comp_data.properties comp_data.connections) }
  c1.create_connections_from_components

/-- `Circuit.get_data`: serialize each component, reconstructing its
`connections` dict from its pins' back-references, keeping only entries whose
other endpoint belongs to an `arduinouno`-typed component.  The emitted
`connections` association list is the built dict (an empty dict stands for the
omitted key). -/
def Circuit.get_data (c : Circuit) : CircuitData :=
  ⟨some (c.components.map (fun component =>
    let conns := component.pins.foldl (fun acc e =>
      let pin_name := e.1
      let pin := e.2
      pin.connected_to.foldl (fun acc2 connection =>
        let other_pin_id :=
          if connection.pin1_id == pin.id then connection.pin2_id else connection.pin1_id
        match c.get_pin_by_id other_pin_id with
        | none => acc2
        | some other_pin =>
          match c.get_component_by_id other_pin.component_id with
          | none => acc2
          | some other_component =>
            if other_component.type == "arduinouno" then
              dictSet acc2 pin_name other_pin.name
            else acc2) acc) []
    { id := some component.id
      type := some component.type
      properties := component.properties
      connections := conns.map (fun e => (e.1, ConnVal.vstr e.2)) }))⟩

/-- Map a function over every pin of every component (state reset / seeding
loops of `simulate_step`). -/
def Circuit.mapAllPins (c : Circuit) (f : Pin → Pin) : Circuit :=
  { c with components := c.components.map (fun comp =>
      { comp with pins := comp.pins.map (fun e => (e.1, f e.2)) }) }

/-- `simulate_step` reset pass: every pin state becomes UNKNOWN. -/
def Circuit.resetPinStates (c : Circuit) : Circuit :=
  c.mapAllPins (fun p => { p with state := PIN_STATE_UNKNOWN })

/-- `simulate_step` seed pass: power pins HIGH, ground pins LOW. -/
def Circuit.seedPinStates (c : Circuit) : Circuit :=
  c.mapAllPins (fun p =>
    if p.pin_type == PIN_TYPE_POWER then { p with state := PIN_STATE_HIGH }
    else if p.pin_type == PIN_TYPE_GND then { p with state := PIN_STATE_LOW }
    else p)

/-- Mutation `pin.state = s` on the object returned by `get_pin_by_id`. -/
def Circuit.setPinStateById (c : Circuit) (pin_id : String) (s : PinState) : Circuit :=
  c.updatePinById pin_id (fun p => { p with state := s })

/-- Propagation body for one connection inside `simulate_step`. -/
def Circuit.propagateConnection (c : Circuit) (connection : Connection) : Circuit :=
  match c.get_pin_by_id connection.pin1_id, c.get_pin_by_id connection.pin2_id with
  | some pin1, some pin2 =>
    if pin1.state != PIN_STATE_UNKNOWN && pin2.state == PIN_STATE_UNKNOWN then
      c.setPinStateById connection.pin2_id pin1.state
    else if pin2.state != PIN_STATE_UNKNOWN && pin1.state == PIN_STATE_UNKNOWN then
      c.setPinStateById connection.pin1_id pin2.state
    else if pin1.state != PIN_STATE_UNKNOWN && pin2.state != PIN_STATE_UNKNOWN &&
        pin1.state != pin2.state then
      (c.setPinStateById connection.pin1_id PIN_STATE_CONFLICT).setPinStateById
        connection.pin2_id PIN_STATE_CONFLICT
    else c
  | _, _ => c

/-- One full propagation pass over all connections (the connection list is
never modified during a pass). -/
def Circuit.propagatePass (c : Circuit) : Circuit :=
  c.connections.foldl Circuit.propagateConnection c

/-- `n` propagation passes (`simulate_step` runs 5). -/
def Circuit.propagateN (c : Circuit) : Nat → Circuit
  | 0 => c
  | n + 1 => (c.propagatePass).propagateN n

/-- In-place update of component `i` (no-op when out of range). -/
def Circuit.modifyComponentAt (c : Circuit) (i : Nat) (f : Component → Component) : Circuit :=
  match c.components.get? i with
  | none => c
  | some comp => { c with components := c.components.set i (f comp) }

/-- Mutation `component.pins[name].state = s` on component `i`'s own pin. -/
def Circuit.setPinStateAt (c : Circuit) (i : Nat) (pin_name : String) (s : PinState) : Circuit :=
  c.modifyComponentAt i (fun comp =>
    { comp with pins := dictModify comp.pins pin_name (fun p => { p with state := s }) })

/-- Python `component.properties.get("pressed", False)` truthiness. -/
def pressedFlag (properties : List (String × PropVal)) : Bool :=
  match dictGet? properties "pressed" with
  | none => false
  | some v => v.truthy

/-- Per-component behavior pass of `simulate_step` (LED / button / motor). -/
def Circuit.behaviorOne (c : Circuit) (i : Nat) : Circuit :=
  match c.components.get? i with
  | none => c
  | some component =>
    if component.type == "led" then
      match dictGet? component.pins "anode", dictGet? component.pins "cathode" with
      | some anode, some cathode =>
        let v := if anode.state == PIN_STATE_HIGH && cathode.state == PIN_STATE_LOW
          then "on" else "off"
        c.modifyComponentAt i (fun comp =>
          { comp with properties := dictSet comp.properties "state" (PropVal.pstr v) })
      | _, _ => c
    else if component.type == "button" then
      if pressedFlag component.properties then
        match dictGet? component.pins "pin1", dictGet? component.pins "pin2" with
        | some pin1, some pin2 =>
          if pin1.state != PIN_STATE_UNKNOWN && pin2.state == PIN_STATE_UNKNOWN then
            c.setPinStateAt i "pin2" pin1.state
          else if pin2.state != PIN_STATE_UNKNOWN && pin1.state == PIN_STATE_UNKNOWN then
            c.setPinStateAt i "pin1" pin2.state
          else c
        | _, _ => c
      else c
    else if component.type == "motor" then
      match dictGet? component.pins "plus", dictGet? component.pins "minus" with
      | some plus, some minus =>
        let v := if plus.state == PIN_STATE_HIGH && minus.state == PIN_STATE_LOW
          then "running" else "stopped"
        c.modifyComponentAt i (fun comp =>
          { comp with properties := dictSet comp.properties "state" (PropVal.pstr v) })
      | _, _ => c
    else c

/-- The component-behavior loop of `simulate_step` (components are visited in
list order; pin-state writes by earlier buttons are visible to later
components). -/
def Circuit.behaviorPhase (c : Circuit) : Circuit :=
  (List.range c.components.length).foldl Circuit.behaviorOne c

/-- Snapshot construction of `simulate_step` (dict comprehensions). -/
def Circuit.buildSimulationState (c : Circuit) : SimState :=
  ⟨pyDict (c.components.map (fun comp =>
    (comp.id,
      ({ type := comp.type
         properties := comp.properties
         pin_states := pyDict (comp.pins.map (fun e => (e.1, e.2.state))) } : CompSnapshot))))⟩

/-- `Circuit.simulate_step`: reset, seed, 5 propagation passes, component
behavior, snapshot. -/
def Circuit.simulate_step (c : Circuit) : Circuit :=
  let c4 := (((c.resetPinStates).seedPinStates).propagateN 5).behaviorPhase
  { c4 with simulation_state := c4.buildSimulationState }

/-- State of the pin named `pin_name` on component `i` (claim-level
observation helper). -/
def Circuit.pinStateAt (c : Circuit) (i : Nat) (pin_name : String) : Option PinState :=
  (c.components.get? i).bind (fun comp => (dictGet? comp.pins pin_name).map (·.state))

/-! ### Claim-level observation and invariant definitions -/

/-- The pin objects of a component, in dict order. -/
def compPins (comp : Component) : List Pin :=
  comp.pins.map (·.2)

/-- All pins of a component list, in `get_pin_by_id` traversal order. -/
def flatPinsL (l : List Component) : List Pin :=
  l.flatMap compPins

/-- All pins of the circuit, in `get_pin_by_id` traversal order. -/
def flatPins (c : Circuit) : List Pin :=
  flatPinsL c.components

/-- The ids of all pins, in traversal order. -/
def pinIds (c : Circuit) : List String :=
  (flatPins c).map Pin.id

/-- The ghost ids of all connections. -/
def connIds (c : Circuit) : List Nat :=
  c.connections.map Connection.id

/-- State of the (first) pin with the given id. -/
def stateOfId (c : Circuit) (pid : String) : Option PinState :=
  (c.get_pin_by_id pid).map (·.state)

/-- Does a connection reference the given pin id at either endpoint? -/
def touches (pid : String) (conn : Connection) : Bool :=
  conn.pin1_id == pid || conn.pin2_id == pid

/-- The back-reference invariant of the specification: every pin's
`connected_to` list is exactly the circuit's connections referencing the
pin's id. -/
def PinInvariant (c : Circuit) : Prop :=
  ∀ p ∈ flatPins c, p.connected_to = c.connections.filter (touches p.id)

/-- Every connection endpoint resolves to a live pin id. -/
def EndpointsClosed (c : Circuit) : Prop :=
  ∀ conn ∈ c.connections, conn.pin1_id ∈ pinIds c ∧ conn.pin2_id ∈ pinIds c

/-- Structural well-formedness of a constructed component: its pin entries
are keyed by the pin name, carry the composite id built by `Pin.__init__`,
use underscore-free names, and have no duplicate names. -/
def CompWF (comp : Component) : Prop :=
  (∀ e ∈ comp.pins, e.2.id = mkPinId comp.id e.2.name ∧ e.2.name = e.1 ∧
    ('_' ∈ e.2.name.data → False)) ∧
  (comp.pins.map Prod.fst).Nodup

/-- A component id synthesized by `add_component`: a type prefix, an
underscore, and a past component count. -/
def CompIdIndexed (comp : Component) (bound : Nat) : Prop :=
  ∃ t k, comp.id = t ++ "_" ++ Nat.repr k ∧ k < bound

/-- Bundled invariant carried through the reachability induction. -/
def WF (c : Circuit) : Prop :=
  PinInvariant c ∧ (pinIds c).Nodup ∧ (connIds c).Nodup ∧
  (∀ conn ∈ c.connections, conn.id < c.nextId) ∧ EndpointsClosed c ∧
  (∀ comp ∈ c.components, CompWF comp ∧ CompIdIndexed comp c.components.length)

/-- Circuits reachable from an empty circuit by `add_component`,
`add_connection` with both endpoints resolving to live pins, and
`remove_connection`. -/
inductive ReachableNR : Circuit → Prop where
  | empty : ReachableNR Circuit.empty
  | addComponent (c : Circuit) (t : String) (pos : Int × Int) :
      ReachableNR c → ReachableNR (c.add_component t pos).1
  | addConnection (c : Circuit) (p1 p2 : String) :
      ReachableNR c → (c.get_pin_by_id p1).isSome = true →
      (c.get_pin_by_id p2).isSome = true → ReachableNR (c.add_connection p1 p2).1
  | removeConnection (c : Circuit) (k : Nat) :
      ReachableNR c → ReachableNR (c.remove_connection k)

/-- Update the first element satisfying `q` in place. -/
def updateFirst (q : α → Bool) (f : α → α) : List α → List α
  | [] => []
  | x :: xs => if q x then f x :: xs else x :: updateFirst q f xs

/-- The pin-id matching predicate of `get_pin_by_id`. -/
def idMatch (pid : String) (p : Pin) : Bool :=
  p.id == pid

/-- Decimal value of a most-significant-first digit list. -/
def parseDigits (cs : List Char) : Nat :=
  cs.foldl (fun a ch => a * 10 + (ch.toNat - 48)) 0

/-- The `(pin name, pin type)` footprint of a component. -/
def pinNameTypes (comp : Component) : List (String × String) :=
  comp.pins.map (fun e => (e.1, e.2.pin_type))

/-- Pin equality up to electrical state (used for frame conditions). -/
def pinShapeEq (a b : Pin) : Prop :=
  b.id = a.id ∧ b.name = a.name ∧ b.pin_type = a.pin_type ∧
  b.component_id = a.component_id ∧ b.position_offset = a.position_offset ∧
  b.connected_to = a.connected_to

/-- Properties frame of `simulate_step`: unchanged except possibly the
`"state"` entry, and fully unchanged unless the component is an LED or
motor. -/
def propsFrame (ty : String) (a b : List (String × PropVal)) : Prop :=
  ((ty ≠ "led" ∧ ty ≠ "motor") → b = a) ∧
  (∀ k, k ≠ "state" → dictGet? b k = dictGet? a k)

/-- Component equality up to pin states and the allowed properties update. -/
def compShapeEq (a b : Component) : Prop :=
  b.id = a.id ∧ b.type = a.type ∧ b.position = a.position ∧ b.width = a.width ∧
  b.height = a.height ∧ b.color = a.color ∧ b.connections = a.connections ∧
  List.Forall₂ (fun e1 e2 => e2.1 = e1.1 ∧ pinShapeEq e1.2 e2.2) a.pins b.pins ∧
  propsFrame a.type a.properties b.properties

/-- Circuit frame of `simulate_step`: the graph structure is untouched. -/
def FrameRel (a b : Circuit) : Prop :=
  b.connections = a.connections ∧ b.selected_component = a.selected_component ∧
  b.nextId = a.nextId ∧ List.Forall₂ compShapeEq a.components b.components

/-- The component types of a circuit, in order. -/
def typesList (c : Circuit) : List String :=
  c.components.map Component.type

/-- The identity/type/position shape of a component (stable under
connection bookkeeping). -/
def compShape (comp : Component) : String × String × (Int × Int) :=
  (comp.id, comp.type, comp.position)

/-- The shapes of a component list. -/
def compShapes (l : List Component) : List (String × String × (Int × Int)) :=
  l.map compShape

/-- The Arduino-facing connection pairs of a circuit: for every connection
with one endpoint on an `arduinouno`-typed component and the other on a
non-Arduino component, the pair `(component pin name, arduino pin name)`. -/
def facingPairs (c : Circuit) : List (String × String) :=
  c.connections.filterMap (fun conn =>
    match c.get_pin_by_id conn.pin1_id, c.get_pin_by_id conn.pin2_id with
    | some p1, some p2 =>
      match c.get_component_by_id p1.component_id, c.get_component_by_id p2.component_id with
      | some comp1, some comp2 =>
        if comp1.type != "arduinouno" && comp2.type == "arduinouno" then
          some (p1.name, p2.name)
        else if comp2.type != "arduinouno" && comp1.type == "arduinouno" then
          some (p2.name, p1.name)
        else none
      | _, _ => none
    | _, _ => none)

/-- The per-component Arduino-facing `(pin name, arduino pin name)` entries
enumerated by `get_data`'s back-reference scan, in scan order (before dict
insertion). -/
def facingOf (c : Circuit) (component : Component) : List (String × String) :=
  component.pins.flatMap (fun e =>
    e.2.connected_to.filterMap (fun connection =>
      let other_pin_id :=
        if connection.pin1_id == e.2.id then connection.pin2_id else connection.pin1_id
      match c.get_pin_by_id other_pin_id with
      | none => none
      | some other_pin =>
        match c.get_component_by_id other_pin.component_id with
        | none => none
        | some other_component =>
          if other_component.type == "arduinouno" then some (e.1, other_pin.name)
          else none))

/-- All Arduino-facing entries of the non-Arduino components, in component
order. -/
def allFacing (c : Circuit) : List (String × String) :=
  c.components.flatMap (fun comp =>
    if comp.type == "arduinouno" then [] else facingOf c comp)

/-- A component exactly as the modelled constructors build it: type already
lowered, pin dict keyed by the catalog names of its type, each pin carrying
its key as name, the composite id, and the owning component's id. -/
def CompCatalog (comp : Component) : Prop :=
  pyLower comp.type = comp.type ∧
  comp.pins.map Prod.fst = (pinConfigs comp.type).map Prod.fst ∧
  ∀ e ∈ comp.pins, e.2.name = e.1 ∧ e.2.id = mkPinId comp.id e.1 ∧
    e.2.component_id = comp.id

/-- Everything `_create_connections_from_components` and the facing-pair
observation read from a component, apart from the mutable back-references
and states. -/
def compConnShape (comp : Component) :
    String × String × List (String × String) × List (String × String × String × String) :=
  (comp.id, comp.type, comp.connections,
    comp.pins.map (fun e => (e.1, e.2.id, e.2.name, e.2.component_id)))

/-- The pin names of the Arduino catalog entry. -/
def ardNames : List String :=
  (pinConfigs "arduinouno").map Prod.fst

/-- The connection-creation jobs contributed by one rebuilt component:
none for the chosen Arduino itself, otherwise one `(component id, pin name,
arduino pin name)` job per declared entry. -/
def jobsOf (c : Circuit) (aid : String) (comp : Component) :
    List (String × String × String) :=
  if comp.id == aid then [] else (facingOf c comp).map (fun e => (comp.id, e.1, e.2))

/-- The connections created for a job list, with consecutive ghost ids. -/
def buildConns (aid : String) : List (String × String × String) → Nat → List Connection
  | [], _ => []
  | job :: rest, start =>
    { id := start, pin1_id := mkPinId job.1 job.2.1, pin2_id := mkPinId aid job.2.2 } ::
      buildConns aid rest (start + 1)

/-- The serialized entry `get_data` emits for one component (see
`get_data_eq`). -/
def serComp (c : Circuit) (component : Component) : CompData :=
  { id := some component.id
    type := some component.type
    properties := component.properties
    connections := (pyDict (facingOf c component)).map (fun e => (e.1, ConnVal.vstr e.2)) }

/-- The component `update_from_data` instantiates for one indexed entry. -/
def rebuildComp (e : Nat × CompData) : Component :=
  mkComponent (e.2.id.getD ("comp_" ++ toString e.1)) (e.2.type.getD "unknown")
    (50 + ((e.1 % 3 : Nat) : Int) * 100, 50 + ((e.1 / 3 : Nat) : Int) * 80)
    e.2.properties e.2.connections

/-- The connection-relevant shape a round-tripped component must have, in
terms of the original component. -/
def rtShape (c : Circuit) (comp : Component) :
    String × String × List (String × String) × List (String × String × String × String) :=
  (comp.id, comp.type, facingOf c comp,
    (pinConfigs comp.type).map (fun pc => (pc.1, mkPinId comp.id pc.1, pc.1, comp.id)))

/-- A connection-creation job as produced by the round trip: the component
exists, is not the chosen Arduino, owns the named pin, and targets a real
Arduino pin name. -/
def ValidJob (c : Circuit) (a0 : Component) (job : String × String × String) : Prop :=
  ∃ comp ∈ c.components, comp.id = job.1 ∧ comp.id ≠ a0.id ∧
    job.2.1 ∈ comp.pins.map Prod.fst ∧ job.2.2 ∈ ardNames

/-- The facing pair a rebuilt connection job denotes: none when the job's
component is the (unique) Arduino-typed owner, else the `(pin name, arduino
pin name)` pair. -/
def jobPair (c : Circuit) (job : String × String × String) : Option (String × String) :=
  match c.components.find? (fun x => x.id == job.1) with
  | none => none
  | some comp =>
    if comp.type == "arduinouno" then none else some (job.2.1, job.2.2)

/-- The fields of a pin read by the facing-pair observation. -/
def pinRef (p : Pin) : String × String × String :=
  (p.id, p.name, p.component_id)

/-! ### Generic helper lemmas -/

theorem dictGet?_dictSet_self (d : List (String × α)) (k : String) (v : α) :
    dictGet? (dictSet d k v) k = some v := by
  induction d with
  | nil => simp [dictGet?, dictSet]
  | cons e rest ih =>
    by_cases h : e.1 = k
    · simp [dictGet?, dictSet, h]
    · simpa [dictGet?, dictSet, h] using ih

theorem dictGet?_dictSet_ne (d : List (String × α)) (k k' : String) (v : α)
    (h : k' ≠ k) : dictGet? (dictSet d k v) k' = dictGet? d k' := by
  induction d with
  | nil => simp [dictGet?, dictSet, Ne.symm h]
  | cons e rest ih =>
    by_cases he : e.1 = k
    · subst he
      simp [dictGet?, dictSet, Ne.symm h, h]
    · by_cases he' : e.1 = k'
      · simp [dictGet?, dictSet, he, he', h]
      · simpa [dictGet?, dictSet, he, he'] using ih

theorem dictMem_eq_isSome (d : List (String × α)) (k : String) :
    dictMem d k = (dictGet? d k).isSome := by
  induction d with
  | nil => simp [dictMem, dictGet?]
  | cons e rest ih =>
    by_cases h : e.1 = k
    · simp [dictMem, dictGet?, h]
    · have hb : (e.1 == k) = false := by simpa using h
      simpa [dictMem, dictGet?, h, hb] using ih

/-! ### Flat pin view of the circuit -/

theorem updateFirst_append_left (q : α → Bool) (f : α → α) (xs ys : List α)
    (h : xs.any q = true) : updateFirst q f (xs ++ ys) = updateFirst q f xs ++ ys := by
  induction xs with
  | nil => simp at h
  | cons x rest ih =>
    by_cases hx : q x
    · simp [updateFirst, hx]
    · simp only [List.any_cons, Bool.or_eq_true] at h
      rcases h with h | h

      · exact absurd h hx
      · simp [updateFirst, hx, ih h]

theorem updateFirst_append_right (q : α → Bool) (f : α → α) (xs ys : List α)
    (h : xs.any q = false) : updateFirst q f (xs ++ ys) = xs ++ updateFirst q f ys := by
  induction xs with
  | nil => simp [updateFirst]
  | cons x rest ih =>
    simp only [List.any_cons, Bool.or_eq_false_iff] at h
    simp [updateFirst, h.1, ih h.2]

theorem find?_updateFirst_self (l : List Pin) (f : Pin → Pin) (pid : String)
    (hf : ∀ p, (f p).id = p.id) :
    (updateFirst (idMatch pid) f l).find? (idMatch pid) = (l.find? (idMatch pid)).map f := by
  induction l with
  | nil => simp [updateFirst]
  | cons x rest ih =>
    by_cases hx : idMatch pid x
    · have hfx : idMatch pid (f x) = true := by
        simp only [idMatch, hf] at hx ⊢
        exact hx
      simp [updateFirst, hx, List.find?_cons_of_pos _ hfx, List.find?_cons_of_pos _ hx]
    · simp [updateFirst, hx, List.find?_cons_of_neg _ hx, ih]

theorem find?_updateFirst_ne (l : List Pin) (f : Pin → Pin) (pid pid' : String)
    (hf : ∀ p, (f p).id = p.id) (h : pid' ≠ pid) :
    (updateFirst (idMatch pid) f l).find? (idMatch pid') = l.find? (idMatch pid') := by
  induction l with
  | nil => simp [updateFirst]
  | cons x rest ih =>
    by_cases hx : idMatch pid x
    · have hx' : x.id = pid := by simpa [idMatch] using hx
      have hne : idMatch pid' (f x) = false := by
        simp [idMatch, hf, hx', Ne.symm h]
      have hne2 : idMatch pid' x = false := by
        simp [idMatch, hx', Ne.symm h]
      rw [updateFirst, if_pos hx, List.find?_cons_of_neg _ (by simp [hne]),
        List.find?_cons_of_neg _ (by simp [hne2])]
    · rw [updateFirst, if_neg hx]
      by_cases hx' : idMatch pid' x
      · rw [List.find?_cons_of_pos _ hx', List.find?_cons_of_pos _ hx']
      · rw [List.find?_cons_of_neg _ hx', List.find?_cons_of_neg _ hx', ih]

theorem dictModifyPinById_map (pid : String) (f : Pin → Pin) (pins : List (String × Pin)) :
    (updateCompListPin.dictModifyPinById pid f pins).map (·.2) =
      updateFirst (idMatch pid) f (pins.map (·.2)) := by
  induction pins with
  | nil => simp [updateCompListPin.dictModifyPinById, updateFirst]
  | cons e rest ih =>
    by_cases h : e.2.id == pid
    · simp [updateCompListPin.dictModifyPinById, updateFirst, idMatch, h]
    · simp [updateCompListPin.dictModifyPinById, updateFirst, idMatch, h, ih]

theorem flatPinsL_updateCompListPin (pid : String) (f : Pin → Pin) (l : List Component) :
    flatPinsL (updateCompListPin pid f l) = updateFirst (idMatch pid) f (flatPinsL l) := by
  induction l with
  | nil => simp [flatPinsL, updateCompListPin, updateFirst]
  | cons comp rest ih =>
    have ih' : (updateCompListPin pid f rest).flatMap compPins =
        updateFirst (idMatch pid) f (rest.flatMap compPins) := ih
    have hany : (comp.pins.any (fun e => e.2.id == pid)) = (compPins comp).any (idMatch pid) := by
      show _ = (comp.pins.map (·.2)).any (idMatch pid)
      induction comp.pins with
      | nil => rfl
      | cons e r ihp => simp [idMatch, ihp]
    have hmap : compPins { comp with pins := updateCompListPin.dictModifyPinById pid f comp.pins } =
        updateFirst (idMatch pid) f (compPins comp) := by
      simpa [compPins] using dictModifyPinById_map pid f comp.pins
    by_cases h : comp.pins.any (fun e => e.2.id == pid)
    · rw [updateCompListPin, if_pos h]
      rw [hany] at h
      show compPins _ ++ rest.flatMap compPins = _
      rw [show flatPinsL (comp :: rest) = compPins comp ++ rest.flatMap compPins from rfl]
      rw [updateFirst_append_left _ _ _ _ h, hmap]
    · rw [updateCompListPin, if_neg h]
      rw [hany] at h
      show compPins comp ++ (updateCompListPin pid f rest).flatMap compPins = _
      rw [show flatPinsL (comp :: rest) = compPins comp ++ rest.flatMap compPins from rfl]
      rw [updateFirst_append_right _ _ _ _ (by simpa using h), ih']

theorem findPin_eq_find (comp : Component) (pid : String) :
    comp.findPin pid = (compPins comp).find? (idMatch pid) := by
  simp [Component.findPin, compPins, List.find?_map, idMatch, Function.comp_def]

theorem get_pin_by_id_eq_find (c : Circuit) (pid : String) :
    c.get_pin_by_id pid = (flatPins c).find? (idMatch pid) := by
  show c.components.findSome? (fun comp => comp.findPin pid) = _
  unfold flatPins
  induction c.components with
  | nil => simp [flatPinsL]
  | cons comp rest ih =>
    rw [List.findSome?_cons, findPin_eq_find,
      show flatPinsL (comp :: rest) = compPins comp ++ flatPinsL rest from rfl,
      List.find?_append]
    cases h : (compPins comp).find? (idMatch pid) with
    | none => exact ih
    | some p => rfl

theorem updatePinById_connections (c : Circuit) (pid : String) (f : Pin → Pin) :
    (c.updatePinById pid f).connections = c.connections := rfl

theorem updatePinById_nextId (c : Circuit) (pid : String) (f : Pin → Pin) :
    (c.updatePinById pid f).nextId = c.nextId := rfl

theorem updatePinById_selected (c : Circuit) (pid : String) (f : Pin → Pin) :
    (c.updatePinById pid f).selected_component = c.selected_component := rfl

theorem flatPins_updatePinById (c : Circuit) (pid : String) (f : Pin → Pin) :
    flatPins (c.updatePinById pid f) = updateFirst (idMatch pid) f (flatPins c) :=
  flatPinsL_updateCompListPin pid f c.components

theorem get_pin_updatePinById_self (c : Circuit) (pid : String) (f : Pin → Pin)
    (hf : ∀ p, (f p).id = p.id) :
    (c.updatePinById pid f).get_pin_by_id pid = (c.get_pin_by_id pid).map f := by
  rw [get_pin_by_id_eq_find, get_pin_by_id_eq_find, flatPins_updatePinById,
    find?_updateFirst_self _ _ _ hf]

theorem get_pin_updatePinById_ne (c : Circuit) (pid pid' : String) (f : Pin → Pin)
    (hf : ∀ p, (f p).id = p.id) (h : pid' ≠ pid) :
    (c.updatePinById pid f).get_pin_by_id pid' = c.get_pin_by_id pid' := by
  rw [get_pin_by_id_eq_find, get_pin_by_id_eq_find, flatPins_updatePinById,
    find?_updateFirst_ne _ _ _ _ hf h]

theorem stateOfId_setPinStateById_self (c : Circuit) (pid : String) (v : PinState)
    (h : (c.get_pin_by_id pid).isSome) :
    stateOfId (c.setPinStateById pid v) pid = some v := by
  obtain ⟨p, hp⟩ := Option.isSome_iff_exists.mp h
  unfold stateOfId Circuit.setPinStateById
  rw [get_pin_updatePinById_self c pid (fun q => { q with state := v }) (fun q => rfl), hp]
  rfl

theorem stateOfId_setPinStateById_ne (c : Circuit) (pid pid' : String) (v : PinState)
    (h : pid' ≠ pid) :
    stateOfId (c.setPinStateById pid v) pid' = stateOfId c pid' := by
  unfold stateOfId Circuit.setPinStateById
  rw [get_pin_updatePinById_ne c pid pid' (fun q => { q with state := v }) (fun q => rfl) h]

/-- `Pin.add_connection` appends when the connection is not already present. -/
theorem Pin.add_connection_fresh (p : Pin) (conn : Connection)
    (h : ∀ k ∈ p.connected_to, k.id ≠ conn.id) :
    p.add_connection conn = { p with connected_to := p.connected_to ++ [conn] } := by
  unfold Pin.add_connection
  rw [if_neg]
  simp only [List.any_eq_true, not_exists, not_and]
  intro k hk
  simp [h k hk]

/-! ### C9: component catalog -/

/-- **C9** (confirmed).  For each of the 12 catalog component types,
construction (case-insensitively) yields exactly the pin names and pin types
of the fixed layout table, and any unknown type yields an empty pin set, the
default 40x40 size and the default gray color (construction is total, so no
exception is possible). -/
theorem C9_catalog_pin_sets (id : String) (pos : Int × Int)
    (props : List (String × PropVal)) (conns : List (String × ConnVal)) (s : String) :
    (pyLower s = "arduinouno" → pinNameTypes (mkComponent id s pos props conns) =
      [("D0", "digital"), ("D1", "digital"), ("D2", "digital"), ("D3", "digital"),
       ("D4", "digital"), ("D5", "digital"), ("D6", "digital"), ("D7", "digital"),
       ("D8", "digital"), ("D9", "digital"), ("D10", "digital"), ("D11", "digital"),
       ("D12", "digital"), ("D13", "digital"),
       ("A0", "analog"), ("A1", "analog"), ("A2", "analog"), ("A3", "analog"),
       ("A4", "analog"), ("A5", "analog"),
       ("5V", "power"), ("3.3V", "power"), ("GND", "gnd"), ("GND2", "gnd"),
       ("VIN", "power")]) ∧
    (pyLower s = "led" → pinNameTypes (mkComponent id s pos props conns) =
      [("anode", "component_terminal"), ("cathode", "component_terminal")]) ∧
    (pyLower s = "button" → pinNameTypes (mkComponent id s pos props conns) =
      [("pin1", "component_terminal"), ("pin2", "component_terminal")]) ∧
    (pyLower s = "resistor" → pinNameTypes (mkComponent id s pos props conns) =
      [("pin1", "component_terminal"), ("pin2", "component_terminal")]) ∧
    (pyLower s = "potentiometer" → pinNameTypes (mkComponent id s pos props conns) =
      [("wiper", "component_terminal"), ("pin1", "component_terminal"),
       ("pin2", "component_terminal")]) ∧
    (pyLower s = "servo" → pinNameTypes (mkComponent id s pos props conns) =
      [("signal", "component_terminal"), ("power", "power"), ("ground", "gnd")]) ∧
    (pyLower s = "motor" → pinNameTypes (mkComponent id s pos props conns) =
      [("plus", "component_terminal"), ("minus", "component_terminal")]) ∧
    (pyLower s = "motor_driver" → pinNameTypes (mkComponent id s pos props conns) =
      [("in1", "component_terminal"), ("in2", "component_terminal"),
       ("in3", "component_terminal"), ("in4", "component_terminal"),
       ("ena", "component_terminal"), ("enb", "component_terminal"),
       ("out1", "component_terminal"), ("out2", "component_terminal"),
       ("out3", "component_terminal"), ("out4", "component_terminal"),
       ("vcc", "power"), ("gnd", "gnd")]) ∧
    (pyLower s = "ultrasonic" → pinNameTypes (mkComponent id s pos props conns) =
      [("trig", "component_terminal"), ("echo", "component_terminal"),
       ("vcc", "power"), ("gnd", "gnd")]) ∧
    (pyLower s = "bluetooth" → pinNameTypes (mkComponent id s pos props conns) =
      [("tx", "component_terminal"), ("rx", "component_terminal"),
       ("vcc", "power"), ("gnd", "gnd")]) ∧
    (pyLower s = "lcd" → pinNameTypes (mkComponent id s pos props conns) =
      [("rs", "component_terminal"), ("en", "component_terminal"),
       ("d4", "component_terminal"), ("d5", "component_terminal"),
       ("d6", "component_terminal"), ("d7", "component_terminal"),
       ("vcc", "power"), ("gnd", "gnd")]) ∧
    (pyLower s = "buzzer" → pinNameTypes (mkComponent id s pos props conns) =
      [("plus", "component_terminal"), ("minus", "component_terminal")]) ∧
    (pyLower s ∉ ["arduinouno", "led", "button", "resistor", "potentiometer",
        "servo", "motor", "motor_driver", "ultrasonic", "bluetooth", "lcd", "buzzer"] →
      (mkComponent id s pos props conns).pins = [] ∧
      (mkComponent id s pos props conns).width = 40 ∧
      (mkComponent id s pos props conns).height = 40 ∧
      (mkComponent id s pos props conns).color = (150, 150, 150)) := by
  refine ⟨?_, ?_, ?_, ?_, ?_, ?_, ?_, ?_, ?_, ?_, ?_, ?_, ?_⟩
  case refine_13 =>
    intro h
    simp only [List.mem_cons, List.not_mem_nil, or_false, not_or] at h
    obtain ⟨h1, h2, h3, h4, h5, h6, h7, h8, h9, h10, h11, h12⟩ := h
    refine ⟨?_, ?_, ?_, ?_⟩ <;>
      simp [mkComponent, createPins, pinConfigs, defaultSize, defaultColor,
        h1, h2, h3, h4, h5, h6, h7, h8, h9, h10, h11, h12]
  all_goals
    intro h
    simp [pinNameTypes, mkComponent, createPins, pinConfigs, mkPin, h,
      PIN_TYPE_DIGITAL, PIN_TYPE_ANALOG, PIN_TYPE_POWER, PIN_TYPE_GND, PIN_TYPE_COMPONENT]

/-- Witness for C9 at concrete inputs: an uppercase catalog type and an
unknown type. -/
theorem C9_catalog_pin_sets_witness :
    pinNameTypes (mkComponent "x" "LED" (0, 0) [] []) =
      [("anode", "component_terminal"), ("cathode", "component_terminal")] ∧
    (mkComponent "x" "mystery" (0, 0) [] []).pins = [] ∧
    (mkComponent "x" "mystery" (0, 0) [] []).width = 40 ∧
    (mkComponent "x" "mystery" (0, 0) [] []).height = 40 ∧
    (mkComponent "x" "mystery" (0, 0) [] []).color = (150, 150, 150) := by
  have hled := (C9_catalog_pin_sets "x" (0, 0) [] [] "LED").2.1 (by decide)
  have hunk :=
    (C9_catalog_pin_sets "x" (0, 0) [] []
      "mystery").2.2.2.2.2.2.2.2.2.2.2.2 (by decide)
  exact ⟨hled, hunk.1, hunk.2.1, hunk.2.2.1, hunk.2.2.2⟩

/-! ### C6: duplicate connections are rejected without mutation -/

/-- **C6** (confirmed).  If a connection for the same unordered pin pair
already exists (in either endpoint order), `add_connection` returns `None`
and leaves the circuit completely unchanged. -/
theorem C6_duplicate_add_connection_noop (c : Circuit) (p1 p2 : String)
    (h : ∃ conn ∈ c.connections,
      (conn.pin1_id = p1 ∧ conn.pin2_id = p2) ∨ (conn.pin1_id = p2 ∧ conn.pin2_id = p1)) :
    c.add_connection p1 p2 = (c, none) := by
  obtain ⟨conn, hmem, hc⟩ := h
  have hcond : (c.connections.any (fun conn =>
      (conn.pin1_id == p1 && conn.pin2_id == p2) ||
      (conn.pin1_id == p2 && conn.pin2_id == p1))) = true := by
    refine List.any_eq_true.mpr ⟨conn, hmem, ?_⟩
    rcases hc with ⟨h1, h2⟩ | ⟨h1, h2⟩ <;> simp [h1, h2]
  simp [Circuit.add_connection, hcond]

/-- Witness for C6: re-adding the reversed pair of an existing connection. -/
theorem C6_duplicate_add_connection_noop_witness :
    ({ components := [], connections := [{ id := 0, pin1_id := "a", pin2_id := "b" }],
       selected_component := none, simulation_state := ⟨[]⟩, nextId := 1 } :
        Circuit).add_connection "b" "a" =
      ({ components := [], connections := [{ id := 0, pin1_id := "a", pin2_id := "b" }],
         selected_component := none, simulation_state := ⟨[]⟩, nextId := 1 }, none) :=
  C6_duplicate_add_connection_noop _ "b" "a"
    ⟨{ id := 0, pin1_id := "a", pin2_id := "b" }, by simp, Or.inr ⟨rfl, rfl⟩⟩

/-! ### C2: back-references on dangling connections -/

/-- **C2 counterexample**.  The claim says a connection with one live and one
dangling endpoint still gets a back-reference on the live pin.  In the code,
`add_connection` adds back-references only when *both* endpoints resolve:
here the live pin `pin_led_0_anode` keeps an empty `connected_to` even though
the connection is appended to the circuit's list. -/
theorem C2_counterexample :
    (((Circuit.empty.add_component "led" (0, 0)).1.add_connection
        "pin_led_0_anode" "bogus").1.connections =
      [{ id := 0, pin1_id := "pin_led_0_anode", pin2_id := "bogus" }]) ∧
    ((((Circuit.empty.add_component "led" (0, 0)).1.add_connection
        "pin_led_0_anode" "bogus").1.get_pin_by_id "pin_led_0_anode").map
      Pin.connected_to = some []) := by
  constructor
  · rfl
  · rfl

/-- **C2 amended** (corrected).  For a non-duplicate pair,
`add_connection` always appends the new `Connection` and returns it, even
when an endpoint is dangling; but pin back-references are added only when
*both* endpoints resolve (then both pins receive the connection), and when
either endpoint fails to resolve the components — hence every
`connected_to` list — are left completely unchanged. -/
theorem C2_add_connection_backrefs (c : Circuit) (p1 p2 : String)
    (hnodup : ¬ ∃ conn ∈ c.connections,
      (conn.pin1_id = p1 ∧ conn.pin2_id = p2) ∨ (conn.pin1_id = p2 ∧ conn.pin2_id = p1))
    (hfresh : ∀ p ∈ flatPins c, ∀ k ∈ p.connected_to, k.id ≠ c.nextId) :
    ((c.add_connection p1 p2).1.connections =
      c.connections ++ [{ id := c.nextId, pin1_id := p1, pin2_id := p2 }]) ∧
    ((c.add_connection p1 p2).2 =
      some { id := c.nextId, pin1_id := p1, pin2_id := p2 }) ∧
    (((c.get_pin_by_id p1).isSome = false ∨ (c.get_pin_by_id p2).isSome = false) →
      (c.add_connection p1 p2).1.components = c.components) ∧
    ((c.get_pin_by_id p1).isSome = true → (c.get_pin_by_id p2).isSome = true →
      (((c.add_connection p1 p2).1.get_pin_by_id p1).map Pin.connected_to =
        (c.get_pin_by_id p1).map (fun p =>
          p.connected_to ++ [{ id := c.nextId, pin1_id := p1, pin2_id := p2 }])) ∧
      (((c.add_connection p1 p2).1.get_pin_by_id p2).map Pin.connected_to =
        (c.get_pin_by_id p2).map (fun p =>
          p.connected_to ++ [{ id := c.nextId, pin1_id := p1, pin2_id := p2 }]))) := by
  have hcond : (c.connections.any (fun conn =>
      (conn.pin1_id == p1 && conn.pin2_id == p2) ||
      (conn.pin1_id == p2 && conn.pin2_id == p1))) = false := by
    rw [Bool.eq_false_iff]
    intro hany
    obtain ⟨conn, hmem, hc⟩ := List.any_eq_true.mp hany
    refine hnodup ⟨conn, hmem, ?_⟩
    simp only [Bool.or_eq_true, Bool.and_eq_true, beq_iff_eq] at hc
    tauto
  set conn : Connection := { id := c.nextId, pin1_id := p1, pin2_id := p2 } with hconn
  set c1 : Circuit :=
    { c with connections := c.connections ++ [conn], nextId := c.nextId + 1 } with hc1
  have hg1 : c1.get_pin_by_id p1 = c.get_pin_by_id p1 := rfl
  have hg2 : c1.get_pin_by_id p2 = c.get_pin_by_id p2 := rfl
  have hstep : c.add_connection p1 p2 =
      (match c1.get_pin_by_id p1, c1.get_pin_by_id p2 with
      | some _, some _ =>
        let c2 := c1.updatePinById p1 (fun p => p.add_connection conn)
        let c3 := c2.updatePinById p2 (fun p => p.add_connection conn)
        (c3, some conn)
      | _, _ => (c1, some conn)) := by
    unfold Circuit.add_connection
    rw [if_neg (by simp [hcond])]
  cases h1 : c.get_pin_by_id p1 with
  | none =>
    rw [hstep, hg1, hg2, h1]
    cases h2 : c.get_pin_by_id p2 <;>
      exact ⟨rfl, rfl, fun _ => rfl, fun ha _ => by simp at ha⟩
  | some pin1 =>
    cases h2 : c.get_pin_by_id p2 with
    | none =>
      rw [hstep, hg1, hg2, h1, h2]
      exact ⟨rfl, rfl, fun _ => rfl, fun _ hb => by simp at hb⟩
    | some pin2 =>
      rw [hstep, hg1, hg2, h1, h2]
      refine ⟨rfl, rfl, fun hor => ?_, fun _ _ => ?_⟩
      · rcases hor with ha | hb
        · simp at ha
        · simp at hb
      · have hfr1 : ∀ p ∈ flatPins c, (p.add_connection conn) =
            { p with connected_to := p.connected_to ++ [conn] } := by
          intro p hp
          exact Pin.add_connection_fresh p conn (fun k hk => hfresh p hp k hk)
      -- the pin found for an id is a member of flatPins
        have hmem1 : pin1 ∈ flatPins c := by
          have := get_pin_by_id_eq_find c p1
          rw [h1] at this
          exact List.mem_of_find?_eq_some this.symm
        have hmem2 : pin2 ∈ flatPins c := by
          have := get_pin_by_id_eq_find c p2
          rw [h2] at this
          exact List.mem_of_find?_eq_some this.symm
        have hidf : ∀ p : Pin, (p.add_connection conn).id = p.id := by
          intro p
          unfold Pin.add_connection
          by_cases hc' : p.connected_to.any (fun k => k.id == conn.id) <;> simp [hc']
        by_cases hpp : p1 = p2
        · subst hpp
          rw [h1] at h2
          cases h2
          constructor <;>
          · show ((((c1.updatePinById p1 (fun p => p.add_connection conn)).updatePinById p1
                (fun p => p.add_connection conn))).get_pin_by_id p1).map Pin.connected_to = _
            rw [get_pin_updatePinById_self _ _ _ hidf, get_pin_updatePinById_self _ _ _ hidf,
              hg1, h1]
            simp only [Option.map_some']
            rw [hfr1 pin1 hmem1]
            have hsecond : Pin.add_connection
                { pin1 with connected_to := pin1.connected_to ++ [conn] } conn =
                { pin1 with connected_to := pin1.connected_to ++ [conn] } := by
              unfold Pin.add_connection
              rw [if_pos (by simp)]
            rw [hsecond]
        · constructor
          · show ((((c1.updatePinById p1 (fun p => p.add_connection conn)).updatePinById p2
                (fun p => p.add_connection conn))).get_pin_by_id p1).map Pin.connected_to = _
            rw [get_pin_updatePinById_ne _ _ _ _ hidf hpp,
              get_pin_updatePinById_self _ _ _ hidf, hg1, h1]
            simp only [Option.map_some']
            rw [hfr1 pin1 hmem1]
          · show ((((c1.updatePinById p1 (fun p => p.add_connection conn)).updatePinById p2
                (fun p => p.add_connection conn))).get_pin_by_id p2).map Pin.connected_to = _
            rw [get_pin_updatePinById_self _ _ _ hidf,
              get_pin_updatePinById_ne _ _ _ _ hidf (Ne.symm hpp), hg2, h2]
            simp only [Option.map_some']
            rw [hfr1 pin2 hmem2]

/-- Witness for C2 at a concrete circuit: one LED, a dangling second pin id. -/
theorem C2_add_connection_backrefs_witness :
    (((Circuit.empty.add_component "led" (5, 5)).1.add_connection
        "pin_led_0_cathode" "nowhere").1.connections =
      (Circuit.empty.add_component "led" (5, 5)).1.connections ++
        [{ id := 0, pin1_id := "pin_led_0_cathode", pin2_id := "nowhere" }]) ∧
    ((((Circuit.empty.add_component "led" (5, 5)).1.add_connection
        "pin_led_0_cathode" "nowhere").1.components =
      (Circuit.empty.add_component "led" (5, 5)).1.components)) := by
  have h := C2_add_connection_backrefs (Circuit.empty.add_component "led" (5, 5)).1
    "pin_led_0_cathode" "nowhere"
    (by decide)
    (by decide)
  exact ⟨h.1, h.2.2.1 (by decide)⟩

/-! ### C3: GND routing in netlist derivation -/

/-- **C3 counterexample**.  Two LEDs both declare a `GND` connection.  The
claim says the second one must be routed to `GND2` because the Arduino's
`GND` pin already has a connection from the first iteration.  In the code the
`GND`-present branch always wins: both connections attach to
`pin_arduino_main_GND` and none to `pin_arduino_main_GND2`. -/
theorem C3_counterexample :
    ((Circuit.empty.update_from_data ⟨some
        [{ id := some "led1", type := some "led", properties := [],
           connections := [("cathode", ConnVal.vstr "GND"), ("anode", ConnVal.vint 13)] },
         { id := some "led2", type := some "led", properties := [],
           connections := [("cathode", ConnVal.vstr "GND")] }]⟩).connections.countP
      (touches "pin_arduino_main_GND") = 2) ∧
    ((Circuit.empty.update_from_data ⟨some
        [{ id := some "led1", type := some "led", properties := [],
           connections := [("cathode", ConnVal.vstr "GND"), ("anode", ConnVal.vint 13)] },
         { id := some "led2", type := some "led", properties := [],
           connections := [("cathode", ConnVal.vstr "GND")] }]⟩).connections.countP
      (touches "pin_arduino_main_GND2") = 0) := by
  constructor
  · rfl
  · rfl

/-- **C3 amended** (corrected).  During `_create_connections_from_components`,
an entry labelled `GND` is *always* routed to the Arduino's `GND` pin when a
pin named `GND` exists — regardless of how many connections that pin already
has; the `GND2` pin is used only when no `GND` pin exists but a `GND2` pin
does; when neither exists the entry is silently skipped. -/
theorem C3_gnd_always_primary (c : Circuit) (arduino component : Component) (pname : String) :
    (∀ gpin, dictGet? arduino.pins "GND" = some gpin →
      ∀ cpin, dictGet? component.pins pname = some cpin →
      processConnEntry c arduino component pname "GND" =
        (c.add_connection cpin.id gpin.id).1) ∧
    (dictGet? arduino.pins "GND" = none →
      ∀ g2, dictGet? arduino.pins "GND2" = some g2 →
      ∀ cpin, dictGet? component.pins pname = some cpin →
      processConnEntry c arduino component pname "GND" =
        (c.add_connection cpin.id g2.id).1) ∧
    (dictGet? arduino.pins "GND" = none → dictGet? arduino.pins "GND2" = none →
      processConnEntry c arduino component pname "GND" = c) := by
  have hskip : (!(dictMem arduino.pins "GND") && !(pyIsDigit "GND") &&
      !(["GND", "5V", "3.3V", "VIN"].contains "GND")) = false := by
    simp
  have hdig : pyIsDigit "GND" = false := rfl
  refine ⟨fun gpin hg cpin hc => ?_, fun hg g2 hg2 cpin hc => ?_, fun hg hg2 => ?_⟩
  · unfold processConnEntry
    rw [if_neg (by simp [hskip]), hdig]
    simp only [Bool.false_eq_true, if_false, hc]
    rw [if_pos (by simp [dictMem_eq_isSome, hg]), hg]
  · unfold processConnEntry
    rw [if_neg (by simp [hskip]), hdig]
    simp only [Bool.false_eq_true, if_false, hc]
    rw [if_neg (by simp [dictMem_eq_isSome, hg]),
      if_pos (by simp [dictMem_eq_isSome, hg2]), hg2]
  · unfold processConnEntry
    rw [if_neg (by simp [hskip]), hdig]
    simp only [Bool.false_eq_true, if_false]
    cases hc : dictGet? component.pins pname with
    | none => rfl
    | some cpin =>
      rw [if_neg (by simp [dictMem_eq_isSome, hg]),
        if_neg (by simp [dictMem_eq_isSome, hg2]),
        if_neg (by simp [dictMem_eq_isSome, hg])]

/-- Witness for C3 on a concrete Arduino and LED. -/
theorem C3_gnd_always_primary_witness :
    processConnEntry
      { components := [mkComponent "led1" "led" (0, 0) [] [],
          mkComponent "arduino_main" "arduinouno" (50, 50) [] []],
        connections := [], selected_component := none, simulation_state := ⟨[]⟩, nextId := 0 }
      (mkComponent "arduino_main" "arduinouno" (50, 50) [] [])
      (mkComponent "led1" "led" (0, 0) [] []) "cathode" "GND" =
    (({ components := [mkComponent "led1" "led" (0, 0) [] [],
          mkComponent "arduino_main" "arduinouno" (50, 50) [] []],
        connections := [], selected_component := none, simulation_state := ⟨[]⟩,
        nextId := 0 } : Circuit).add_connection
      (mkPin "cathode" PIN_TYPE_COMPONENT "led1" (15, 30)).id
      (mkPin "GND" PIN_TYPE_GND "arduino_main" (100, 110)).id).1 :=
  (C3_gnd_always_primary
    { components := [mkComponent "led1" "led" (0, 0) [] [],
        mkComponent "arduino_main" "arduinouno" (50, 50) [] []],
      connections := [], selected_component := none, simulation_state := ⟨[]⟩, nextId := 0 }
    (mkComponent "arduino_main" "arduinouno" (50, 50) [] [])
    (mkComponent "led1" "led" (0, 0) [] []) "cathode").1
    (mkPin "GND" PIN_TYPE_GND "arduino_main" (100, 110)) (by rfl)
    (mkPin "cathode" PIN_TYPE_COMPONENT "led1" (15, 30)) (by rfl)

/-! ### C8: Arduino synthesis in `update_from_data` -/

theorem foldl_inv {γ : Type u} {β : Type v} {δ : Type w} (g : γ → δ) (step : γ → β → γ)
    (l : List β) (c : γ) (h : ∀ acc x, x ∈ l → g (step acc x) = g acc) :
    g (l.foldl step c) = g c := by
  induction l generalizing c with
  | nil => rfl
  | cons x rest ih =>
    rw [List.foldl_cons, ih _ (fun acc y hy => h acc y (List.mem_cons_of_mem _ hy))]
    exact h c x (List.mem_cons_self x rest)

theorem compShapes_updateCompListPin (pid : String) (f : Pin → Pin) (l : List Component) :
    compShapes (updateCompListPin pid f l) = compShapes l := by
  induction l with
  | nil => rfl
  | cons comp rest ih =>
    by_cases h : comp.pins.any (fun e => e.2.id == pid)
    · rw [updateCompListPin, if_pos h]
      rfl
    · rw [updateCompListPin, if_neg h]
      simpa [compShapes] using ih

theorem compShapes_add_connection (c : Circuit) (p1 p2 : String) :
    compShapes ((c.add_connection p1 p2).1).components = compShapes c.components := by
  unfold Circuit.add_connection
  by_cases hdup : (c.connections.any (fun conn =>
      (conn.pin1_id == p1 && conn.pin2_id == p2) ||
      (conn.pin1_id == p2 && conn.pin2_id == p1)))
  · rw [if_pos hdup]
  · rw [if_neg hdup]
    dsimp only
    split
    · exact (compShapes_updateCompListPin _ _ _).trans (compShapes_updateCompListPin _ _ _)
    · rfl

theorem compShapes_processConnEntry (c : Circuit) (a comp : Component) (pn an : String) :
    compShapes (processConnEntry c a comp pn an).components = compShapes c.components := by
  unfold processConnEntry
  split
  · rfl
  · dsimp only
    split
    · rfl
    · split
      · rfl
      · exact compShapes_add_connection _ _ _

theorem compShapes_processComponentConnections (a : Component) (c : Circuit) (i : Nat) :
    compShapes (processComponentConnections a c i).components = compShapes c.components := by
  unfold processComponentConnections
  split
  · rfl
  · split
    · rfl
    · exact foldl_inv (fun acc => compShapes acc.components) _ _ c
        (fun acc (e : String × String) _ => compShapes_processConnEntry acc a _ e.1 e.2)

theorem compShapes_connloop (a : Component) (c : Circuit) (l : List Nat) :
    compShapes ((l.foldl (processComponentConnections a) c).components) =
      compShapes c.components :=
  foldl_inv (fun acc => compShapes acc.components) _ _ c
    (fun acc i _ => compShapes_processComponentConnections a acc i)

theorem mem_enumFrom_snd {l : List β} : ∀ {n : Nat} {e : Nat × β}, e ∈ l.enumFrom n → e.2 ∈ l := by
  induction l with
  | nil => intro n e h; simp [List.enumFrom] at h
  | cons x rest ih =>
    intro n e h
    rw [List.enumFrom] at h
    rcases List.mem_cons.mp h with h | h
    · subst h
      exact List.mem_cons_self _ _
    · exact List.mem_cons_of_mem _ (ih h)

theorem mem_enum_snd {l : List β} {e : Nat × β} (h : e ∈ l.enum) : e.2 ∈ l :=
  mem_enumFrom_snd h

theorem mem_type_of_compShapes {l l' : List Component} (h : compShapes l' = compShapes l)
    {comp : Component} (hm : comp ∈ l) :
    ∃ comp' ∈ l', comp'.type = comp.type ∧ comp'.id = comp.id := by
  have : compShape comp ∈ compShapes l' := by
    rw [h]
    exact List.mem_map_of_mem _ hm
  obtain ⟨comp', hmem, heq⟩ := List.mem_map.mp this
  refine ⟨comp', hmem, ?_, ?_⟩
  · exact congrArg (fun s => s.2.1) heq
  · exact congrArg (fun s => s.1) heq

/-- **C8 counterexample**.  The claim says every `update_from_data` result
has *exactly one* `arduinouno` component.  Feeding data that declares two
Arduinos keeps both. -/
theorem C8_counterexample :
    ((Circuit.empty.update_from_data ⟨some
        [{ id := some "a1", type := some "arduinouno", properties := [], connections := [] },
         { id := some "a2", type := some "arduinouno", properties := [], connections := [] }]⟩
      ).components.countP (fun comp => comp.type == "arduinouno")) = 2 := by
  rfl

/-- **C8 amended** (corrected).  After `update_from_data` the circuit
contains *at least one* `arduinouno`-typed component; when the input declares
none, a single Arduino with id `arduino_main` at the fixed position `(50,50)`
is synthesized and appended after all declared components (which remain
non-Arduino); and `update_from_data {components: []}` yields exactly the
synthesized Arduino and no connections. -/
theorem C8_arduino_guarantee :
    (∀ (c : Circuit) (data : CircuitData),
      ∃ comp ∈ (c.update_from_data data).components, comp.type = "arduinouno") ∧
    (∀ (c : Circuit) (data : CircuitData),
      (∀ cd ∈ data.components.getD [], pyLower (cd.type.getD "unknown") ≠ "arduinouno") →
      ∃ l, compShapes (c.update_from_data data).components =
          l ++ [("arduino_main", "arduinouno", ((50 : Int), (50 : Int)))] ∧
        ∀ s ∈ l, s.2.1 ≠ "arduinouno") ∧
    ((Circuit.empty.update_from_data ⟨some []⟩).components =
      [mkComponent "arduino_main" "arduinouno" (50, 50) [] []] ∧
     (Circuit.empty.update_from_data ⟨some []⟩).connections = []) := by
  refine ⟨?_, ?_, rfl, rfl⟩
  · intro c data
    set c1 := (match data.components with
      | none => { c with components := [], connections := [] }
      | some comps =>
        { { c with components := [], connections := [] } with
          components := comps.enum.map (fun (e : Nat × CompData) =>
            let i := e.1
            let comp_data := e.2
            let row : Nat := i / 3
            let col : Nat := i % 3
            mkComponent (comp_data.id.getD ("comp_" ++ toString i))
              (comp_data.type.getD "unknown")
              (50 + (col : Int) * 100, 50 + (row : Int) * 80)
              comp_data.properties comp_data.connections) }) with hc1
    have hres : c.update_from_data data = c1.create_connections_from_components := rfl
    rw [hres]
    unfold Circuit.create_connections_from_components
    cases hf : c1.components.find? (fun comp => comp.type == "arduinouno") with
    | some a =>
      simp only [hf]
      have ha : a ∈ c1.components := List.mem_of_find?_eq_some hf
      have hat : a.type = "arduinouno" := by
        have := List.find?_some hf
        simpa using this
      obtain ⟨comp', hmem, htype, -⟩ :=
        mem_type_of_compShapes (compShapes_connloop a c1 _) ha
      exact ⟨comp', hmem, htype.trans hat⟩
    | none =>
      simp only [hf]
      have harduino : mkComponent "arduino_main" "arduinouno" (50, 50) [] [] ∈
          ({ c1 with components := c1.components ++
            [mkComponent "arduino_main" "arduinouno" (50, 50) [] []] } : Circuit).components := by
        simp
      obtain ⟨comp', hmem, htype, -⟩ :=
        mem_type_of_compShapes (compShapes_connloop _ _ _) harduino
      exact ⟨comp', hmem, htype⟩
  · intro c data hnone
    -- the pre-derivation component list has no arduino, so one is appended
    set c1 := (match data.components with
      | none => { c with components := [], connections := [] }
      | some comps =>
        { { c with components := [], connections := [] } with
          components := comps.enum.map (fun (e : Nat × CompData) =>
            let i := e.1
            let comp_data := e.2
            let row : Nat := i / 3
            let col : Nat := i % 3
            mkComponent (comp_data.id.getD ("comp_" ++ toString i))
              (comp_data.type.getD "unknown")
              (50 + (col : Int) * 100, 50 + (row : Int) * 80)
              comp_data.properties comp_data.connections) }) with hc1
    have hres : c.update_from_data data = c1.create_connections_from_components := rfl
    have htypes : ∀ comp ∈ c1.components, comp.type ≠ "arduinouno" := by
      intro comp hmem
      cases hdc : data.components with
      | none =>
        rw [hc1, hdc] at hmem
        simp at hmem
      | some comps =>
        rw [hc1, hdc] at hmem
        simp only [List.mem_map] at hmem
        obtain ⟨e, he, heq⟩ := hmem
        have hsnd : e.2 ∈ comps := mem_enum_snd he
        rw [← heq]
        show pyLower (e.2.type.getD "unknown") ≠ "arduinouno"
        apply hnone
        rw [hdc]
        exact hsnd
    have hf : c1.components.find? (fun comp => comp.type == "arduinouno") = none := by
      rw [List.find?_eq_none]
      intro comp hmem
      simp [htypes comp hmem]
    rw [hres]
    unfold Circuit.create_connections_from_components
    simp only [hf]
    rw [compShapes_connloop]
    refine ⟨compShapes c1.components, ?_, ?_⟩
    · simp only [compShapes, List.map_append]
      rfl
    · intro s hs
      obtain ⟨comp, hmem, heq⟩ := List.mem_map.mp hs
      have := htypes comp hmem
      rw [← heq]
      simpa [compShape] using this

/-- Witness for C8 at concrete data declaring a single LED. -/
theorem C8_arduino_guarantee_witness :
    (∃ comp ∈ (Circuit.empty.update_from_data ⟨some
        [{ id := some "x", type := some "led", properties := [],
           connections := [] }]⟩).components, comp.type = "arduinouno") ∧
    (∃ l, compShapes (Circuit.empty.update_from_data ⟨some
        [{ id := some "x", type := some "led", properties := [],
           connections := [] }]⟩).components =
        l ++ [("arduino_main", "arduinouno", ((50 : Int), (50 : Int)))] ∧
      ∀ s ∈ l, s.2.1 ≠ "arduinouno") :=
  ⟨C8_arduino_guarantee.1 Circuit.empty _,
   C8_arduino_guarantee.2.1 Circuit.empty
     ⟨some [{ id := some "x", type := some "led", properties := [], connections := [] }]⟩
     (by decide)⟩

/-! ### Propagation-step lemmas -/

theorem get_pin_setPinStateById_isSome (c : Circuit) (a : String) (v : PinState) (b : String) :
    (((c.setPinStateById a v).get_pin_by_id b)).isSome = ((c.get_pin_by_id b)).isSome := by
  by_cases hba : b = a
  · subst hba
    unfold Circuit.setPinStateById
    rw [get_pin_updatePinById_self c b (fun q => { q with state := v }) (fun q => rfl)]
    simp
  · unfold Circuit.setPinStateById
    rw [get_pin_updatePinById_ne c a b (fun q => { q with state := v }) (fun q => rfl) hba]

theorem propagateConnection_connections (c : Circuit) (conn : Connection) :
    (c.propagateConnection conn).connections = c.connections := by
  unfold Circuit.propagateConnection
  split
  · split
    · rfl
    · split
      · rfl
      · split <;> rfl
  · rfl

theorem setPinStateById_connections (c : Circuit) (a : String) (v : PinState) :
    (c.setPinStateById a v).connections = c.connections := rfl

/-- Effect of one propagation step on an arbitrary pin id: the state is
unchanged, or it became CONFLICT, or it was UNKNOWN before the step. -/
theorem stateOfId_propagateConnection (c : Circuit) (conn : Connection) (pid : String) :
    stateOfId (c.propagateConnection conn) pid = stateOfId c pid ∨
    stateOfId (c.propagateConnection conn) pid = some PIN_STATE_CONFLICT ∨
    stateOfId c pid = some PIN_STATE_UNKNOWN := by
  cases h1 : c.get_pin_by_id conn.pin1_id with
  | none =>
    have hstep : c.propagateConnection conn = c := by
      unfold Circuit.propagateConnection
      rw [h1]
    rw [hstep]
    exact Or.inl rfl
  | some pin1 =>
    cases h2 : c.get_pin_by_id conn.pin2_id with
    | none =>
      have hstep : c.propagateConnection conn = c := by
        unfold Circuit.propagateConnection
        rw [h1, h2]
      rw [hstep]
      exact Or.inl rfl
    | some pin2 =>
      by_cases hb1 : (pin1.state != PIN_STATE_UNKNOWN && pin2.state == PIN_STATE_UNKNOWN) = true
      · have hstep : c.propagateConnection conn =
            c.setPinStateById conn.pin2_id pin1.state := by
          unfold Circuit.propagateConnection
          rw [h1, h2]
          dsimp only
          rw [if_pos hb1]
        rw [hstep]
        by_cases hp : pid = conn.pin2_id
        · subst hp
          right; right
          have hun : pin2.state = PIN_STATE_UNKNOWN := by
            have := (Bool.and_eq_true _ _).mp hb1 |>.2
            simpa using this
          unfold stateOfId
          rw [h2]
          simp [hun]
        · exact Or.inl (stateOfId_setPinStateById_ne _ _ _ _ hp)
      · by_cases hb2 : (pin2.state != PIN_STATE_UNKNOWN && pin1.state == PIN_STATE_UNKNOWN) = true
        · have hstep : c.propagateConnection conn =
              c.setPinStateById conn.pin1_id pin2.state := by
            unfold Circuit.propagateConnection
            rw [h1, h2]
            dsimp only
            rw [if_neg hb1, if_pos hb2]
          rw [hstep]
          by_cases hp : pid = conn.pin1_id
          · subst hp
            right; right
            have hun : pin1.state = PIN_STATE_UNKNOWN := by
              have := (Bool.and_eq_true _ _).mp hb2 |>.2
              simpa using this
            unfold stateOfId
            rw [h1]
            simp [hun]
          · exact Or.inl (stateOfId_setPinStateById_ne _ _ _ _ hp)
        · by_cases hb3 : (pin1.state != PIN_STATE_UNKNOWN && pin2.state != PIN_STATE_UNKNOWN &&
              pin1.state != pin2.state) = true
          · have hstep : c.propagateConnection conn =
                (c.setPinStateById conn.pin1_id PIN_STATE_CONFLICT).setPinStateById
                  conn.pin2_id PIN_STATE_CONFLICT := by
              unfold Circuit.propagateConnection
              rw [h1, h2]
              dsimp only
              rw [if_neg hb1, if_neg hb2, if_pos hb3]
            rw [hstep]
            by_cases hp2 : pid = conn.pin2_id
            · subst hp2
              right; left
              apply stateOfId_setPinStateById_self
              rw [get_pin_setPinStateById_isSome, h2]
              rfl
            · by_cases hp1 : pid = conn.pin1_id
              · subst hp1
                right; left
                rw [stateOfId_setPinStateById_ne _ _ _ _ hp2]
                exact stateOfId_setPinStateById_self c conn.pin1_id PIN_STATE_CONFLICT
                  (by rw [h1]; rfl)
              · left
                rw [stateOfId_setPinStateById_ne _ _ _ _ hp2,
                  stateOfId_setPinStateById_ne _ _ _ _ hp1]
          · have hstep : c.propagateConnection conn = c := by
              unfold Circuit.propagateConnection
              rw [h1, h2]
              dsimp only
              rw [if_neg hb1, if_neg hb2, if_neg hb3]
            rw [hstep]
            exact Or.inl rfl

/-- Both endpoints known: either the states agree and the step is a no-op, or
they disagree and both endpoints are driven to CONFLICT. -/
theorem propagateConnection_both_known (c : Circuit) (conn : Connection) (px py : Pin)
    (h1 : c.get_pin_by_id conn.pin1_id = some px) (h2 : c.get_pin_by_id conn.pin2_id = some py)
    (hx : px.state ≠ PIN_STATE_UNKNOWN) (hy : py.state ≠ PIN_STATE_UNKNOWN) :
    (px.state = py.state ∧ c.propagateConnection conn = c) ∨
    (px.state ≠ py.state ∧ conn.pin1_id ≠ conn.pin2_id ∧
      stateOfId (c.propagateConnection conn) conn.pin1_id = some PIN_STATE_CONFLICT ∧
      stateOfId (c.propagateConnection conn) conn.pin2_id = some PIN_STATE_CONFLICT) := by
  have hb1 : (px.state != PIN_STATE_UNKNOWN && py.state == PIN_STATE_UNKNOWN) = false := by
    simp [hy]
  have hb2 : (py.state != PIN_STATE_UNKNOWN && px.state == PIN_STATE_UNKNOWN) = false := by
    simp [hx]
  by_cases hxy : px.state = py.state
  · left
    refine ⟨hxy, ?_⟩
    unfold Circuit.propagateConnection
    rw [h1, h2]
    dsimp only
    rw [if_neg (by simp [hb1]), if_neg (by simp [hb2]), if_neg (by simp [hxy])]
  · right
    have hne12 : conn.pin1_id ≠ conn.pin2_id := by
      intro he
      rw [he, h2] at h1
      cases h1
      exact hxy rfl
    have hb3 : (px.state != PIN_STATE_UNKNOWN && py.state != PIN_STATE_UNKNOWN &&
        px.state != py.state) = true := by
      simp [hx, hy, hxy]
    have hstep : c.propagateConnection conn =
        (c.setPinStateById conn.pin1_id PIN_STATE_CONFLICT).setPinStateById conn.pin2_id
          PIN_STATE_CONFLICT := by
      unfold Circuit.propagateConnection
      rw [h1, h2]
      dsimp only
      rw [if_neg (by simp [hb1]), if_neg (by simp [hb2]), if_pos hb3]
    refine ⟨hxy, hne12, ?_, ?_⟩
    · rw [hstep]
      unfold stateOfId Circuit.setPinStateById
      rw [get_pin_updatePinById_ne _ _ _ (fun q => { q with state := PIN_STATE_CONFLICT })
        (fun q => rfl) hne12]
      have := stateOfId_setPinStateById_self c conn.pin1_id PIN_STATE_CONFLICT (by rw [h1]; rfl)
      exact this
    · rw [hstep]
      apply stateOfId_setPinStateById_self
      rw [get_pin_setPinStateById_isSome, h2]
      rfl

/-! ### Pass-level propagation lemmas -/

theorem fold_propagate_known (l : List Connection) (c : Circuit) (pid : String) (s : PinState)
    (hs : s ≠ PIN_STATE_UNKNOWN)
    (h : stateOfId c pid = some s ∨ stateOfId c pid = some PIN_STATE_CONFLICT) :
    stateOfId (l.foldl Circuit.propagateConnection c) pid = some s ∨
    stateOfId (l.foldl Circuit.propagateConnection c) pid = some PIN_STATE_CONFLICT := by
  induction l generalizing c with
  | nil => exact h
  | cons conn rest ih =>
    rw [List.foldl_cons]
    apply ih
    rcases stateOfId_propagateConnection c conn pid with heq | hc | hu
    · rw [heq]
      exact h
    · right
      exact hc
    · rcases h with h | h
      · rw [h] at hu
        exact absurd (Option.some.inj hu) hs
      · rw [h] at hu
        exact absurd (Option.some.inj hu) (by simp [PIN_STATE_CONFLICT, PIN_STATE_UNKNOWN])

theorem propagatePass_connections (c : Circuit) :
    (c.propagatePass).connections = c.connections :=
  foldl_inv (fun acc => acc.connections) _ _ _
    (fun acc conn _ => propagateConnection_connections acc conn)

theorem fold_propagate_conflict (l : List Connection) (c : Circuit) (pid : String)
    (h : stateOfId c pid = some PIN_STATE_CONFLICT) :
    stateOfId (l.foldl Circuit.propagateConnection c) pid = some PIN_STATE_CONFLICT := by
  rcases fold_propagate_known l c pid PIN_STATE_CONFLICT
      (by simp [PIN_STATE_CONFLICT, PIN_STATE_UNKNOWN]) (Or.inl h) with h' | h' <;> exact h'

/-- A pass over a connection list containing a wire between a HIGH/CONFLICT
pin and a LOW/CONFLICT pin leaves both ends in CONFLICT. -/
theorem pass_short (l : List Connection) (c : Circuit) (conn : Connection) (hconn : conn ∈ l)
    (a b : String) (_hab : a ≠ b)
    (hends : (conn.pin1_id = a ∧ conn.pin2_id = b) ∨ (conn.pin1_id = b ∧ conn.pin2_id = a))
    (ha : stateOfId c a = some PIN_STATE_HIGH ∨ stateOfId c a = some PIN_STATE_CONFLICT)
    (hb : stateOfId c b = some PIN_STATE_LOW ∨ stateOfId c b = some PIN_STATE_CONFLICT) :
    stateOfId (l.foldl Circuit.propagateConnection c) a = some PIN_STATE_CONFLICT ∧
    stateOfId (l.foldl Circuit.propagateConnection c) b = some PIN_STATE_CONFLICT := by
  obtain ⟨l1, l2, rfl⟩ := List.append_of_mem hconn
  rw [List.foldl_append, List.foldl_cons]
  set mid := l1.foldl Circuit.propagateConnection c with hmid
  have ha' := fold_propagate_known l1 c a PIN_STATE_HIGH
    (by simp [PIN_STATE_HIGH, PIN_STATE_UNKNOWN]) ha
  have hb' := fold_propagate_known l1 c b PIN_STATE_LOW
    (by simp [PIN_STATE_LOW, PIN_STATE_UNKNOWN]) hb
  rw [← hmid] at ha' hb'
  -- after processing `conn` both ends are CONFLICT
  have key : stateOfId (mid.propagateConnection conn) a = some PIN_STATE_CONFLICT ∧
      stateOfId (mid.propagateConnection conn) b = some PIN_STATE_CONFLICT := by
    have hsa : ∃ pa, mid.get_pin_by_id a = some pa ∧
        (pa.state = PIN_STATE_HIGH ∨ pa.state = PIN_STATE_CONFLICT) := by
      rcases ha' with h | h <;>
        obtain ⟨pa, hpa, hst⟩ := Option.map_eq_some'.mp h
      · exact ⟨pa, hpa, Or.inl hst⟩
      · exact ⟨pa, hpa, Or.inr hst⟩
    have hsb : ∃ pb, mid.get_pin_by_id b = some pb ∧
        (pb.state = PIN_STATE_LOW ∨ pb.state = PIN_STATE_CONFLICT) := by
      rcases hb' with h | h <;>
        obtain ⟨pb, hpb, hst⟩ := Option.map_eq_some'.mp h
      · exact ⟨pb, hpb, Or.inl hst⟩
      · exact ⟨pb, hpb, Or.inr hst⟩
    obtain ⟨pa, hpa, hsta⟩ := hsa
    obtain ⟨pb, hpb, hstb⟩ := hsb
    have hxne : pa.state ≠ PIN_STATE_UNKNOWN := by
      rcases hsta with h | h <;> simp [h, PIN_STATE_HIGH, PIN_STATE_CONFLICT, PIN_STATE_UNKNOWN]
    have hyne : pb.state ≠ PIN_STATE_UNKNOWN := by
      rcases hstb with h | h <;> simp [h, PIN_STATE_LOW, PIN_STATE_CONFLICT, PIN_STATE_UNKNOWN]
    rcases hends with ⟨he1, he2⟩ | ⟨he1, he2⟩
    · rcases propagateConnection_both_known mid conn pa pb (he1 ▸ hpa) (he2 ▸ hpb)
          hxne hyne with ⟨heq, hnoop⟩ | ⟨-, -, hc1, hc2⟩
      · -- equal known states on a power/ground pair force CONFLICT on both
        have hcc : pa.state = PIN_STATE_CONFLICT := by
          rcases hsta with h | h
          · rcases hstb with h' | h'
            · rw [h, h'] at heq
              exact absurd heq (by simp [PIN_STATE_HIGH, PIN_STATE_LOW])
            · rw [h, h'] at heq
              exact absurd heq (by simp [PIN_STATE_HIGH, PIN_STATE_CONFLICT])
          · exact h
        have hcc' : pb.state = PIN_STATE_CONFLICT := heq ▸ hcc
        rw [hnoop]
        constructor
        · rw [stateOfId, hpa, Option.map_some', hcc]
        · rw [stateOfId, hpb, Option.map_some', hcc']
      · exact ⟨he1 ▸ hc1, he2 ▸ hc2⟩
    · rcases propagateConnection_both_known mid conn pb pa (he1 ▸ hpb) (he2 ▸ hpa)
          hyne hxne with ⟨heq, hnoop⟩ | ⟨-, -, hc1, hc2⟩
      · have hcc : pa.state = PIN_STATE_CONFLICT := by
          rcases hsta with h | h
          · rcases hstb with h' | h'
            · rw [h, h'] at heq
              exact absurd heq (by simp [PIN_STATE_HIGH, PIN_STATE_LOW])
            · rw [h, h'] at heq
              exact absurd heq.symm (by simp [PIN_STATE_HIGH, PIN_STATE_CONFLICT])
          · exact h
        have hcc' : pb.state = PIN_STATE_CONFLICT := by
          rcases hstb with h' | h'
          · rw [← heq] at hcc
            rw [h'] at hcc
            exact absurd hcc (by simp [PIN_STATE_LOW, PIN_STATE_CONFLICT])
          · exact h'
        rw [hnoop]
        constructor
        · rw [stateOfId, hpa, Option.map_some', hcc]
        · rw [stateOfId, hpb, Option.map_some', hcc']
      · exact ⟨he2 ▸ hc2, he1 ▸ hc1⟩
  exact ⟨fold_propagate_conflict l2 _ a key.1, fold_propagate_conflict l2 _ b key.2⟩

theorem propagateN_conflict (c : Circuit) (pid : String) (n : Nat)
    (h : stateOfId c pid = some PIN_STATE_CONFLICT) :
    stateOfId (c.propagateN n) pid = some PIN_STATE_CONFLICT := by
  induction n generalizing c with
  | zero => exact h
  | succ n ih =>
    show stateOfId ((c.propagatePass).propagateN n) pid = _
    exact ih _ (fold_propagate_conflict c.connections c pid h)

/-! ### Reset/seed and behavior-pass lemmas -/

theorem flatPins_mapAllPins (c : Circuit) (f : Pin → Pin) :
    flatPins (c.mapAllPins f) = (flatPins c).map f := by
  show flatPinsL (c.components.map _) = (flatPinsL c.components).map f
  induction c.components with
  | nil => rfl
  | cons comp rest ih =>
    show compPins _ ++ flatPinsL (rest.map _) = ((compPins comp ++ flatPinsL rest)).map f
    rw [List.map_append, ih]
    congr 1
    show (comp.pins.map (fun e => (e.1, f e.2))).map (·.2) = (comp.pins.map (·.2)).map f
    rw [List.map_map, List.map_map]
    rfl

theorem find?_id_of_nodup (L : List Pin) (p : Pin) (hp : p ∈ L)
    (hnd : (L.map Pin.id).Nodup) : L.find? (idMatch p.id) = some p := by
  cases hfind : L.find? (idMatch p.id) with
  | none => exact absurd (List.find?_eq_none.mp hfind p hp) (by simp [idMatch])
  | some q =>
    have hq : q ∈ L := List.mem_of_find?_eq_some hfind
    have hqid : q.id = p.id := by
      have := List.find?_some hfind
      simpa [idMatch] using this
    rw [List.inj_on_of_nodup_map hnd hq hp hqid]

theorem find?_map_id_preserving (L : List Pin) (g : Pin → Pin) (pid : String)
    (hg : ∀ p, (g p).id = p.id) :
    (L.map g).find? (idMatch pid) = (L.find? (idMatch pid)).map g := by
  rw [List.find?_map]
  have hfun : (idMatch pid ∘ g) = idMatch pid := by
    funext p
    simp [idMatch, Function.comp_def, hg]
  rw [hfun]

/-- State of a pin after the reset and seed passes, looked up by its id. -/
theorem stateOfId_reset_seed (c : Circuit) (p : Pin) (hp : p ∈ flatPins c)
    (hnd : (pinIds c).Nodup) :
    stateOfId ((c.resetPinStates).seedPinStates) p.id =
      some (if p.pin_type == PIN_TYPE_POWER then PIN_STATE_HIGH
        else if p.pin_type == PIN_TYPE_GND then PIN_STATE_LOW else PIN_STATE_UNKNOWN) := by
  have hflat : flatPins ((c.resetPinStates).seedPinStates) =
      (flatPins c).map (fun q =>
        let q' : Pin := { q with state := PIN_STATE_UNKNOWN }
        if q'.pin_type == PIN_TYPE_POWER then { q' with state := PIN_STATE_HIGH }
        else if q'.pin_type == PIN_TYPE_GND then { q' with state := PIN_STATE_LOW }
        else q') := by
    unfold Circuit.resetPinStates Circuit.seedPinStates
    rw [flatPins_mapAllPins, flatPins_mapAllPins, List.map_map]
    rfl
  have hgid : ∀ q : Pin,
      ((fun q =>
        let q' : Pin := { q with state := PIN_STATE_UNKNOWN }
        if q'.pin_type == PIN_TYPE_POWER then { q' with state := PIN_STATE_HIGH }
        else if q'.pin_type == PIN_TYPE_GND then { q' with state := PIN_STATE_LOW }
        else q') q).id = q.id := by
    intro q
    dsimp only
    split
    · rfl
    · split <;> rfl
  unfold stateOfId
  rw [get_pin_by_id_eq_find, hflat, find?_map_id_preserving _ _ _ hgid,
    find?_id_of_nodup (flatPins c) p hp hnd]
  dsimp only [Option.map_some']
  split
  · rfl
  · split <;> rfl

theorem dictModify_absent (d : List (String × α)) (k : String) (f : α → α)
    (h : dictGet? d k = none) : dictModify d k f = d := by
  induction d with
  | nil => rfl
  | cons e rest ih =>
    by_cases he : e.1 = k
    · simp [dictGet?, he] at h
    · rw [dictModify, if_neg he, ih (by simpa [dictGet?, he] using h)]

theorem dictModify_decomp (d : List (String × α)) (k : String) (f : α → α) (v : α)
    (h : dictGet? d k = some v) :
    ∃ d1 d2, d = d1 ++ (k, v) :: d2 ∧ dictModify d k f = d1 ++ (k, f v) :: d2 := by
  induction d with
  | nil => simp [dictGet?] at h
  | cons e rest ih =>
    by_cases he : e.1 = k
    · have hv : e.2 = v := by simpa [dictGet?, he] using h
      refine ⟨[], rest, ?_, ?_⟩
      · simp [← he, ← hv]
      · rw [dictModify, if_pos he]
        simp [he, hv]
    · obtain ⟨d1, d2, hd, hm⟩ := ih (by simpa [dictGet?, he] using h)
      refine ⟨e :: d1, d2, by rw [List.cons_append, ← hd], ?_⟩
      rw [dictModify, if_neg he, hm]
      rfl

theorem flatPinsL_set (l : List Component) (i : Nat) (comp comp' : Component)
    (hget : l.get? i = some comp) :
    ∃ L1 L2, flatPinsL l = L1 ++ (compPins comp ++ L2) ∧
      flatPinsL (l.set i comp') = L1 ++ (compPins comp' ++ L2) := by
  induction l generalizing i with
  | nil => simp at hget
  | cons x rest ih =>
    cases i with
    | zero =>
      have hx : x = comp := by
        rw [List.get?_cons_zero] at hget
        exact Option.some.inj hget
      subst hx
      exact ⟨[], flatPinsL rest, rfl, rfl⟩
    | succ n =>
      rw [List.get?_cons_succ] at hget
      obtain ⟨L1, L2, h1, h2⟩ := ih n hget
      refine ⟨compPins x ++ L1, L2, ?_, ?_⟩
      · show compPins x ++ flatPinsL rest = _
        rw [h1, List.append_assoc]
      · show compPins x ++ flatPinsL (rest.set n comp') = _
        rw [h2, List.append_assoc]

theorem stateOfId_of_flatPins_eq (c c' : Circuit) (h : flatPins c' = flatPins c)
    (pid : String) : stateOfId c' pid = stateOfId c pid := by
  unfold stateOfId
  rw [get_pin_by_id_eq_find, get_pin_by_id_eq_find, h]

theorem stateOfId_modifyComponentAt_props (c : Circuit) (i : Nat) (f : Component → Component)
    (hf : ∀ comp, (f comp).pins = comp.pins) (pid : String) :
    stateOfId (c.modifyComponentAt i f) pid = stateOfId c pid := by
  unfold Circuit.modifyComponentAt
  cases hget : c.components.get? i with
  | none => rfl
  | some comp =>
    obtain ⟨L1, L2, h1, h2⟩ := flatPinsL_set c.components i comp (f comp) hget
    apply stateOfId_of_flatPins_eq
    show flatPinsL (c.components.set i (f comp)) = flatPinsL c.components
    rw [h1, h2]
    congr 2
    show (f comp).pins.map (·.2) = comp.pins.map (·.2)
    rw [hf]

theorem find?_replace_one (L1 L2 : List Pin) (p0 p0' : Pin) (hid : p0'.id = p0.id)
    (pid : String) :
    (L1 ++ p0' :: L2).find? (idMatch pid) = (L1 ++ p0 :: L2).find? (idMatch pid) ∨
    ((L1 ++ p0 :: L2).find? (idMatch pid) = some p0 ∧
      (L1 ++ p0' :: L2).find? (idMatch pid) = some p0') := by
  rw [List.find?_append, List.find?_append]
  cases hL1 : L1.find? (idMatch pid) with
  | some q => left; rfl
  | none =>
    by_cases hm : idMatch pid p0
    · have hm' : idMatch pid p0' = true := by
        simpa [idMatch, hid] using hm
      right
      rw [List.find?_cons_of_pos _ hm, List.find?_cons_of_pos _ hm']
      exact ⟨rfl, rfl⟩
    · have hm' : ¬ idMatch pid p0' = true := by
        simpa [idMatch, hid] using hm
      left
      rw [List.find?_cons_of_neg _ hm, List.find?_cons_of_neg _ hm']

theorem stateOfId_setPinStateAt (c : Circuit) (i : Nat) (pname : String) (v : PinState)
    (pid : String) :
    stateOfId (c.setPinStateAt i pname v) pid = stateOfId c pid ∨
    (∃ comp p0, c.components.get? i = some comp ∧ dictGet? comp.pins pname = some p0 ∧
      stateOfId c pid = some p0.state) := by
  unfold Circuit.setPinStateAt Circuit.modifyComponentAt
  cases hget : c.components.get? i with
  | none => left; rfl
  | some comp =>
    cases hdg : dictGet? comp.pins pname with
    | none =>
      left
      apply stateOfId_of_flatPins_eq
      obtain ⟨L1, L2, h1, h2⟩ := flatPinsL_set c.components i comp
        { comp with pins := dictModify comp.pins pname (fun p => { p with state := v }) } hget
      show flatPinsL (c.components.set i _) = flatPinsL c.components
      rw [h1, h2, dictModify_absent _ _ _ hdg]
    | some p0 =>
      obtain ⟨d1, d2, hd, hm⟩ :=
        dictModify_decomp comp.pins pname (fun p => { p with state := v }) p0 hdg
      set comp' : Component :=
        { comp with pins := dictModify comp.pins pname (fun p => { p with state := v }) }
        with hcomp'
      obtain ⟨L1, L2, h1, h2⟩ := flatPinsL_set c.components i comp comp' hget
      have hcp : compPins comp = d1.map (·.2) ++ p0 :: d2.map (·.2) := by
        show comp.pins.map (·.2) = _
        rw [hd]
        simp
      have hcp' : compPins comp' =
          d1.map (·.2) ++ { p0 with state := v } :: d2.map (·.2) := by
        show (dictModify comp.pins pname (fun p => { p with state := v })).map (·.2) = _
        rw [hm]
        simp
      have hflat : flatPins c = (L1 ++ d1.map (·.2)) ++ p0 :: (d2.map (·.2) ++ L2) := by
        show flatPinsL c.components = _
        rw [h1, hcp]
        simp [List.append_assoc]
      have hflat' : flatPins { c with components := c.components.set i comp' } =
          (L1 ++ d1.map (·.2)) ++ { p0 with state := v } :: (d2.map (·.2) ++ L2) := by
        show flatPinsL (c.components.set i comp') = _
        rw [h2, hcp']
        simp [List.append_assoc]
      rcases find?_replace_one (L1 ++ d1.map (·.2)) (d2.map (·.2) ++ L2) p0
          { p0 with state := v } rfl pid with heq | ⟨hfound, hfound'⟩
      · left
        unfold stateOfId
        rw [get_pin_by_id_eq_find, get_pin_by_id_eq_find, hflat', hflat, heq]
      · right
        refine ⟨comp, p0, ?_, hdg, ?_⟩
        · exact hget ▸ rfl
        · unfold stateOfId
          rw [get_pin_by_id_eq_find, hflat, hfound]
          rfl

/-- Effect of the per-component behavior pass on an arbitrary pin id: the
state is unchanged, or it was UNKNOWN before (the button bridge only ever
writes a pin that is currently UNKNOWN). -/
theorem stateOfId_behaviorOne (c : Circuit) (i : Nat) (pid : String) :
    stateOfId (c.behaviorOne i) pid = stateOfId c pid ∨
    stateOfId c pid = some PIN_STATE_UNKNOWN := by
  unfold Circuit.behaviorOne
  cases hget : c.components.get? i with
  | none => left; rfl
  | some component =>
    dsimp only
    by_cases hled : (component.type == "led") = true
    · rw [if_pos hled]
      cases ha : dictGet? component.pins "anode" with
      | none => left; rfl
      | some anode =>
        cases hcat : dictGet? component.pins "cathode" with
        | none => left; rfl
        | some cathode =>
          left
          exact stateOfId_modifyComponentAt_props c i
            (fun comp => { comp with
                           properties := dictSet comp.properties "state"
                             (PropVal.pstr (if (anode.state == PIN_STATE_HIGH &&
                               cathode.state == PIN_STATE_LOW) = true then "on" else "off")) })
            (fun comp => rfl) pid
    · rw [if_neg hled]
      by_cases hbut : (component.type == "button") = true
      · rw [if_pos hbut]
        by_cases hpress : pressedFlag component.properties = true
        · rw [if_pos hpress]
          cases h1 : dictGet? component.pins "pin1" with
          | none => left; rfl
          | some pin1 =>
            cases h2 : dictGet? component.pins "pin2" with
            | none => left; rfl
            | some pin2 =>
              dsimp only
              by_cases hc1 : (pin1.state != PIN_STATE_UNKNOWN &&
                  pin2.state == PIN_STATE_UNKNOWN) = true
              · rw [if_pos hc1]
                rcases stateOfId_setPinStateAt c i "pin2" pin1.state pid with heq | hex
                · left; exact heq
                · obtain ⟨comp', p0, hget', hdg', hst⟩ := hex
                  rw [hget] at hget'
                  rw [← Option.some.inj hget'] at hdg'
                  rw [h2] at hdg'
                  have hp0 : pin2 = p0 := Option.some.inj hdg'
                  right
                  rw [hst, ← hp0]
                  have hun : pin2.state = PIN_STATE_UNKNOWN := by
                    have := (Bool.and_eq_true _ _).mp hc1 |>.2
                    simpa using this
                  rw [hun]
              · rw [if_neg hc1]
                by_cases hc2 : (pin2.state != PIN_STATE_UNKNOWN &&
                    pin1.state == PIN_STATE_UNKNOWN) = true
                · rw [if_pos hc2]
                  rcases stateOfId_setPinStateAt c i "pin1" pin2.state pid with heq | hex
                  · left; exact heq
                  · obtain ⟨comp', p0, hget', hdg', hst⟩ := hex
                    rw [hget] at hget'
                    rw [← Option.some.inj hget'] at hdg'
                    rw [h1] at hdg'
                    have hp0 : pin1 = p0 := Option.some.inj hdg'
                    right
                    rw [hst, ← hp0]
                    have hun : pin1.state = PIN_STATE_UNKNOWN := by
                      have := (Bool.and_eq_true _ _).mp hc2 |>.2
                      simpa using this
                    rw [hun]
                · rw [if_neg hc2]
                  left
                  rfl
        · rw [if_neg hpress]
          left
          rfl
      · rw [if_neg hbut]
        by_cases hmot : (component.type == "motor") = true
        · rw [if_pos hmot]
          cases hp : dictGet? component.pins "plus" with
          | none => left; rfl
          | some plus =>
            cases hm : dictGet? component.pins "minus" with
            | none => left; rfl
            | some minus =>
              left
              exact stateOfId_modifyComponentAt_props c i
                (fun comp => { comp with
                               properties := dictSet comp.properties "state"
                                 (PropVal.pstr (if (plus.state == PIN_STATE_HIGH &&
                                   minus.state == PIN_STATE_LOW) = true
                                   then "running" else "stopped")) })
                (fun comp => rfl) pid
        · rw [if_neg hmot]
          left
          rfl

theorem fold_behavior_known (l : List Nat) (c : Circuit) (pid : String) (s : PinState)
    (hs : s ≠ PIN_STATE_UNKNOWN) (h : stateOfId c pid = some s) :
    stateOfId (l.foldl Circuit.behaviorOne c) pid = some s := by
  induction l generalizing c with
  | nil => exact h
  | cons i rest ih =>
    rw [List.foldl_cons]
    apply ih
    rcases stateOfId_behaviorOne c i pid with heq | hu
    · rw [heq, h]
    · rw [h] at hu
      exact absurd (Option.some.inj hu) hs

theorem behaviorPhase_known (c : Circuit) (pid : String) (s : PinState)
    (hs : s ≠ PIN_STATE_UNKNOWN) (h : stateOfId c pid = some s) :
    stateOfId (c.behaviorPhase) pid = some s :=
  fold_behavior_known _ c pid s hs h

/-! ### C5: CONFLICT is sticky and terminal within a step -/

/-- **C5 counterexample**.  The claim's stated mechanism is that CONFLICT
"compares unequal to everything, including itself".  In the code CONFLICT is
the plain value `-1` and the propagation loop compares states with ordinary
equality: CONFLICT compares *equal* to itself (the `!=` used by the
propagation branch yields `false` on the pair (CONFLICT, CONFLICT)). -/
theorem C5_counterexample : (PIN_STATE_CONFLICT != PIN_STATE_CONFLICT) = false := by
  rfl

/-- **C5 amended** (corrected).  Once a pin's state is CONFLICT at any point
inside `simulate_step`, it stays CONFLICT through every later propagation
pass, through the component-behavior (button) post-pass, and into the final
snapshot assignment — not because CONFLICT compares unequal to itself (it
does not), but because propagation overwrites a known state only with
CONFLICT, equal states are left untouched, and the button pass writes only
pins that are currently UNKNOWN. -/
theorem C5_conflict_sticky (c : Circuit) (pid : String) (n : Nat)
    (h : stateOfId c pid = some PIN_STATE_CONFLICT) :
    stateOfId ((c.propagateN n).behaviorPhase) pid = some PIN_STATE_CONFLICT ∧
    stateOfId { (c.propagateN n).behaviorPhase with
        simulation_state := ((c.propagateN n).behaviorPhase).buildSimulationState } pid =
      some PIN_STATE_CONFLICT := by
  have h1 : stateOfId ((c.propagateN n).behaviorPhase) pid = some PIN_STATE_CONFLICT :=
    behaviorPhase_known _ pid PIN_STATE_CONFLICT
      (by simp [PIN_STATE_CONFLICT, PIN_STATE_UNKNOWN]) (propagateN_conflict c pid n h)
  exact ⟨h1, h1⟩

/-- Witness for C5: a servo circuit whose power pin has been driven to
CONFLICT mid-step stays CONFLICT after two more passes and the behavior
pass. -/
theorem C5_conflict_sticky_witness :
    stateOfId (((((Circuit.empty.add_component "servo" (0, 0)).1.setPinStateById
        "pin_servo_0_power" PIN_STATE_CONFLICT).propagateN 2).behaviorPhase))
      "pin_servo_0_power" = some PIN_STATE_CONFLICT :=
  (C5_conflict_sticky ((Circuit.empty.add_component "servo" (0, 0)).1.setPinStateById
      "pin_servo_0_power" PIN_STATE_CONFLICT) "pin_servo_0_power" 2 (by rfl)).1

/-! ### C7: a direct power-to-ground wire settles both ends to CONFLICT -/

/-- **C7** (confirmed).  In a circuit with distinct pin ids, a `power`-typed
pin wired by a connection directly to a `gnd`-typed pin leaves both pins in
state CONFLICT after one `simulate_step`: the seed phase forces them HIGH and
LOW, the first propagation pass marks both CONFLICT, and CONFLICT is sticky
for the remainder of the step. -/
theorem C7_power_ground_short (c : Circuit) (p g : Pin) (conn : Connection)
    (hp : p ∈ flatPins c) (hg : g ∈ flatPins c)
    (hpt : p.pin_type = PIN_TYPE_POWER) (hgt : g.pin_type = PIN_TYPE_GND)
    (hconn : conn ∈ c.connections)
    (hends : (conn.pin1_id = p.id ∧ conn.pin2_id = g.id) ∨
      (conn.pin1_id = g.id ∧ conn.pin2_id = p.id))
    (hnd : (pinIds c).Nodup) :
    stateOfId (c.simulate_step) p.id = some PIN_STATE_CONFLICT ∧
    stateOfId (c.simulate_step) g.id = some PIN_STATE_CONFLICT := by
  have hne : p.id ≠ g.id := by
    intro he
    have := List.inj_on_of_nodup_map hnd hp hg he
    rw [this] at hpt
    rw [hpt] at hgt
    exact absurd hgt (by simp [PIN_TYPE_POWER, PIN_TYPE_GND])
  set s0 := (c.resetPinStates).seedPinStates with hs0
  have hpa : stateOfId s0 p.id = some PIN_STATE_HIGH := by
    rw [hs0, stateOfId_reset_seed c p hp hnd, hpt]
    rfl
  have hga : stateOfId s0 g.id = some PIN_STATE_LOW := by
    rw [hs0, stateOfId_reset_seed c g hg hnd, hgt]
    rfl
  have hconn0 : conn ∈ s0.connections := hconn
  have hpass : stateOfId (s0.propagatePass) p.id = some PIN_STATE_CONFLICT ∧
      stateOfId (s0.propagatePass) g.id = some PIN_STATE_CONFLICT :=
    pass_short s0.connections s0 conn hconn0 p.id g.id hne hends
      (Or.inl hpa) (Or.inl hga)
  have h5 : stateOfId (s0.propagateN 5) p.id = some PIN_STATE_CONFLICT ∧
      stateOfId (s0.propagateN 5) g.id = some PIN_STATE_CONFLICT := by
    show stateOfId ((s0.propagatePass).propagateN 4) p.id = _ ∧
      stateOfId ((s0.propagatePass).propagateN 4) g.id = _
    exact ⟨propagateN_conflict _ _ 4 hpass.1, propagateN_conflict _ _ 4 hpass.2⟩
  have hbp : stateOfId ((s0.propagateN 5).behaviorPhase) p.id = some PIN_STATE_CONFLICT :=
    behaviorPhase_known _ _ _ (by simp [PIN_STATE_CONFLICT, PIN_STATE_UNKNOWN]) h5.1
  have hbg : stateOfId ((s0.propagateN 5).behaviorPhase) g.id = some PIN_STATE_CONFLICT :=
    behaviorPhase_known _ _ _ (by simp [PIN_STATE_CONFLICT, PIN_STATE_UNKNOWN]) h5.2
  exact ⟨hbp, hbg⟩

/-- Witness for C7: a servo's own power and ground pins wired together. -/
theorem C7_power_ground_short_witness :
    stateOfId ((((Circuit.empty.add_component "servo" (0, 0)).1.add_connection
        "pin_servo_0_power" "pin_servo_0_ground").1).simulate_step)
      "pin_servo_0_power" = some PIN_STATE_CONFLICT ∧
    stateOfId ((((Circuit.empty.add_component "servo" (0, 0)).1.add_connection
        "pin_servo_0_power" "pin_servo_0_ground").1).simulate_step)
      "pin_servo_0_ground" = some PIN_STATE_CONFLICT :=
  C7_power_ground_short _
    { id := "pin_servo_0_power", name := "power", pin_type := PIN_TYPE_POWER,
      component_id := "servo_0", position_offset := (15, 40),
      connected_to :=
        [{ id := 0, pin1_id := "pin_servo_0_power", pin2_id := "pin_servo_0_ground" }],
      state := PIN_STATE_UNKNOWN }
    { id := "pin_servo_0_ground", name := "ground", pin_type := PIN_TYPE_GND,
      component_id := "servo_0", position_offset := (45, 40),
      connected_to :=
        [{ id := 0, pin1_id := "pin_servo_0_power", pin2_id := "pin_servo_0_ground" }],
      state := PIN_STATE_UNKNOWN }
    { id := 0, pin1_id := "pin_servo_0_power", pin2_id := "pin_servo_0_ground" }
    (by decide) (by decide) rfl rfl (by decide)
    (Or.inl ⟨rfl, rfl⟩) (by decide)

/-! ### C10: simulate_step frame conditions -/

theorem pinShapeEq_refl (p : Pin) : pinShapeEq p p :=
  ⟨rfl, rfl, rfl, rfl, rfl, rfl⟩

theorem pinShapeEq_trans {a b c : Pin} (h1 : pinShapeEq a b) (h2 : pinShapeEq b c) :
    pinShapeEq a c :=
  ⟨h2.1.trans h1.1, h2.2.1.trans h1.2.1, h2.2.2.1.trans h1.2.2.1,
   h2.2.2.2.1.trans h1.2.2.2.1, h2.2.2.2.2.1.trans h1.2.2.2.2.1,
   h2.2.2.2.2.2.trans h1.2.2.2.2.2⟩

theorem propsFrame_refl (ty : String) (a : List (String × PropVal)) : propsFrame ty a a :=
  ⟨fun _ => rfl, fun _ _ => rfl⟩

theorem propsFrame_trans {ty : String} {a b c : List (String × PropVal)}
    (h1 : propsFrame ty a b) (h2 : propsFrame ty b c) : propsFrame ty a c :=
  ⟨fun hn => (h2.1 hn).trans (h1.1 hn), fun k hk => (h2.2 k hk).trans (h1.2 k hk)⟩

theorem entryRel_refl (e : String × Pin) :
    (fun e1 e2 : String × Pin => e2.1 = e1.1 ∧ pinShapeEq e1.2 e2.2) e e :=
  ⟨rfl, pinShapeEq_refl e.2⟩

theorem forall2_refl {R : α → α → Prop} (hrefl : ∀ x, R x x) (l : List α) :
    List.Forall₂ R l l := by
  induction l with
  | nil => exact List.Forall₂.nil
  | cons x rest ih => exact List.Forall₂.cons (hrefl x) ih

theorem forall2_trans {R : α → α → Prop} (hR : ∀ a b c, R a b → R b c → R a c) :
    ∀ {l1 l2 l3 : List α}, List.Forall₂ R l1 l2 → List.Forall₂ R l2 l3 →
      List.Forall₂ R l1 l3 := by
  intro l1 l2 l3 h12 h23
  induction h12 generalizing l3 with
  | nil => cases h23; exact List.Forall₂.nil
  | cons hab h ih =>
    cases h23 with
    | cons hbc h' => exact List.Forall₂.cons (hR _ _ _ hab hbc) (ih h')

theorem compShapeEq_refl (a : Component) : compShapeEq a a :=
  ⟨rfl, rfl, rfl, rfl, rfl, rfl, rfl, forall2_refl entryRel_refl a.pins,
   propsFrame_refl a.type a.properties⟩

theorem compShapeEq_trans {a b c : Component} (h1 : compShapeEq a b) (h2 : compShapeEq b c) :
    compShapeEq a c := by
  obtain ⟨i1, t1, p1, w1, ht1, c1, n1, f1, pr1⟩ := h1
  obtain ⟨i2, t2, p2, w2, ht2, c2, n2, f2, pr2⟩ := h2
  refine ⟨i2.trans i1, t2.trans t1, p2.trans p1, w2.trans w1, ht2.trans ht1,
    c2.trans c1, n2.trans n1,
    forall2_trans (fun x y z hxy hyz => ⟨hyz.1.trans hxy.1, pinShapeEq_trans hxy.2 hyz.2⟩)
      f1 f2, ?_⟩
  rw [t1] at pr2
  exact propsFrame_trans pr1 pr2

theorem FrameRel_refl (c : Circuit) : FrameRel c c :=
  ⟨rfl, rfl, rfl, forall2_refl compShapeEq_refl c.components⟩

theorem FrameRel_trans {a b c : Circuit} (h1 : FrameRel a b) (h2 : FrameRel b c) :
    FrameRel a c :=
  ⟨h2.1.trans h1.1, h2.2.1.trans h1.2.1, h2.2.2.1.trans h1.2.2.1,
   @forall2_trans Component compShapeEq (fun _ _ _ hxy hyz => compShapeEq_trans hxy hyz)
     _ _ _ h1.2.2.2 h2.2.2.2⟩

theorem forall2_entry_map (pins : List (String × Pin)) (f : Pin → Pin)
    (hf : ∀ p, pinShapeEq p (f p)) :
    List.Forall₂ (fun e1 e2 : String × Pin => e2.1 = e1.1 ∧ pinShapeEq e1.2 e2.2)
      pins (pins.map (fun e => (e.1, f e.2))) := by
  induction pins with
  | nil => exact List.Forall₂.nil
  | cons e rest ih => exact List.Forall₂.cons ⟨rfl, hf e.2⟩ ih

theorem FrameRel_mapAllPins (c : Circuit) (f : Pin → Pin) (hf : ∀ p, pinShapeEq p (f p)) :
    FrameRel c (c.mapAllPins f) := by
  refine ⟨rfl, rfl, rfl, ?_⟩
  show List.Forall₂ compShapeEq c.components (c.components.map _)
  induction c.components with
  | nil => exact List.Forall₂.nil
  | cons comp rest ih =>
    refine List.Forall₂.cons ?_ ih
    exact ⟨rfl, rfl, rfl, rfl, rfl, rfl, rfl, forall2_entry_map comp.pins f hf,
      propsFrame_refl _ _⟩

theorem forall2_entry_dictModifyPinById (pins : List (String × Pin)) (pid : String)
    (f : Pin → Pin) (hf : ∀ p, pinShapeEq p (f p)) :
    List.Forall₂ (fun e1 e2 : String × Pin => e2.1 = e1.1 ∧ pinShapeEq e1.2 e2.2)
      pins (updateCompListPin.dictModifyPinById pid f pins) := by
  induction pins with
  | nil => exact List.Forall₂.nil
  | cons e rest ih =>
    by_cases h : (e.2.id == pid) = true
    · rw [updateCompListPin.dictModifyPinById, if_pos h]
      exact List.Forall₂.cons ⟨rfl, hf e.2⟩ (forall2_refl entryRel_refl rest)
    · rw [updateCompListPin.dictModifyPinById, if_neg h]
      exact List.Forall₂.cons (entryRel_refl e) ih

theorem forall2_entry_dictModify (pins : List (String × Pin)) (k : String)
    (f : Pin → Pin) (hf : ∀ p, pinShapeEq p (f p)) :
    List.Forall₂ (fun e1 e2 : String × Pin => e2.1 = e1.1 ∧ pinShapeEq e1.2 e2.2)
      pins (dictModify pins k f) := by
  induction pins with
  | nil => exact List.Forall₂.nil
  | cons e rest ih =>
    by_cases h : e.1 = k
    · rw [dictModify, if_pos h]
      exact List.Forall₂.cons ⟨rfl, hf e.2⟩ (forall2_refl entryRel_refl rest)
    · rw [dictModify, if_neg h]
      exact List.Forall₂.cons (entryRel_refl e) ih

theorem FrameRel_updatePinById (c : Circuit) (pid : String) (f : Pin → Pin)
    (hf : ∀ p, pinShapeEq p (f p)) : FrameRel c (c.updatePinById pid f) := by
  refine ⟨rfl, rfl, rfl, ?_⟩
  show List.Forall₂ compShapeEq c.components (updateCompListPin pid f c.components)
  induction c.components with
  | nil => exact List.Forall₂.nil
  | cons comp rest ih =>
    by_cases h : (comp.pins.any (fun e => e.2.id == pid)) = true
    · rw [updateCompListPin, if_pos h]
      refine List.Forall₂.cons ?_ (forall2_refl compShapeEq_refl rest)
      exact ⟨rfl, rfl, rfl, rfl, rfl, rfl, rfl,
        forall2_entry_dictModifyPinById comp.pins pid f hf, propsFrame_refl _ _⟩
    · rw [updateCompListPin, if_neg h]
      exact List.Forall₂.cons (compShapeEq_refl comp) ih

theorem FrameRel_setPinStateById (c : Circuit) (pid : String) (v : PinState) :
    FrameRel c (c.setPinStateById pid v) :=
  FrameRel_updatePinById c pid _ (fun _ => ⟨rfl, rfl, rfl, rfl, rfl, rfl⟩)

theorem FrameRel_propagateConnection (c : Circuit) (conn : Connection) :
    FrameRel c (c.propagateConnection conn) := by
  unfold Circuit.propagateConnection
  split
  · split
    · exact FrameRel_setPinStateById _ _ _
    · split
      · exact FrameRel_setPinStateById _ _ _
      · split
        · exact FrameRel_trans (FrameRel_setPinStateById _ _ _)
            (FrameRel_setPinStateById _ _ _)
        · exact FrameRel_refl c
  · exact FrameRel_refl c

theorem FrameRel_foldl {β : Type u} (step : Circuit → β → Circuit) (l : List β) (c : Circuit)
    (h : ∀ acc x, FrameRel acc (step acc x)) : FrameRel c (l.foldl step c) := by
  induction l generalizing c with
  | nil => exact FrameRel_refl c
  | cons x rest ih => exact FrameRel_trans (h c x) (ih (step c x))

theorem FrameRel_propagateN (c : Circuit) (n : Nat) : FrameRel c (c.propagateN n) := by
  induction n generalizing c with
  | zero => exact FrameRel_refl c
  | succ n ih =>
    exact FrameRel_trans
      (FrameRel_foldl Circuit.propagateConnection c.connections c
        (fun acc conn => FrameRel_propagateConnection acc conn))
      (ih c.propagatePass)

theorem forall2_set {R : α → α → Prop} (hrefl : ∀ x, R x x) (l : List α) :
    ∀ (i : Nat) (a b : α), l.get? i = some a → R a b → List.Forall₂ R l (l.set i b) := by
  induction l with
  | nil => intro i a b hget; simp at hget
  | cons x rest ih =>
    intro i a b hget hab
    cases i with
    | zero =>
      rw [List.get?_cons_zero] at hget
      cases Option.some.inj hget
      exact List.Forall₂.cons hab (forall2_refl hrefl rest)
    | succ n =>
      rw [List.get?_cons_succ] at hget
      exact List.Forall₂.cons (hrefl x) (ih n a b hget hab)

theorem FrameRel_modifyComponentAt_stateProp (c : Circuit) (i : Nat) (v : String)
    (h : ∀ comp, c.components.get? i = some comp → comp.type = "led" ∨ comp.type = "motor") :
    FrameRel c (c.modifyComponentAt i (fun comp =>
      { comp with properties := dictSet comp.properties "state" (PropVal.pstr v) })) := by
  unfold Circuit.modifyComponentAt
  cases hget : c.components.get? i with
  | none => exact FrameRel_refl c
  | some comp =>
    refine ⟨rfl, rfl, rfl, ?_⟩
    refine forall2_set compShapeEq_refl c.components i comp _ hget ?_
    refine ⟨rfl, rfl, rfl, rfl, rfl, rfl, rfl, forall2_refl entryRel_refl comp.pins, ?_, ?_⟩
    · intro ⟨hnl, hnm⟩
      rcases h comp hget with ht | ht
      · exact absurd ht hnl
      · exact absurd ht hnm
    · intro k hk
      exact dictGet?_dictSet_ne comp.properties "state" k (PropVal.pstr v) hk

theorem FrameRel_setPinStateAt (c : Circuit) (i : Nat) (pname : String) (v : PinState) :
    FrameRel c (c.setPinStateAt i pname v) := by
  unfold Circuit.setPinStateAt Circuit.modifyComponentAt
  cases hget : c.components.get? i with
  | none => exact FrameRel_refl c
  | some comp =>
    refine ⟨rfl, rfl, rfl, ?_⟩
    refine forall2_set compShapeEq_refl c.components i comp _ hget ?_
    exact ⟨rfl, rfl, rfl, rfl, rfl, rfl, rfl,
      forall2_entry_dictModify comp.pins pname _ (fun p => ⟨rfl, rfl, rfl, rfl, rfl, rfl⟩),
      propsFrame_refl _ _⟩

theorem FrameRel_behaviorOne (c : Circuit) (i : Nat) : FrameRel c (c.behaviorOne i) := by
  unfold Circuit.behaviorOne
  cases hget : c.components.get? i with
  | none => exact FrameRel_refl c
  | some component =>
    dsimp only
    by_cases hled : (component.type == "led") = true
    · rw [if_pos hled]
      cases ha : dictGet? component.pins "anode" with
      | none => exact FrameRel_refl c
      | some anode =>
        cases hcat : dictGet? component.pins "cathode" with
        | none => exact FrameRel_refl c
        | some cathode =>
          exact FrameRel_modifyComponentAt_stateProp c i _ (fun comp hcomp => by
            rw [hget] at hcomp
            cases Option.some.inj hcomp
            exact Or.inl (by simpa using hled))
    · rw [if_neg hled]
      by_cases hbut : (component.type == "button") = true
      · rw [if_pos hbut]
        by_cases hpress : pressedFlag component.properties = true
        · rw [if_pos hpress]
          cases h1 : dictGet? component.pins "pin1" with
          | none => exact FrameRel_refl c
          | some pin1 =>
            cases h2 : dictGet? component.pins "pin2" with
            | none => exact FrameRel_refl c
            | some pin2 =>
              dsimp only
              by_cases hc1 : (pin1.state != PIN_STATE_UNKNOWN &&
                  pin2.state == PIN_STATE_UNKNOWN) = true
              · rw [if_pos hc1]
                exact FrameRel_setPinStateAt c i "pin2" pin1.state
              · rw [if_neg hc1]
                by_cases hc2 : (pin2.state != PIN_STATE_UNKNOWN &&
                    pin1.state == PIN_STATE_UNKNOWN) = true
                · rw [if_pos hc2]
                  exact FrameRel_setPinStateAt c i "pin1" pin2.state
                · rw [if_neg hc2]
                  exact FrameRel_refl c
        · rw [if_neg hpress]
          exact FrameRel_refl c
      · rw [if_neg hbut]
        by_cases hmot : (component.type == "motor") = true
        · rw [if_pos hmot]
          cases hp : dictGet? component.pins "plus" with
          | none => exact FrameRel_refl c
          | some plus =>
            cases hm : dictGet? component.pins "minus" with
            | none => exact FrameRel_refl c
            | some minus =>
              exact FrameRel_modifyComponentAt_stateProp c i _ (fun comp hcomp => by
                rw [hget] at hcomp
                cases Option.some.inj hcomp
                exact Or.inr (by simpa using hmot))
        · rw [if_neg hmot]
          exact FrameRel_refl c

set_option maxHeartbeats 1000000 in
/-- **C10** (confirmed).  `simulate_step` modifies no part of the circuit
graph structure: connections, selection and the id counter are untouched,
and every component keeps its id, type, position, size, color, declared
connections, and its pin entries up to electrical state (ids, names, pin
types, offsets and `connected_to` back-references are all preserved);
properties change only in the `"state"` entry and only for LED/motor
components; `simulation_state` is replaced wholesale by the snapshot of the
resulting circuit. -/
theorem C10_simulate_step_frame (c : Circuit) :
    (c.simulate_step).connections = c.connections ∧
    (c.simulate_step).selected_component = c.selected_component ∧
    (c.simulate_step).nextId = c.nextId ∧
    List.Forall₂ compShapeEq c.components (c.simulate_step).components ∧
    (c.simulate_step).simulation_state = (c.simulate_step).buildSimulationState := by
  have hA : FrameRel c c.resetPinStates :=
    FrameRel_mapAllPins c _ (fun _ => ⟨rfl, rfl, rfl, rfl, rfl, rfl⟩)
  have hB : FrameRel c.resetPinStates (c.resetPinStates.seedPinStates) := by
    refine FrameRel_mapAllPins _ _ (fun p => ?_)
    show pinShapeEq p (if (p.pin_type == PIN_TYPE_POWER) = true
      then { p with state := PIN_STATE_HIGH }
      else if (p.pin_type == PIN_TYPE_GND) = true
        then { p with state := PIN_STATE_LOW } else p)
    split
    · exact ⟨rfl, rfl, rfl, rfl, rfl, rfl⟩
    · split
      · exact ⟨rfl, rfl, rfl, rfl, rfl, rfl⟩
      · exact pinShapeEq_refl p
  have hC : FrameRel (c.resetPinStates.seedPinStates)
      ((c.resetPinStates.seedPinStates).propagateN 5) :=
    FrameRel_propagateN _ 5
  have hD : FrameRel ((c.resetPinStates.seedPinStates).propagateN 5)
      (((c.resetPinStates.seedPinStates).propagateN 5).behaviorPhase) :=
    FrameRel_foldl Circuit.behaviorOne _ _ (fun acc i => FrameRel_behaviorOne acc i)
  have hframe : FrameRel c ((((c.resetPinStates).seedPinStates).propagateN 5).behaviorPhase) :=
    FrameRel_trans hA (FrameRel_trans hB (FrameRel_trans hC hD))
  exact ⟨hframe.1, hframe.2.1, hframe.2.2.1, hframe.2.2.2, rfl⟩

/-- Witness for C10 at a concrete pressed-button + LED circuit. -/
theorem C10_simulate_step_frame_witness :
    ((((Circuit.empty.add_component "led" (0, 0)).1.add_connection
        "pin_led_0_anode" "pin_led_0_cathode").1).simulate_step).connections =
      (((Circuit.empty.add_component "led" (0, 0)).1.add_connection
        "pin_led_0_anode" "pin_led_0_cathode").1).connections ∧
    List.Forall₂ compShapeEq
      (((Circuit.empty.add_component "led" (0, 0)).1.add_connection
        "pin_led_0_anode" "pin_led_0_cathode").1).components
      ((((Circuit.empty.add_component "led" (0, 0)).1.add_connection
        "pin_led_0_anode" "pin_led_0_cathode").1).simulate_step).components :=
  ⟨(C10_simulate_step_frame _).1, (C10_simulate_step_frame _).2.2.2.1⟩

/-! ### Decimal-representation and id-string lemmas (for C1) -/

theorem toDigitsCore_append (fuel n : Nat) (ds : List Char) :
    Nat.toDigitsCore 10 fuel n ds = Nat.toDigitsCore 10 fuel n [] ++ ds := by
  induction fuel generalizing n ds with
  | zero => simp [Nat.toDigitsCore]
  | succ f ih =>
    rw [Nat.toDigitsCore, Nat.toDigitsCore]
    by_cases h : n / 10 = 0
    · simp [h]
    · rw [if_neg h, if_neg h, ih (n / 10) ((n % 10).digitChar :: ds),
        ih (n / 10) [(n % 10).digitChar]]
      simp

theorem digitChar_spec (m : Nat) (h : m < 10) :
    (Nat.digitChar m).isDigit = true ∧ (Nat.digitChar m).toNat - 48 = m := by
  interval_cases m <;> exact ⟨by decide, by decide⟩

theorem parseDigits_append_singleton (xs : List Char) (d : Char) :
    parseDigits (xs ++ [d]) = parseDigits xs * 10 + (d.toNat - 48) := by
  unfold parseDigits
  rw [List.foldl_append]
  rfl

theorem toDigitsCore_spec : ∀ n : Nat, ∀ fuel : Nat, n < fuel →
    parseDigits (Nat.toDigitsCore 10 fuel n []) = n ∧
    (∀ ch ∈ Nat.toDigitsCore 10 fuel n [], ch.isDigit = true) ∧
    Nat.toDigitsCore 10 fuel n [] ≠ [] := by
  intro n
  induction n using Nat.strong_induction_on with
  | _ n ih =>
    intro fuel hfuel
    cases fuel with
    | zero => omega
    | succ f =>
      rw [Nat.toDigitsCore]
      by_cases h : n / 10 = 0
      · rw [if_pos h]
        have hm : n % 10 = n := by omega
        have hd := digitChar_spec (n % 10) (Nat.mod_lt _ (by omega))
        refine ⟨?_, ?_, by simp⟩
        · show parseDigits ([] ++ [(n % 10).digitChar]) = n
          rw [parseDigits_append_singleton]
          show 0 * 10 + ((n % 10).digitChar.toNat - 48) = n
          rw [hd.2, hm]
          omega
        · intro ch hch
          simp at hch
          rw [hch]
          exact hd.1
      · rw [if_neg h]
        have hlt : n / 10 < n := Nat.div_lt_self (by omega) (by omega)
        have hfuel' : n / 10 < f := by
          have h10 : 10 ≤ n := by
            by_contra hcon
            exact h (Nat.div_eq_of_lt (by omega))
          omega
        obtain ⟨hp, hdig, hne⟩ := ih (n / 10) hlt f hfuel'
        rw [toDigitsCore_append]
        have hd := digitChar_spec (n % 10) (Nat.mod_lt _ (by omega))
        refine ⟨?_, ?_, by simp⟩
        · rw [parseDigits_append_singleton, hp, hd.2]
          omega
        · intro ch hch
          rw [List.mem_append] at hch
          rcases hch with hch | hch
          · exact hdig ch hch
          · simp at hch
            rw [hch]
            exact hd.1

theorem parseDigits_repr (n : Nat) : parseDigits (Nat.repr n).data = n := by
  have := (toDigitsCore_spec n (n + 1) (by omega)).1
  simpa [Nat.repr, Nat.toDigits, List.asString] using this

theorem repr_inj {a b : Nat} (h : Nat.repr a = Nat.repr b) : a = b := by
  have := congrArg (fun s => parseDigits s.data) h
  simpa [parseDigits_repr] using this

theorem repr_no_underscore (n : Nat) : '_' ∉ (Nat.repr n).data := by
  intro hmem
  have hdig := (toDigitsCore_spec n (n + 1) (by omega)).2.1
  have : ('_' : Char).isDigit = true := by
    apply hdig
    simpa [Nat.repr, Nat.toDigits, List.asString] using hmem
  simp at this

theorem split_first_sep : ∀ (a b xs ys : List Char), '_' ∉ a → '_' ∉ b →
    a ++ '_' :: xs = b ++ '_' :: ys → a = b ∧ xs = ys := by
  intro a
  induction a with
  | nil =>
    intro b xs ys _ hb h
    cases b with
    | nil => simpa using h
    | cons c bs =>
      simp at h
      exact absurd (h.1 ▸ List.mem_cons_self c bs) (h.1 ▸ hb)
  | cons c as ih =>
    intro b xs ys ha hb h
    cases b with
    | nil =>
      simp at h
      exact absurd (h.1 ▸ List.mem_cons_self c as) (h.1 ▸ ha)
    | cons c' bs =>
      simp only [List.cons_append, List.cons.injEq] at h
      obtain ⟨rfl, h2⟩ := h
      obtain ⟨h3, h4⟩ := ih bs xs ys (fun hm => ha (List.mem_cons_of_mem _ hm))
        (fun hm => hb (List.mem_cons_of_mem _ hm)) h2
      exact ⟨by rw [h3], h4⟩

theorem split_last_sep (xs ys a b : List Char) (ha : '_' ∉ a) (hb : '_' ∉ b)
    (h : xs ++ '_' :: a = ys ++ '_' :: b) : xs = ys ∧ a = b := by
  have h' : a.reverse ++ '_' :: xs.reverse = b.reverse ++ '_' :: ys.reverse := by
    have := congrArg List.reverse h
    simpa [List.reverse_append] using this
  obtain ⟨h1, h2⟩ := split_first_sep a.reverse b.reverse xs.reverse ys.reverse
    (by simpa using ha) (by simpa using hb) h'
  constructor
  · have := congrArg List.reverse h2
    simpa using this
  · have := congrArg List.reverse h1
    simpa using this

theorem string_concat_inj (x y a b : String) (ha : '_' ∉ a.data) (hb : '_' ∉ b.data)
    (h : x ++ "_" ++ a = y ++ "_" ++ b) : x = y ∧ a = b := by
  have hd := congrArg String.data h
  simp only [String.data_append] at hd
  have hd' : x.data ++ '_' :: a.data = y.data ++ '_' :: b.data := by
    simpa using hd
  obtain ⟨h1, h2⟩ := split_last_sep _ _ _ _ ha hb hd'
  exact ⟨String.ext h1, String.ext h2⟩

/-! ### Id-string injectivity and list utilities for the C1 induction -/

theorem mkPinId_inj {c1 c2 n1 n2 : String} (h1 : '_' ∉ n1.data) (h2 : '_' ∉ n2.data)
    (h : mkPinId c1 n1 = mkPinId c2 n2) : c1 = c2 ∧ n1 = n2 := by
  unfold mkPinId at h
  obtain ⟨hx, hn⟩ := string_concat_inj ("pin_" ++ c1) ("pin_" ++ c2) n1 n2 h1 h2 h
  refine ⟨?_, hn⟩
  have hd := congrArg String.data hx
  simp only [String.data_append] at hd
  exact String.ext (List.append_cancel_left hd)

theorem compId_ne {t1 t2 : String} {k1 k2 : Nat} (hk : k1 ≠ k2) :
    t1 ++ "_" ++ Nat.repr k1 ≠ t2 ++ "_" ++ Nat.repr k2 := fun h =>
  hk (repr_inj
    (string_concat_inj t1 t2 _ _ (repr_no_underscore k1) (repr_no_underscore k2) h).2)

theorem pinConfigs_wf (t : String) :
    ((pinConfigs t).map Prod.fst).Nodup ∧ ∀ e ∈ pinConfigs t, ('_' ∈ e.1.data → False) := by
  unfold pinConfigs
  by_cases h0 : t = "arduinouno"
  · rw [if_pos h0]
    exact ⟨by decide, by decide⟩
  rw [if_neg h0]
  by_cases h1 : t = "led"
  · rw [if_pos h1]
    exact ⟨by decide, by decide⟩
  rw [if_neg h1]
  by_cases h2 : t = "button"
  · rw [if_pos h2]
    exact ⟨by decide, by decide⟩
  rw [if_neg h2]
  by_cases h3 : t = "resistor"
  · rw [if_pos h3]
    exact ⟨by decide, by decide⟩
  rw [if_neg h3]
  by_cases h4 : t = "potentiometer"
  · rw [if_pos h4]
    exact ⟨by decide, by decide⟩
  rw [if_neg h4]
  by_cases h5 : t = "servo"
  · rw [if_pos h5]
    exact ⟨by decide, by decide⟩
  rw [if_neg h5]
  by_cases h6 : t = "motor"
  · rw [if_pos h6]
    exact ⟨by decide, by decide⟩
  rw [if_neg h6]
  by_cases h7 : t = "motor_driver"
  · rw [if_pos h7]
    exact ⟨by decide, by decide⟩
  rw [if_neg h7]
  by_cases h8 : t = "ultrasonic"
  · rw [if_pos h8]
    exact ⟨by decide, by decide⟩
  rw [if_neg h8]
  by_cases h9 : t = "bluetooth"
  · rw [if_pos h9]
    exact ⟨by decide, by decide⟩
  rw [if_neg h9]
  by_cases h10 : t = "lcd"
  · rw [if_pos h10]
    exact ⟨by decide, by decide⟩
  rw [if_neg h10]
  by_cases h11 : t = "buzzer"
  · rw [if_pos h11]
    exact ⟨by decide, by decide⟩
  rw [if_neg h11]
  exact ⟨by decide, by decide⟩

theorem pinConfigs_names_nodup (t : String) : ((pinConfigs t).map Prod.fst).Nodup :=
  (pinConfigs_wf t).1

theorem pinConfigs_no_underscore (t : String) : ∀ e ∈ pinConfigs t, '_' ∉ e.1.data :=
  (pinConfigs_wf t).2

theorem removeFirst_sublist (q : α → Bool) (l : List α) : (removeFirst q l).Sublist l := by
  induction l with
  | nil => exact List.Sublist.refl []
  | cons x xs ih =>
    by_cases h : q x
    · rw [removeFirst, if_pos h]
      exact List.sublist_cons_self x xs
    · rw [removeFirst, if_neg h]
      exact ih.cons₂ x

theorem mem_removeFirst {q : α → Bool} {l : List α} {x : α} (h : x ∈ removeFirst q l) :
    x ∈ l :=
  (removeFirst_sublist q l).mem h

theorem filter_removeFirst_comm_pos (p q : α → Bool) (l : List α)
    (hq : ∀ x ∈ l, q x = true → p x = true) :
    removeFirst q (l.filter p) = (removeFirst q l).filter p := by
  induction l with
  | nil => rfl
  | cons x xs ih =>
    have hq' : ∀ y ∈ xs, q y = true → p y = true :=
      fun y hy => hq y (List.mem_cons_of_mem _ hy)
    by_cases hqx : q x = true
    · have hpx : p x = true := hq x (List.mem_cons_self x xs) hqx
      rw [List.filter_cons_of_pos hpx, removeFirst, if_pos hqx, removeFirst, if_pos hqx]
    · by_cases hpx : p x = true
      · rw [List.filter_cons_of_pos hpx, removeFirst, if_neg hqx, removeFirst, if_neg hqx,
          List.filter_cons_of_pos hpx, ih hq']
      · rw [List.filter_cons_of_neg (by simpa using hpx), removeFirst, if_neg hqx,
          List.filter_cons_of_neg (by simpa using hpx), ih hq']

theorem filter_removeFirst_comm_neg (p q : α → Bool) (l : List α)
    (hq : ∀ x ∈ l, q x = true → p x = false) :
    (removeFirst q l).filter p = l.filter p := by
  induction l with
  | nil => rfl
  | cons x xs ih =>
    have hq' : ∀ y ∈ xs, q y = true → p y = false :=
      fun y hy => hq y (List.mem_cons_of_mem _ hy)
    by_cases hqx : q x = true
    · have hpx : p x = false := hq x (List.mem_cons_self x xs) hqx
      rw [removeFirst, if_pos hqx, List.filter_cons_of_neg (by simp [hpx])]
    · rw [removeFirst, if_neg hqx]
      by_cases hpx : p x = true
      · rw [List.filter_cons_of_pos hpx, List.filter_cons_of_pos hpx, ih hq']
      · rw [List.filter_cons_of_neg (by simpa using hpx),
          List.filter_cons_of_neg (by simpa using hpx), ih hq']

theorem updateFirst_idMatch_eq_map (l : List Pin) (k : String) (f : Pin → Pin)
    (hnd : (l.map Pin.id).Nodup) :
    updateFirst (idMatch k) f l = l.map (fun p => if p.id = k then f p else p) := by
  induction l with
  | nil => rfl
  | cons x xs ih =>
    rw [List.map_cons, List.nodup_cons] at hnd
    by_cases hx : x.id = k
    · rw [updateFirst, if_pos (by simp [idMatch, hx]), List.map_cons, if_pos hx]
      congr 1
      have hxs : ∀ p ∈ xs, (if p.id = k then f p else p) = p := by
        intro p hp
        rw [if_neg]
        intro he
        exact hnd.1 (List.mem_map.mpr ⟨p, hp, by rw [he, hx]⟩)
      rw [List.map_congr_left hxs]
      simp
    · rw [updateFirst, if_neg (by simp [idMatch, hx]), List.map_cons, if_neg hx, ih hnd.2]

theorem updateFirst_map_id (l : List Pin) (k : String) (f : Pin → Pin)
    (hf : ∀ p, (f p).id = p.id) :
    (updateFirst (idMatch k) f l).map Pin.id = l.map Pin.id := by
  induction l with
  | nil => rfl
  | cons x xs ih =>
    by_cases hx : idMatch k x
    · rw [updateFirst, if_pos hx, List.map_cons, List.map_cons, hf]
    · rw [updateFirst, if_neg hx, List.map_cons, List.map_cons, ih]

/-! ### WF preservation -/

theorem flatPinsL_append (l1 l2 : List Component) :
    flatPinsL (l1 ++ l2) = flatPinsL l1 ++ flatPinsL l2 := by
  simp [flatPinsL]

theorem mem_flatPinsL {p : Pin} {l : List Component} :
    p ∈ flatPinsL l ↔ ∃ comp ∈ l, p ∈ compPins comp := by
  simp [flatPinsL]

theorem WF_empty : WF Circuit.empty := by
  refine ⟨?_, ?_, ?_, ?_, ?_, ?_⟩ <;>
    simp [PinInvariant, EndpointsClosed, pinIds, connIds, flatPins, flatPinsL, Circuit.empty]

theorem pin_structure_of_mem_flat {c : Circuit} (hcomps : ∀ comp ∈ c.components,
    CompWF comp ∧ CompIdIndexed comp c.components.length) {p : Pin} (hp : p ∈ flatPins c) :
    ∃ comp ∈ c.components, p.id = mkPinId comp.id p.name ∧ ('_' ∈ p.name.data → False) ∧
      CompIdIndexed comp c.components.length := by
  obtain ⟨comp, hcm, hpc⟩ := mem_flatPinsL.mp hp
  obtain ⟨e, he, heq⟩ := List.mem_map.mp hpc
  obtain ⟨⟨hwf1, _⟩, hidx⟩ := hcomps comp hcm
  obtain ⟨hid, hname, huf⟩ := hwf1 e he
  exact ⟨comp, hcm, by rw [← heq]; exact hid, by rw [← heq]; exact huf, hidx⟩

theorem WF_add_component (c : Circuit) (t : String) (pos : Int × Int) (h : WF c) :
    WF (c.add_component t pos).1 := by
  obtain ⟨hinv, hpnd, hcnd, hbound, hclosed, hcomps⟩ := h
  have hres : (c.add_component t pos).1 =
      { c with components := c.components ++
          [mkComponent (t ++ "_" ++ toString c.components.length) t pos [] []] } := rfl
  set cid := t ++ "_" ++ toString c.components.length with hcid
  set newc := mkComponent cid t pos [] [] with hnewc
  have hnewid : newc.id = cid := rfl
  have hnewpins : compPins newc = (pinConfigs (pyLower t)).map
      (fun e => mkPin e.1 e.2.1 cid e.2.2) := by
    show (createPins (pyLower t) cid).map (·.2) = _
    unfold createPins
    rw [List.map_map]
    rfl
  have hflat : flatPins (c.add_component t pos).1 = flatPins c ++ compPins newc := by
    rw [hres]
    show flatPinsL (c.components ++ [newc]) = _
    rw [flatPinsL_append]
    show _ ++ (compPins newc ++ flatPinsL []) = _
    rw [show flatPinsL ([] : List Component) = [] from rfl, List.append_nil]
    rfl
  have hnewids : (compPins newc).map Pin.id =
      ((pinConfigs (pyLower t)).map Prod.fst).map (mkPinId cid) := by
    rw [hnewpins, List.map_map, List.map_map]
    rfl
  -- a fresh pin id is never an existing pin id
  have hfreshid : ∀ q ∈ compPins newc, q.id ∉ pinIds c := by
    intro q hq hqin
    rw [hnewpins] at hq
    obtain ⟨e, he, heq⟩ := List.mem_map.mp hq
    obtain ⟨p, hpmem, hpid⟩ := List.mem_map.mp hqin
    obtain ⟨comp, hcm, hpid2, huf, t', k, hcompid, hk⟩ :=
      pin_structure_of_mem_flat hcomps hpmem
    have hqid : q.id = mkPinId cid e.1 := by rw [← heq]; rfl
    have heqid : mkPinId comp.id p.name = mkPinId cid e.1 := by
      rw [← hpid2, hpid, hqid]
    obtain ⟨hc, -⟩ := mkPinId_inj huf (pinConfigs_no_underscore (pyLower t) e he) heqid
    rw [hcompid] at hc
    exact compId_ne (Nat.ne_of_lt hk) hc
  have hnewnodup : ((compPins newc).map Pin.id).Nodup := by
    rw [hnewids]
    refine List.Nodup.map_on ?_ (pinConfigs_names_nodup (pyLower t))
    intro x hx y hy hxy
    obtain ⟨ex, hex, hx1⟩ := List.mem_map.mp hx
    obtain ⟨ey, hey, hy1⟩ := List.mem_map.mp hy
    exact (mkPinId_inj (by rw [← hx1] at *; exact pinConfigs_no_underscore _ ex hex)
      (by rw [← hy1] at *; exact pinConfigs_no_underscore _ ey hey) hxy).2
  refine ⟨?_, ?_, ?_, ?_, ?_, ?_⟩
  · -- PinInvariant
    intro p hp
    rw [hflat] at hp
    rcases List.mem_append.mp hp with hp | hp
    · rw [hres]
      exact hinv p hp
    · rw [hres]
      show p.connected_to = c.connections.filter (touches p.id)
      have hct : p.connected_to = [] := by
        rw [hnewpins] at hp
        obtain ⟨e, he, heq⟩ := List.mem_map.mp hp
        rw [← heq]
        rfl
      rw [hct]
      symm
      rw [List.filter_eq_nil_iff]
      intro conn hconn
      have hc1 := (hclosed conn hconn).1
      have hc2 := (hclosed conn hconn).2
      have hpid : p.id ∉ pinIds c := hfreshid p hp
      intro htouch
      rcases Bool.or_eq_true _ _ |>.mp htouch with h1 | h1
      · exact hpid ((beq_iff_eq.mp h1) ▸ hc1)
      · exact hpid ((beq_iff_eq.mp h1) ▸ hc2)
  · -- pin ids Nodup
    show ((flatPins (c.add_component t pos).1).map Pin.id).Nodup
    rw [hflat, List.map_append]
    rw [List.nodup_append]
    exact ⟨hpnd, hnewnodup, fun a ha hb => (by
      obtain ⟨p, hpm, hpe⟩ := List.mem_map.mp hb
      exact hfreshid p hpm (hpe ▸ ha))⟩
  · exact hcnd
  · exact hbound
  · -- endpoints closed
    intro conn hconn
    have := hclosed conn hconn
    constructor
    · show conn.pin1_id ∈ (flatPins (c.add_component t pos).1).map Pin.id
      rw [hflat, List.map_append]
      exact List.mem_append_left _ this.1
    · show conn.pin2_id ∈ (flatPins (c.add_component t pos).1).map Pin.id
      rw [hflat, List.map_append]
      exact List.mem_append_left _ this.2
  · -- component well-formedness
    intro comp hcm
    rw [hres] at hcm
    have hlen : ({ c with components := c.components ++ [newc] } : Circuit).components.length =
        c.components.length + 1 := by
      simp
    rcases List.mem_append.mp hcm with hcm | hcm
    · obtain ⟨hwf, t', k, hcompid, hk⟩ := hcomps comp hcm
      exact ⟨hwf, t', k, hcompid, by rw [hres, hlen]; omega⟩
    · have hc : comp = newc := by simpa using hcm
      subst hc
      refine ⟨⟨?_, ?_⟩, t, c.components.length, ?_, ?_⟩
      · intro e he
        show e.2.id = mkPinId cid e.2.name ∧ e.2.name = e.1 ∧ _
        obtain ⟨cfg, hcfg, heq⟩ := List.mem_map.mp he
        rw [← heq]
        exact ⟨rfl, rfl, pinConfigs_no_underscore _ cfg hcfg⟩
      · show ((createPins (pyLower t) cid).map Prod.fst).Nodup
        unfold createPins
        rw [List.map_map]
        exact pinConfigs_names_nodup (pyLower t)
      · rfl
      · rw [hres, hlen]
        omega

theorem keys_dictModifyPinById (pid : String) (f : Pin → Pin) (pins : List (String × Pin)) :
    (updateCompListPin.dictModifyPinById pid f pins).map Prod.fst = pins.map Prod.fst := by
  induction pins with
  | nil => rfl
  | cons e rest ih =>
    by_cases h : e.2.id == pid
    · rw [updateCompListPin.dictModifyPinById, if_pos h]
      rfl
    · rw [updateCompListPin.dictModifyPinById, if_neg h, List.map_cons, List.map_cons, ih]

theorem mem_dictModifyPinById {pid : String} {f : Pin → Pin} {pins : List (String × Pin)}
    {e' : String × Pin} (h : e' ∈ updateCompListPin.dictModifyPinById pid f pins) :
    ∃ e ∈ pins, e'.1 = e.1 ∧ (e'.2 = e.2 ∨ e'.2 = f e.2) := by
  induction pins with
  | nil => exact absurd h (by simp [updateCompListPin.dictModifyPinById])
  | cons e rest ih =>
    by_cases hc : e.2.id == pid
    · rw [updateCompListPin.dictModifyPinById, if_pos hc] at h
      rcases List.mem_cons.mp h with h | h
      · exact ⟨e, List.mem_cons_self e rest, by rw [h], by rw [h]; exact Or.inr rfl⟩
      · exact ⟨e', List.mem_cons_of_mem _ h, rfl, Or.inl rfl⟩
    · rw [updateCompListPin.dictModifyPinById, if_neg hc] at h
      rcases List.mem_cons.mp h with h | h
      · exact ⟨e, List.mem_cons_self e rest, by rw [h], by rw [h]; exact Or.inl rfl⟩
      · obtain ⟨e0, he0, hx1, hx2⟩ := ih h
        exact ⟨e0, List.mem_cons_of_mem _ he0, hx1, hx2⟩

theorem mem_updateCompListPin {pid : String} {f : Pin → Pin} {l : List Component}
    {comp' : Component} (h : comp' ∈ updateCompListPin pid f l) :
    comp' ∈ l ∨ ∃ comp ∈ l, comp' =
      { comp with pins := updateCompListPin.dictModifyPinById pid f comp.pins } := by
  induction l with
  | nil => exact absurd h (by simp [updateCompListPin])
  | cons comp rest ih =>
    by_cases hc : comp.pins.any (fun e => e.2.id == pid)
    · rw [updateCompListPin, if_pos hc] at h
      rcases List.mem_cons.mp h with h | h
      · exact Or.inr ⟨comp, List.mem_cons_self comp rest, h⟩
      · exact Or.inl (List.mem_cons_of_mem _ h)
    · rw [updateCompListPin, if_neg hc] at h
      rcases List.mem_cons.mp h with h | h
      · exact Or.inl (h ▸ List.mem_cons_self comp rest)
      · rcases ih h with h' | ⟨c0, hc0, he⟩
        · exact Or.inl (List.mem_cons_of_mem _ h')
        · exact Or.inr ⟨c0, List.mem_cons_of_mem _ hc0, he⟩

theorem length_updateCompListPin (pid : String) (f : Pin → Pin) (l : List Component) :
    (updateCompListPin pid f l).length = l.length := by
  induction l with
  | nil => rfl
  | cons comp rest ih =>
    by_cases hc : comp.pins.any (fun e => e.2.id == pid)
    · rw [updateCompListPin, if_pos hc, List.length_cons, List.length_cons]
    · rw [updateCompListPin, if_neg hc, List.length_cons, List.length_cons, ih]

theorem compsWF_updatePinById (c : Circuit) (pid : String) (f : Pin → Pin)
    (hfid : ∀ p, (f p).id = p.id) (hfname : ∀ p, (f p).name = p.name)
    (h : ∀ comp ∈ c.components, CompWF comp ∧ CompIdIndexed comp c.components.length) :
    ∀ comp ∈ (c.updatePinById pid f).components,
      CompWF comp ∧ CompIdIndexed comp (c.updatePinById pid f).components.length := by
  intro comp' hm
  have hlen : (c.updatePinById pid f).components.length = c.components.length :=
    length_updateCompListPin pid f c.components
  rw [hlen]
  rcases mem_updateCompListPin hm with hm' | ⟨comp, hcm, he⟩
  · exact h comp' hm'
  · obtain ⟨⟨hwf1, hwf2⟩, hidx⟩ := h comp hcm
    subst he
    obtain ⟨t, k, hi1, hi2⟩ := hidx
    refine ⟨⟨?_, ?_⟩, t, k, hi1, hi2⟩
    · intro e' he'
      obtain ⟨e, hemem, h1, h2⟩ := mem_dictModifyPinById he'
      obtain ⟨hid, hname, huf⟩ := hwf1 e hemem
      rcases h2 with h2 | h2
      · refine ⟨?_, ?_, ?_⟩
        · show e'.2.id = mkPinId comp.id e'.2.name
          rw [h2]
          exact hid
        · rw [h2, h1]
          exact hname
        · rw [h2]
          exact huf
      · refine ⟨?_, ?_, ?_⟩
        · show e'.2.id = mkPinId comp.id e'.2.name
          rw [h2, hfid, hfname]
          exact hid
        · rw [h2, hfname, h1]
          exact hname
        · rw [h2, hfname]
          exact huf
    · show ((updateCompListPin.dictModifyPinById pid f comp.pins).map Prod.fst).Nodup
      rw [keys_dictModifyPinById]
      exact hwf2

theorem pinIds_updatePinById (c : Circuit) (pid : String) (f : Pin → Pin)
    (hfid : ∀ p, (f p).id = p.id) :
    pinIds (c.updatePinById pid f) = pinIds c := by
  show (flatPins (c.updatePinById pid f)).map Pin.id = (flatPins c).map Pin.id
  rw [flatPins_updatePinById]
  exact updateFirst_map_id _ _ _ hfid

theorem WF_add_connection (c : Circuit) (p1 p2 : String) (hwf : WF c)
    (h1 : (c.get_pin_by_id p1).isSome = true)
    (h2 : (c.get_pin_by_id p2).isSome = true) :
    WF (c.add_connection p1 p2).1 := by
  obtain ⟨hinv, hpnd, hcnd, hbound, hclosed, hcomps⟩ := hwf
  by_cases hdup : (c.connections.any (fun conn =>
      (conn.pin1_id == p1 && conn.pin2_id == p2) ||
      (conn.pin1_id == p2 && conn.pin2_id == p1))) = true
  · have hres : (c.add_connection p1 p2).1 = c := by
      unfold Circuit.add_connection
      rw [if_pos hdup]
    rw [hres]
    exact ⟨hinv, hpnd, hcnd, hbound, hclosed, hcomps⟩
  · set conn : Connection := { id := c.nextId, pin1_id := p1, pin2_id := p2 } with hconndef
    set c1 : Circuit :=
      { c with connections := c.connections ++ [conn], nextId := c.nextId + 1 } with hc1def
    obtain ⟨q1, hq1⟩ := Option.isSome_iff_exists.mp h1
    obtain ⟨q2, hq2⟩ := Option.isSome_iff_exists.mp h2
    have hg1 : c1.get_pin_by_id p1 = c.get_pin_by_id p1 := rfl
    have hg2 : c1.get_pin_by_id p2 = c.get_pin_by_id p2 := rfl
    have hstep : c.add_connection p1 p2 =
        (match c1.get_pin_by_id p1, c1.get_pin_by_id p2 with
        | some _, some _ =>
          let c2 := c1.updatePinById p1 (fun p => p.add_connection conn)
          let c3 := c2.updatePinById p2 (fun p => p.add_connection conn)
          (c3, some conn)
        | _, _ => (c1, some conn)) := by
      unfold Circuit.add_connection
      rw [if_neg hdup]
    have hres : (c.add_connection p1 p2).1 =
        (c1.updatePinById p1 (fun p => p.add_connection conn)).updatePinById p2
          (fun p => p.add_connection conn) := by
      rw [hstep, hg1, hg2, hq1, hq2]
    have hidf : ∀ p : Pin, (p.add_connection conn).id = p.id := by
      intro p
      unfold Pin.add_connection
      split <;> rfl
    have hnamef : ∀ p : Pin, (p.add_connection conn).name = p.name := by
      intro p
      unfold Pin.add_connection
      split <;> rfl
    have hfresh_add : ∀ q ∈ flatPins c,
        q.add_connection conn = { q with connected_to := q.connected_to ++ [conn] } := by
      intro q hq
      refine Pin.add_connection_fresh q conn ?_
      intro k hk
      rw [hinv q hq] at hk
      have hk' : k ∈ c.connections := List.mem_of_mem_filter hk
      exact Nat.ne_of_lt (hbound k hk')
    have hflat1 : flatPins (c1.updatePinById p1 (fun p => p.add_connection conn)) =
        (flatPins c).map (fun p => if p.id = p1 then p.add_connection conn else p) := by
      rw [flatPins_updatePinById]
      exact updateFirst_idMatch_eq_map _ _ _ hpnd
    have hids1 : pinIds (c1.updatePinById p1 (fun p => p.add_connection conn)) = pinIds c :=
      pinIds_updatePinById c1 p1 _ hidf
    have hflat2 : flatPins ((c1.updatePinById p1 (fun p => p.add_connection conn)).updatePinById
          p2 (fun p => p.add_connection conn)) =
        ((flatPins c).map (fun p => if p.id = p1 then p.add_connection conn else p)).map
          (fun p => if p.id = p2 then p.add_connection conn else p) := by
      rw [flatPins_updatePinById, updateFirst_idMatch_eq_map _ _ _ (by
        show pinIds (c1.updatePinById p1 (fun p => p.add_connection conn)) |>.Nodup
        rw [hids1]
        exact hpnd), hflat1]
    have hids2 : pinIds ((c1.updatePinById p1 (fun p => p.add_connection conn)).updatePinById
          p2 (fun p => p.add_connection conn)) = pinIds c := by
      rw [pinIds_updatePinById _ _ _ hidf, hids1]
    have hc1pid : conn.pin1_id = p1 := rfl
    have hc2pid : conn.pin2_id = p2 := rfl
    rw [hres]
    refine ⟨?_, ?_, ?_, ?_, ?_, ?_⟩
    · -- PinInvariant
      intro p' hp'
      rw [hflat2] at hp'
      obtain ⟨r, hr, hre⟩ := List.mem_map.mp hp'
      obtain ⟨q, hq, hqe⟩ := List.mem_map.mp hr
      subst hre
      subst hqe
      have hctq := hinv q hq
      show _ = (c.connections ++ [conn]).filter _
      rw [List.filter_append]
      by_cases e1 : q.id = p1
      · have h1q : (if q.id = p1 then q.add_connection conn else q) =
            { q with connected_to := q.connected_to ++ [conn] } := by
          rw [if_pos e1, hfresh_add q hq]
        have htoucht : touches q.id conn = true := by
          show (conn.pin1_id == q.id || conn.pin2_id == q.id) = true
          rw [Bool.or_eq_true, hc1pid]
          exact Or.inl (beq_iff_eq.mpr e1.symm)
        by_cases e2 : q.id = p2
        · have h2q : (if ((if q.id = p1 then q.add_connection conn else q)).id = p2 then
              ((if q.id = p1 then q.add_connection conn else q)).add_connection conn
              else (if q.id = p1 then q.add_connection conn else q)) =
              { q with connected_to := q.connected_to ++ [conn] } := by
            rw [h1q, if_pos e2]
            unfold Pin.add_connection
            rw [if_pos (by simp)]
          rw [h2q]
          show q.connected_to ++ [conn] =
            c.connections.filter (touches q.id) ++ [conn].filter (touches q.id)
          rw [List.filter_cons_of_pos htoucht, List.filter_nil, hctq]
        · have h2q : (if ((if q.id = p1 then q.add_connection conn else q)).id = p2 then
              ((if q.id = p1 then q.add_connection conn else q)).add_connection conn
              else (if q.id = p1 then q.add_connection conn else q)) =
              { q with connected_to := q.connected_to ++ [conn] } := by
            rw [h1q, if_neg e2]
          rw [h2q]
          show q.connected_to ++ [conn] =
            c.connections.filter (touches q.id) ++ [conn].filter (touches q.id)
          rw [List.filter_cons_of_pos htoucht, List.filter_nil, hctq]
      · have h1q : (if q.id = p1 then q.add_connection conn else q) = q := if_neg e1
        by_cases e2 : q.id = p2
        · have htoucht : touches q.id conn = true := by
            show (conn.pin1_id == q.id || conn.pin2_id == q.id) = true
            rw [Bool.or_eq_true, hc2pid]
            exact Or.inr (beq_iff_eq.mpr e2.symm)
          have h2q : (if ((if q.id = p1 then q.add_connection conn else q)).id = p2 then
              ((if q.id = p1 then q.add_connection conn else q)).add_connection conn
              else (if q.id = p1 then q.add_connection conn else q)) =
              { q with connected_to := q.connected_to ++ [conn] } := by
            rw [h1q, if_pos e2, hfresh_add q hq]
          rw [h2q]
          show q.connected_to ++ [conn] =
            c.connections.filter (touches q.id) ++ [conn].filter (touches q.id)
          rw [List.filter_cons_of_pos htoucht, List.filter_nil, hctq]
        · have htouchf : touches q.id conn = false := by
            show (conn.pin1_id == q.id || conn.pin2_id == q.id) = false
            rw [hc1pid, hc2pid]
            simp only [Bool.or_eq_false_iff, beq_eq_false_iff_ne]
            exact ⟨fun h => e1 h.symm, fun h => e2 h.symm⟩
          have h2q : (if ((if q.id = p1 then q.add_connection conn else q)).id = p2 then
              ((if q.id = p1 then q.add_connection conn else q)).add_connection conn
              else (if q.id = p1 then q.add_connection conn else q)) = q := by
            rw [h1q, if_neg e2]
          rw [h2q]
          show q.connected_to =
            c.connections.filter (touches q.id) ++ [conn].filter (touches q.id)
          rw [List.filter_cons_of_neg (by simp [htouchf]), List.filter_nil,
            List.append_nil, hctq]
    · -- pin ids Nodup
      show (pinIds _).Nodup
      rw [hids2]
      exact hpnd
    · -- connection ids Nodup
      show ((c.connections ++ [conn]).map Connection.id).Nodup
      rw [List.map_append, List.nodup_append]
      refine ⟨hcnd, List.nodup_singleton _, ?_⟩
      intro a ha hb
      obtain ⟨k, hk, hke⟩ := List.mem_map.mp ha
      have hlt := hbound k hk
      have hb' : a = conn.id := by simpa using hb
      rw [← hke] at hb'
      have : conn.id = c.nextId := rfl
      omega
    · -- id bound
      intro k hk
      have hk' : k ∈ c.connections ++ [conn] := hk
      show k.id < c.nextId + 1
      rcases List.mem_append.mp hk' with h | h
      · exact Nat.lt_succ_of_lt (hbound k h)
      · have : k = conn := by simpa using h
        subst this
        exact Nat.lt_succ_self _
    · -- endpoints closed
      intro k hk
      have hk' : k ∈ c.connections ++ [conn] := hk
      have hp1mem : p1 ∈ pinIds c := by
        have hfind := get_pin_by_id_eq_find c p1
        rw [hq1] at hfind
        have hm := List.mem_of_find?_eq_some hfind.symm
        have hidq : idMatch p1 q1 = true := List.find?_some hfind.symm
        exact List.mem_map.mpr ⟨q1, hm, by simpa [idMatch] using hidq⟩
      have hp2mem : p2 ∈ pinIds c := by
        have hfind := get_pin_by_id_eq_find c p2
        rw [hq2] at hfind
        have hm := List.mem_of_find?_eq_some hfind.symm
        have hidq : idMatch p2 q2 = true := List.find?_some hfind.symm
        exact List.mem_map.mpr ⟨q2, hm, by simpa [idMatch] using hidq⟩
      rcases List.mem_append.mp hk' with h | h
      · obtain ⟨ha, hb⟩ := hclosed k h
        exact ⟨by rw [show pinIds _ = pinIds c from hids2]; exact ha,
          by rw [show pinIds _ = pinIds c from hids2]; exact hb⟩
      · have : k = conn := by simpa using h
        subst this
        exact ⟨by rw [show pinIds _ = pinIds c from hids2]; exact hp1mem,
          by rw [show pinIds _ = pinIds c from hids2]; exact hp2mem⟩
    · -- component well-formedness
      refine compsWF_updatePinById _ p2 _ hidf hnamef ?_
      refine compsWF_updatePinById c1 p1 _ hidf hnamef ?_
      exact hcomps

theorem removeFirst_eq_self {q : α → Bool} {l : List α} (h : ∀ x ∈ l, q x = false) :
    removeFirst q l = l := by
  induction l with
  | nil => rfl
  | cons a as ih =>
    rw [removeFirst, if_neg (by simp [h a (List.mem_cons_self a as)]),
      ih (fun x hx => h x (List.mem_cons_of_mem _ hx))]

theorem no_match_in_removeFirst (k : Nat) (l : List Connection)
    (hnd : (l.map Connection.id).Nodup) :
    ∀ x ∈ removeFirst (fun c => c.id == k) l, (x.id == k) = false := by
  induction l with
  | nil => intro x hx; exact absurd hx (by simp [removeFirst])
  | cons a as ih =>
    rw [List.map_cons, List.nodup_cons] at hnd
    by_cases ha : (a.id == k) = true
    · rw [removeFirst, if_pos ha]
      intro x hx
      rw [beq_eq_false_iff_ne]
      intro hxk
      exact hnd.1 (List.mem_map.mpr ⟨x, hx, by rw [hxk, beq_iff_eq.mp ha]⟩)
    · rw [removeFirst, if_neg ha]
      intro x hx
      rcases List.mem_cons.mp hx with h | h
      · rw [h]
        exact Bool.eq_false_iff.mpr ha
      · exact ih hnd.2 x h

theorem WF_remove_connection (c : Circuit) (k : Nat) (hwf : WF c) :
    WF (c.remove_connection k) := by
  obtain ⟨hinv, hpnd, hcnd, hbound, hclosed, hcomps⟩ := hwf
  cases hfind : c.connections.find? (fun conn => conn.id == k) with
  | none =>
    have hres : c.remove_connection k = c := by
      unfold Circuit.remove_connection
      rw [hfind]
    rw [hres]
    exact ⟨hinv, hpnd, hcnd, hbound, hclosed, hcomps⟩
  | some connection =>
    have hconnmem : connection ∈ c.connections := List.mem_of_find?_eq_some hfind
    have hkid' := List.find?_some hfind
    have hkid : connection.id = k := beq_iff_eq.mp hkid'
    have huniq : ∀ x ∈ c.connections, (x.id == k) = true → x = connection := by
      intro x hx hxk
      exact List.inj_on_of_nodup_map hcnd hx hconnmem (by rw [beq_iff_eq.mp hxk, hkid])
    have hres : c.remove_connection k =
        { (c.updatePinById connection.pin1_id
              (fun p => p.remove_connection connection)).updatePinById connection.pin2_id
            (fun p => p.remove_connection connection) with
          connections := removeFirst (fun conn => conn.id == k) c.connections } := by
      unfold Circuit.remove_connection
      rw [hfind]
      rfl
    have hpredeq : (fun c' : Connection => c'.id == connection.id) =
        (fun c' : Connection => c'.id == k) := by
      funext x
      rw [hkid]
    have hrm : ∀ q : Pin, q.remove_connection connection =
        { q with connected_to := removeFirst (fun c' => c'.id == k) q.connected_to } := by
      intro q
      show ({ q with connected_to := removeFirst (fun c' => c'.id == connection.id) q.connected_to } : Pin) = _
      rw [hpredeq]
    have hidf : ∀ p : Pin, (p.remove_connection connection).id = p.id := fun p => rfl
    have hnamef : ∀ p : Pin, (p.remove_connection connection).name = p.name := fun p => rfl
    set r1 := connection.pin1_id with hr1
    set r2 := connection.pin2_id with hr2
    have hflat1 : flatPins (c.updatePinById r1 (fun p => p.remove_connection connection)) =
        (flatPins c).map (fun p => if p.id = r1 then p.remove_connection connection else p) := by
      rw [flatPins_updatePinById]
      exact updateFirst_idMatch_eq_map _ _ _ hpnd
    have hids1 : pinIds (c.updatePinById r1 (fun p => p.remove_connection connection)) =
        pinIds c := pinIds_updatePinById c r1 _ hidf
    have hflat2 : flatPins ((c.updatePinById r1
          (fun p => p.remove_connection connection)).updatePinById r2
          (fun p => p.remove_connection connection)) =
        ((flatPins c).map (fun p => if p.id = r1 then p.remove_connection connection else p)).map
          (fun p => if p.id = r2 then p.remove_connection connection else p) := by
      rw [flatPins_updatePinById, updateFirst_idMatch_eq_map _ _ _ (by
        show pinIds (c.updatePinById r1 (fun p => p.remove_connection connection)) |>.Nodup
        rw [hids1]
        exact hpnd), hflat1]
    have hids2 : pinIds ((c.updatePinById r1
          (fun p => p.remove_connection connection)).updatePinById r2
          (fun p => p.remove_connection connection)) = pinIds c := by
      rw [pinIds_updatePinById _ _ _ hidf, hids1]
    have hctnodup : ∀ q ∈ flatPins c, (q.connected_to.map Connection.id).Nodup := by
      intro q hq
      rw [hinv q hq]
      exact List.Nodup.sublist (List.Sublist.map _ (List.filter_sublist _)) hcnd
    rw [hres]
    refine ⟨?_, ?_, ?_, ?_, ?_, ?_⟩
    · -- PinInvariant
      intro p' hp'
      have hp'' : p' ∈ flatPins ((c.updatePinById r1
          (fun p => p.remove_connection connection)).updatePinById r2
          (fun p => p.remove_connection connection)) := hp'
      rw [hflat2] at hp''
      obtain ⟨r, hr, hre⟩ := List.mem_map.mp hp''
      obtain ⟨q, hq, hqe⟩ := List.mem_map.mp hr
      subst hre
      subst hqe
      have hctq := hinv q hq
      show _ = (removeFirst (fun conn => conn.id == k) c.connections).filter _
      by_cases e1 : q.id = r1
      · have htoucht : touches q.id connection = true := by
          show (connection.pin1_id == q.id || connection.pin2_id == q.id) = true
          rw [Bool.or_eq_true]
          exact Or.inl (beq_iff_eq.mpr (by rw [e1]))
        have hcomm : removeFirst (fun conn => conn.id == k)
            (c.connections.filter (touches q.id)) =
            (removeFirst (fun conn => conn.id == k) c.connections).filter (touches q.id) := by
          refine filter_removeFirst_comm_pos _ _ _ ?_
          intro x hx hxk
          rw [huniq x hx hxk]
          exact htoucht
        have h1q : (if q.id = r1 then q.remove_connection connection else q) =
            { q with connected_to :=
                removeFirst (fun c' => c'.id == k) q.connected_to } := by
          rw [if_pos e1, hrm]
        by_cases e2 : q.id = r2
        · have h2q : (if ((if q.id = r1 then q.remove_connection connection else q)).id = r2 then
              ((if q.id = r1 then q.remove_connection connection else q)).remove_connection
                connection
              else (if q.id = r1 then q.remove_connection connection else q)) =
              { q with connected_to :=
                  removeFirst (fun c' => c'.id == k) q.connected_to } := by
            rw [h1q, if_pos e2, hrm]
            show ({ q with connected_to := removeFirst (fun c' => c'.id == k) (removeFirst (fun c' => c'.id == k) q.connected_to) } : Pin) = _
            rw [removeFirst_eq_self (no_match_in_removeFirst k q.connected_to (hctnodup q hq))]
          rw [h2q]
          show removeFirst (fun c' => c'.id == k) q.connected_to = _
          rw [hctq, hcomm]
        · have h2q : (if ((if q.id = r1 then q.remove_connection connection else q)).id = r2 then
              ((if q.id = r1 then q.remove_connection connection else q)).remove_connection
                connection
              else (if q.id = r1 then q.remove_connection connection else q)) =
              { q with connected_to :=
                  removeFirst (fun c' => c'.id == k) q.connected_to } := by
            rw [h1q, if_neg e2]
          rw [h2q]
          show removeFirst (fun c' => c'.id == k) q.connected_to = _
          rw [hctq, hcomm]
      · have h1q : (if q.id = r1 then q.remove_connection connection else q) = q := if_neg e1
        by_cases e2 : q.id = r2
        · have htoucht : touches q.id connection = true := by
            show (connection.pin1_id == q.id || connection.pin2_id == q.id) = true
            rw [Bool.or_eq_true]
            exact Or.inr (beq_iff_eq.mpr (by rw [e2]))
          have hcomm : removeFirst (fun conn => conn.id == k)
              (c.connections.filter (touches q.id)) =
              (removeFirst (fun conn => conn.id == k) c.connections).filter (touches q.id) := by
            refine filter_removeFirst_comm_pos _ _ _ ?_
            intro x hx hxk
            rw [huniq x hx hxk]
            exact htoucht
          have h2q : (if ((if q.id = r1 then q.remove_connection connection else q)).id = r2 then
              ((if q.id = r1 then q.remove_connection connection else q)).remove_connection
                connection
              else (if q.id = r1 then q.remove_connection connection else q)) =
              { q with connected_to :=
                  removeFirst (fun c' => c'.id == k) q.connected_to } := by
            rw [h1q, if_pos e2, hrm]
          rw [h2q]
          show removeFirst (fun c' => c'.id == k) q.connected_to = _
          rw [hctq, hcomm]
        · have htouchf : touches q.id connection = false := by
            show (connection.pin1_id == q.id || connection.pin2_id == q.id) = false
            simp only [Bool.or_eq_false_iff, beq_eq_false_iff_ne]
            exact ⟨fun h => e1 h.symm, fun h => e2 h.symm⟩
          have h2q : (if ((if q.id = r1 then q.remove_connection connection else q)).id = r2 then
              ((if q.id = r1 then q.remove_connection connection else q)).remove_connection
                connection
              else (if q.id = r1 then q.remove_connection connection else q)) = q := by
            rw [h1q, if_neg e2]
          rw [h2q]
          show q.connected_to = _
          rw [filter_removeFirst_comm_neg _ _ _ (fun x hx hxk => by
            rw [huniq x hx hxk]
            exact htouchf), hctq]
    · -- pin ids Nodup
      show (pinIds ((c.updatePinById r1
          (fun p => p.remove_connection connection)).updatePinById r2
          (fun p => p.remove_connection connection))).Nodup
      rw [hids2]
      exact hpnd
    · -- connection ids Nodup
      show ((removeFirst (fun conn => conn.id == k) c.connections).map Connection.id).Nodup
      exact List.Nodup.sublist
        (List.Sublist.map _ (removeFirst_sublist _ c.connections)) hcnd
    · -- id bound
      intro x hx
      have hx' : x ∈ removeFirst (fun conn => conn.id == k) c.connections := hx
      show x.id < c.nextId
      exact hbound x (mem_removeFirst hx')
    · -- endpoints closed
      intro x hx
      have hx' : x ∈ removeFirst (fun conn => conn.id == k) c.connections := hx
      obtain ⟨ha, hb⟩ := hclosed x (mem_removeFirst hx')
      constructor
      · show x.pin1_id ∈ pinIds ((c.updatePinById r1
          (fun p => p.remove_connection connection)).updatePinById r2
          (fun p => p.remove_connection connection))
        rw [hids2]
        exact ha
      · show x.pin2_id ∈ pinIds ((c.updatePinById r1
          (fun p => p.remove_connection connection)).updatePinById r2
          (fun p => p.remove_connection connection))
        rw [hids2]
        exact hb
    · -- component well-formedness
      refine compsWF_updatePinById _ r2 _ hidf hnamef ?_
      refine compsWF_updatePinById c r1 _ hidf hnamef ?_
      exact hcomps

/-- Every circuit reachable without `remove_component` satisfies the bundled
invariant. -/
theorem WF_reachable (c : Circuit) (h : ReachableNR c) : WF c := by
  induction h with
  | empty => exact WF_empty
  | addComponent c t pos _ ih => exact WF_add_component c t pos ih
  | addConnection c p1 p2 _ h1 h2 ih => exact WF_add_connection c p1 p2 ih h1 h2
  | removeConnection c k _ ih => exact WF_remove_connection c k ih

/-! ### C1: back-reference invariant under the mutation API -/

/-- **C1 counterexample**.  Connect an LED's anode to the Arduino's D13 and
then `remove_component` the LED: the connection is dropped from the circuit's
connection list, but the surviving D13 pin still holds the stale
back-reference, so the claimed invariant fails for sequences that include
`remove_component`. -/
theorem C1_counterexample :
    ((((Circuit.empty.add_component "arduinouno" (0, 0)).1.add_component "led"
        (0, 0)).1.add_connection "pin_arduinouno_0_D13"
        "pin_led_1_anode").1.remove_component "led_1").connections = [] ∧
    (((((Circuit.empty.add_component "arduinouno" (0, 0)).1.add_component "led"
        (0, 0)).1.add_connection "pin_arduinouno_0_D13"
        "pin_led_1_anode").1.remove_component "led_1").get_pin_by_id
        "pin_arduinouno_0_D13").map Pin.connected_to =
      some [{ id := 0, pin1_id := "pin_arduinouno_0_D13", pin2_id := "pin_led_1_anode" }] ∧
    ¬ PinInvariant ((((Circuit.empty.add_component "arduinouno" (0, 0)).1.add_component "led"
        (0, 0)).1.add_connection "pin_arduinouno_0_D13"
        "pin_led_1_anode").1.remove_component "led_1") := by
  refine ⟨by decide, by decide, ?_⟩
  intro hpi
  have hd13 :
      ({ id := "pin_arduinouno_0_D13", name := "D13", pin_type := PIN_TYPE_DIGITAL,
         component_id := "arduinouno_0", position_offset := (0, 150),
         connected_to := [{ id := 0, pin1_id := "pin_arduinouno_0_D13",
                            pin2_id := "pin_led_1_anode" }],
         state := PIN_STATE_UNKNOWN } : Pin) ∈
      flatPins ((((Circuit.empty.add_component "arduinouno" (0, 0)).1.add_component "led"
        (0, 0)).1.add_connection "pin_arduinouno_0_D13"
        "pin_led_1_anode").1.remove_component "led_1") := by decide
  have := hpi _ hd13
  exact absurd this (by decide)

/-- **C1** (corrected).  The back-reference invariant — each live pin's
`connected_to` is exactly the circuit connections touching the pin's id —
holds for every circuit reachable by `add_component`, `add_connection`
(with both endpoints resolving) and `remove_connection`, but not under
`remove_component` (see the counterexample): `remove_component` does drop
every connection touching the removed component's pins from the circuit's
connection list, yet never cleans the other endpoint's back-reference list. -/
theorem C1_backref_invariant :
    (∀ c : Circuit, ReachableNR c → PinInvariant c) ∧
    (∀ (c : Circuit) (cid : String) (component : Component),
      c.components.find? (fun comp => comp.id == cid) = some component →
      ∀ conn ∈ (c.remove_component cid).connections,
        ((component.pins.map (fun e => e.2.id)).contains conn.pin1_id = false ∧
         (component.pins.map (fun e => e.2.id)).contains conn.pin2_id = false)) := by
  constructor
  · intro c h
    exact (WF_reachable c h).1
  · intro c cid component hfind conn hconn
    have hres : (c.remove_component cid).connections =
        c.connections.filter (fun conn =>
          !((component.pins.map (fun e => e.2.id)).contains conn.pin1_id ||
            (component.pins.map (fun e => e.2.id)).contains conn.pin2_id)) := by
      unfold Circuit.remove_component
      rw [hfind]
    rw [hres] at hconn
    have hmem := List.of_mem_filter hconn
    simp only [Bool.not_eq_true', Bool.or_eq_false_iff] at hmem
    exact hmem

/-- Witness for C1: the invariant at a reachable circuit (Arduino wired
D0–D1, then an LED added), and the connection-list cleanup conclusion after
removing the LED. -/
theorem C1_backref_invariant_witness :
    PinInvariant (((Circuit.empty.add_component "arduinouno"
      (0, 0)).1.add_connection "pin_arduinouno_0_D0" "pin_arduinouno_0_D1").1) ∧
    (((mkComponent "led_1" "led" (0, 0) [] []).pins.map (fun e => e.2.id)).contains
        "pin_arduinouno_0_D0" = false ∧
     ((mkComponent "led_1" "led" (0, 0) [] []).pins.map (fun e => e.2.id)).contains
        "pin_arduinouno_0_D1" = false) := by
  constructor
  · refine C1_backref_invariant.1 _ ?_
    exact ReachableNR.addConnection _ "pin_arduinouno_0_D0" "pin_arduinouno_0_D1"
      (ReachableNR.addComponent _ "arduinouno" (0, 0) ReachableNR.empty)
      (by decide) (by decide)
  · exact C1_backref_invariant.2
      ((((Circuit.empty.add_component "arduinouno" (0, 0)).1.add_connection
        "pin_arduinouno_0_D0" "pin_arduinouno_0_D1").1.add_component "led" (0, 0)).1)
      "led_1" (mkComponent "led_1" "led" (0, 0) [] []) (by decide)
      { id := 0, pin1_id := "pin_arduinouno_0_D0", pin2_id := "pin_arduinouno_0_D1" }
      (by decide)

/-! ### C4: generic fold and dict lemmas -/

theorem foldl_filterMap_fuse {α : Type u} {β : Type v} {γ : Type w}
    (step : β → α → β) (sel : α → Option γ) (emb : β → γ → β)
    (hstep : ∀ b a, step b a = match sel a with | none => b | some g => emb b g) :
    ∀ (l : List α) (b : β), l.foldl step b = (l.filterMap sel).foldl emb b := by
  intro l
  induction l with
  | nil => intro b; rfl
  | cons a as ih =>
    intro b
    rw [List.foldl_cons, hstep]
    cases hsel : sel a with
    | none =>
      simp only [List.filterMap_cons, hsel]
      exact ih b
    | some g =>
      simp only [List.filterMap_cons, hsel, List.foldl_cons]
      exact ih (emb b g)

theorem foldl_flatMap_fuse {α : Type u} {β : Type v} {γ : Type w}
    (g : α → List γ) (f : β → γ → β) :
    ∀ (l : List α) (b : β), (l.flatMap g).foldl f b = l.foldl (fun b x => (g x).foldl f b) b := by
  intro l
  induction l with
  | nil => intro b; rfl
  | cons a as ih =>
    intro b
    rw [List.flatMap_cons, List.foldl_append, List.foldl_cons, ih]

theorem dictSet_absent (d : List (String × α)) (k : String) (v : α)
    (h : ∀ e ∈ d, e.1 ≠ k) : dictSet d k v = d ++ [(k, v)] := by
  induction d with
  | nil => rfl
  | cons e rest ih =>
    simp only [dictSet]
    rw [if_neg (h e (List.mem_cons_self e rest)), List.cons_append,
      ih (fun x hx => h x (List.mem_cons_of_mem _ hx))]

theorem foldl_dictSet_fresh (xs : List (String × α)) :
    ∀ acc : List (String × α), (xs.map Prod.fst).Nodup →
    (∀ x ∈ xs, ∀ e ∈ acc, e.1 ≠ x.1) →
    xs.foldl (fun a e => dictSet a e.1 e.2) acc = acc ++ xs := by
  induction xs with
  | nil => intro acc _ _; simp
  | cons x rest ih =>
    intro acc hnd hdisj
    rw [List.map_cons, List.nodup_cons] at hnd
    rw [List.foldl_cons, dictSet_absent _ _ _ (fun e he => hdisj x
      (List.mem_cons_self x rest) e he)]
    rw [ih (acc ++ [x]) hnd.2 ?_]
    · rw [List.append_assoc]
      rfl
    · intro y hy e he
      rcases List.mem_append.mp he with he | he
      · exact hdisj y (List.mem_cons_of_mem _ hy) e he
      · have : e = x := by simpa using he
        subst this
        intro hxy
        exact hnd.1 (List.mem_map.mpr ⟨y, hy, hxy.symm⟩)

theorem pyDict_nodup (xs : List (String × α)) (hnd : (xs.map Prod.fst).Nodup) :
    pyDict xs = xs := by
  unfold pyDict
  rw [foldl_dictSet_fresh xs [] hnd (by simp)]
  rfl

theorem dictGet?_map_val {γ : Type u} (pins : List (String × α)) (f : α → γ) (k : String) :
    dictGet? (pins.map (fun e => (e.1, f e.2))) k = (dictGet? pins k).map f := by
  induction pins with
  | nil => rfl
  | cons e rest ih =>
    by_cases h : e.1 = k
    · simp [dictGet?, h]
    · simp only [List.map_cons, dictGet?, h, if_false, if_neg h]
      exact ih

theorem dictGet?_of_map {π : Type u} {γ : Type v} (L : List π) (key : π → String)
    (val : π → γ) (k : String) (hk : k ∈ L.map key) :
    ∃ x ∈ L, key x = k ∧ dictGet? (L.map (fun p => (key p, val p))) k = some (val x) := by
  induction L with
  | nil => simp at hk
  | cons p rest ih =>
    by_cases h : key p = k
    · exact ⟨p, List.mem_cons_self p rest, h, by simp [dictGet?, h]⟩
    · rw [List.map_cons, List.mem_cons] at hk
      rcases hk with hk | hk
      · exact absurd hk.symm h
      · obtain ⟨x, hx, h1, h2⟩ := ih hk
        exact ⟨x, List.mem_cons_of_mem _ hx, h1, by simpa [dictGet?, h] using h2⟩

theorem dictMem_iff (d : List (String × α)) (k : String) :
    dictMem d k = true ↔ k ∈ d.map Prod.fst := by
  induction d with
  | nil => simp [dictMem]
  | cons e rest ih =>
    simp only [dictMem, Bool.or_eq_true, beq_iff_eq, List.map_cons, List.mem_cons, ih]
    constructor
    · rintro (h | h)
      · exact Or.inl h.symm
      · exact Or.inr h
    · rintro (h | h)
      · exact Or.inl h.symm
      · exact Or.inr h

theorem map_enumFrom_indexfree {β : Type u} {γ : Type v} (l : List β) (G : Nat × β → γ)
    (h : β → γ) (hpt : ∀ i x, x ∈ l → G (i, x) = h x) :
    ∀ n, (List.enumFrom n l).map G = l.map h := by
  induction l with
  | nil => intro n; rfl
  | cons x xs ih =>
    intro n
    show G (n, x) :: (List.enumFrom (n + 1) xs).map G = h x :: xs.map h
    rw [hpt n x (List.mem_cons_self x xs),
      ih (fun i y hy => hpt i y (List.mem_cons_of_mem _ hy)) (n + 1)]

theorem find?_map_rel {α : Type u} {β : Type v} {γ : Type w} {f : α → γ} {g : β → γ}
    {p : α → Bool} {q : β → Bool} {r : γ → Bool}
    (hp : ∀ a, p a = r (f a)) (hq : ∀ b, q b = r (g b)) :
    ∀ {l1 : List α} {l2 : List β}, l1.map f = l2.map g →
      (l1.find? p).map f = (l2.find? q).map g := by
  intro l1
  induction l1 with
  | nil =>
    intro l2 h
    cases l2 with
    | nil => rfl
    | cons b bs => simp at h
  | cons a as ih =>
    intro l2 h
    cases l2 with
    | nil => simp at h
    | cons b bs =>
      rw [List.map_cons, List.map_cons] at h
      injection h with h1 h2
      by_cases hc : p a = true
      · have hqb : q b = true := by rw [hq, ← h1, ← hp]; exact hc
        rw [List.find?_cons_of_pos _ hc, List.find?_cons_of_pos _ hqb]
        simpa using h1
      · have hqb : ¬ q b = true := by rw [hq, ← h1, ← hp]; exact hc
        rw [List.find?_cons_of_neg _ hc, List.find?_cons_of_neg _ hqb, ih h2]

theorem find?_comp_id_of_nodup (L : List Component) (comp : Component) (hc : comp ∈ L)
    (hnd : (L.map Component.id).Nodup) :
    L.find? (fun x => x.id == comp.id) = some comp := by
  induction L with
  | nil => cases hc
  | cons x rest ih =>
    rw [List.map_cons, List.nodup_cons] at hnd
    rcases List.mem_cons.mp hc with hc | hc
    · subst hc
      rw [List.find?_cons_of_pos _ (by simp)]
    · have hxne : (x.id == comp.id) = false := by
        rw [beq_eq_false_iff_ne]
        intro he
        exact hnd.1 (List.mem_map.mpr ⟨comp, hc, he.symm⟩)
      rw [List.find?_cons_of_neg _ (by simp [hxne]), ih hc hnd.2]

/-! ### C4: what get_data emits -/

theorem get_data_conns (c : Circuit) (component : Component) :
    component.pins.foldl (fun acc e =>
      e.2.connected_to.foldl (fun acc2 connection =>
        match c.get_pin_by_id
            (if connection.pin1_id == e.2.id then connection.pin2_id
             else connection.pin1_id) with
        | none => acc2
        | some other_pin =>
          match c.get_component_by_id other_pin.component_id with
          | none => acc2
          | some other_component =>
            if other_component.type == "arduinouno" then
              dictSet acc2 e.1 other_pin.name
            else acc2) acc) [] = pyDict (facingOf c component) := by
  have hstep : ∀ (e : String × Pin) (acc : List (String × String)),
      e.2.connected_to.foldl (fun acc2 connection =>
        match c.get_pin_by_id
            (if connection.pin1_id == e.2.id then connection.pin2_id
             else connection.pin1_id) with
        | none => acc2
        | some other_pin =>
          match c.get_component_by_id other_pin.component_id with
          | none => acc2
          | some other_component =>
            if other_component.type == "arduinouno" then
              dictSet acc2 e.1 other_pin.name
            else acc2) acc =
      ((fun (e : String × Pin) => e.2.connected_to.filterMap (fun connection =>
        match c.get_pin_by_id
            (if connection.pin1_id == e.2.id then connection.pin2_id
             else connection.pin1_id) with
        | none => none
        | some other_pin =>
          match c.get_component_by_id other_pin.component_id with
          | none => none
          | some other_component =>
            if other_component.type == "arduinouno" then some (e.1, other_pin.name)
            else none)) e).foldl (fun a kv => dictSet a kv.1 kv.2) acc := by
    intro e acc
    refine foldl_filterMap_fuse _ _ _ ?_ _ acc
    intro b a
    cases c.get_pin_by_id (if a.pin1_id == e.2.id then a.pin2_id else a.pin1_id) with
    | none => rfl
    | some op =>
      dsimp only
      cases c.get_component_by_id op.component_id with
      | none => rfl
      | some oc =>
        dsimp only
        by_cases h : (oc.type == "arduinouno") = true
        · rw [if_pos h, if_pos h]
        · rw [if_neg h, if_neg h]
  have hfun : (fun (acc : List (String × String)) (e : String × Pin) =>
      e.2.connected_to.foldl (fun acc2 connection =>
        match c.get_pin_by_id
            (if connection.pin1_id == e.2.id then connection.pin2_id
             else connection.pin1_id) with
        | none => acc2
        | some other_pin =>
          match c.get_component_by_id other_pin.component_id with
          | none => acc2
          | some other_component =>
            if other_component.type == "arduinouno" then
              dictSet acc2 e.1 other_pin.name
            else acc2) acc) =
      (fun acc e => ((fun (e : String × Pin) => e.2.connected_to.filterMap (fun connection =>
        match c.get_pin_by_id
            (if connection.pin1_id == e.2.id then connection.pin2_id
             else connection.pin1_id) with
        | none => none
        | some other_pin =>
          match c.get_component_by_id other_pin.component_id with
          | none => none
          | some other_component =>
            if other_component.type == "arduinouno" then some (e.1, other_pin.name)
            else none)) e).foldl (fun a kv => dictSet a kv.1 kv.2) acc) := by
    funext acc e
    exact hstep e acc
  rw [hfun]
  exact (foldl_flatMap_fuse _ _ component.pins []).symm

theorem get_data_eq (c : Circuit) :
    c.get_data = ⟨some (c.components.map (serComp c))⟩ := by
  unfold Circuit.get_data serComp
  simp only [get_data_conns]

theorem update_from_data_some (ds : List CompData) :
    Circuit.empty.update_from_data ⟨some ds⟩ =
    Circuit.create_connections_from_components
      ⟨ds.enum.map rebuildComp, [], none, ⟨[]⟩, 0⟩ := rfl

theorem createPins_proj (t cid : String) :
    (createPins t cid).map (fun e => (e.1, e.2.id, e.2.name, e.2.component_id)) =
      (pinConfigs t).map (fun pc => (pc.1, mkPinId cid pc.1, pc.1, cid)) := by
  unfold createPins
  rw [List.map_map]
  rfl

theorem catalog_pins_proj {comp : Component} (h : CompCatalog comp) :
    comp.pins.map (fun e => (e.1, e.2.id, e.2.name, e.2.component_id)) =
      (pinConfigs comp.type).map (fun pc => (pc.1, mkPinId comp.id pc.1, pc.1, comp.id)) := by
  obtain ⟨-, hkeys, hpt⟩ := h
  have hptw : ∀ e ∈ comp.pins, (fun e : String × Pin =>
      (e.1, e.2.id, e.2.name, e.2.component_id)) e =
      (fun k => (k, mkPinId comp.id k, k, comp.id)) e.1 := by
    intro e he
    obtain ⟨hn, hid, hcid⟩ := hpt e he
    show (e.1, e.2.id, e.2.name, e.2.component_id) = (e.1, mkPinId comp.id e.1, e.1, comp.id)
    rw [hn, hid, hcid]
  rw [List.map_congr_left hptw]
  have h2 : comp.pins.map (fun e => ((fun k => (k, mkPinId comp.id k, k, comp.id)) e.1)) =
      (comp.pins.map Prod.fst).map (fun k => (k, mkPinId comp.id k, k, comp.id)) :=
    (List.map_map (fun k => (k, mkPinId comp.id k, k, comp.id)) Prod.fst comp.pins).symm
  rw [h2, hkeys, List.map_map]
  rfl

theorem rebuild_one_shape (c : Circuit) {comp : Component} (i : Nat)
    (h4 : CompCatalog comp)
    (h5 : ((facingOf c comp).map Prod.fst).Nodup) :
    compConnShape (rebuildComp (i, serComp c comp)) = rtShape c comp := by
  obtain ⟨hlow, -, -⟩ := h4
  show (comp.id, pyLower comp.type,
      ((pyDict (facingOf c comp)).map (fun e => (e.1, ConnVal.vstr e.2))).map
        (fun e => (e.1, (e.2).pyStr)),
      (createPins (pyLower comp.type) comp.id).map
        (fun e => (e.1, e.2.id, e.2.name, e.2.component_id))) = rtShape c comp
  rw [hlow, List.map_map, createPins_proj, pyDict_nodup _ h5]
  show (comp.id, comp.type, (facingOf c comp).map (fun e => (e.1, e.2)), _) = _
  rw [show ((fun e : String × String => (e.1, e.2)) = fun e => e) from rfl, List.map_id']
  rfl

theorem rebuild_shapes (c : Circuit)
    (h4 : ∀ comp ∈ c.components, CompCatalog comp)
    (h5 : ∀ comp ∈ c.components, ((facingOf c comp).map Prod.fst).Nodup) :
    (((c.components.map (serComp c)).enum.map rebuildComp).map compConnShape) =
      c.components.map (rtShape c) := by
  rw [List.enum_map, List.map_map, List.map_map]
  show (c.components.enum.map (compConnShape ∘ rebuildComp ∘ Prod.map id (serComp c))) = _
  exact map_enumFrom_indexfree c.components _ _
    (fun i x hx => rebuild_one_shape c i (h4 x hx) (h5 x hx)) 0

theorem find_ard_rebuild (c : Circuit) {l : List Component}
    (hsh : l.map compConnShape = c.components.map (rtShape c))
    (h6 : ∃ comp ∈ c.components, comp.type = "arduinouno") :
    ∃ A a0, l.find? (fun comp => comp.type == "arduinouno") = some A ∧
      c.components.find? (fun comp => comp.type == "arduinouno") = some a0 ∧
      compConnShape A = rtShape c a0 := by
  have hfr := find?_map_rel (f := compConnShape) (g := rtShape c)
    (p := fun comp : Component => comp.type == "arduinouno")
    (q := fun comp : Component => comp.type == "arduinouno")
    (r := fun sh => sh.2.1 == "arduinouno") (fun a => rfl) (fun b => rfl) hsh
  obtain ⟨a0, ha0m, ha0t⟩ := h6
  have hsome : (c.components.find? (fun comp => comp.type == "arduinouno")).isSome := by
    rw [List.find?_isSome]
    exact ⟨a0, ha0m, by simp [ha0t]⟩
  obtain ⟨a1, ha1⟩ := Option.isSome_iff_exists.mp hsome
  rw [ha1] at hfr
  cases hA : l.find? (fun comp => comp.type == "arduinouno") with
  | none =>
    rw [hA] at hfr
    simp at hfr
  | some A =>
    rw [hA] at hfr
    exact ⟨A, a1, rfl, ha1, by simpa using hfr⟩

theorem compPins_pinRef (comp : Component) :
    (compPins comp).map pinRef = ((compConnShape comp).2.2.2).map Prod.snd := by
  show (comp.pins.map (·.2)).map pinRef = (comp.pins.map _).map Prod.snd
  rw [List.map_map, List.map_map]
  rfl

theorem flatPinsL_pinRef : ∀ l : List Component, (flatPinsL l).map pinRef =
    (l.map compConnShape).flatMap (fun sh => sh.2.2.2.map Prod.snd) := by
  intro l
  induction l with
  | nil => rfl
  | cons comp rest ih =>
    show (compPins comp ++ flatPinsL rest).map pinRef = _
    rw [List.map_append, List.map_cons, List.flatMap_cons, ih, compPins_pinRef]

theorem flatMap_congr_mem {α : Type u} {β : Type v} {l : List α} {f g : α → List β}
    (h : ∀ x ∈ l, f x = g x) : l.flatMap f = l.flatMap g := by
  induction l with
  | nil => rfl
  | cons x xs ih =>
    rw [List.flatMap_cons, List.flatMap_cons, h x (List.mem_cons_self x xs),
      ih (fun y hy => h y (List.mem_cons_of_mem _ hy))]

theorem flatPins_pinRef_of_shapes {l1 l2 : List Component}
    (h : l1.map compConnShape = l2.map compConnShape) :
    (flatPinsL l1).map pinRef = (flatPinsL l2).map pinRef := by
  rw [flatPinsL_pinRef, flatPinsL_pinRef, h]

theorem pinIds_of_pinRef {l1 l2 : List Pin}
    (h : l1.map pinRef = l2.map pinRef) : l1.map Pin.id = l2.map Pin.id := by
  have k1 : l1.map Pin.id = (l1.map pinRef).map Prod.fst := by
    rw [List.map_map]
    rfl
  have k2 : l2.map Pin.id = (l2.map pinRef).map Prod.fst := by
    rw [List.map_map]
    rfl
  rw [k1, k2, h]

theorem get_pin_pinRef_of_flatRef {c1 c2 : Circuit}
    (h : (flatPins c1).map pinRef = (flatPins c2).map pinRef) (pid : String) :
    (c1.get_pin_by_id pid).map pinRef = (c2.get_pin_by_id pid).map pinRef := by
  rw [get_pin_by_id_eq_find, get_pin_by_id_eq_find]
  exact find?_map_rel (r := fun pr => pr.1 == pid) (fun a => rfl) (fun b => rfl) h

theorem get_pin_pinRef_of_shapes {c1 c2 : Circuit}
    (h : c1.components.map compConnShape = c2.components.map compConnShape) (pid : String) :
    (c1.get_pin_by_id pid).map pinRef = (c2.get_pin_by_id pid).map pinRef :=
  get_pin_pinRef_of_flatRef (flatPins_pinRef_of_shapes h) pid

theorem get_component_shape_of_shapes {c1 c2 : Circuit}
    (h : c1.components.map compConnShape = c2.components.map compConnShape) (cid : String) :
    (c1.get_component_by_id cid).map compConnShape =
      (c2.get_component_by_id cid).map compConnShape := by
  unfold Circuit.get_component_by_id
  exact find?_map_rel (r := fun sh => sh.1 == cid) (fun a => rfl) (fun b => rfl) h

theorem typesList_of_shapes {c1 c2 : Circuit}
    (h : c1.components.map compConnShape = c2.components.map compConnShape) :
    typesList c1 = typesList c2 := by
  have k : ∀ c : Circuit, typesList c = (c.components.map compConnShape).map (fun sh => sh.2.1) := by
    intro c
    show c.components.map Component.type = _
    rw [List.map_map]
    rfl
  rw [k, k, h]

theorem dictModifyPinById_proj (pid : String) (f : Pin → Pin)
    (hfid : ∀ p, (f p).id = p.id) (hfname : ∀ p, (f p).name = p.name)
    (hfcid : ∀ p, (f p).component_id = p.component_id) (pins : List (String × Pin)) :
    (updateCompListPin.dictModifyPinById pid f pins).map
      (fun e => (e.1, e.2.id, e.2.name, e.2.component_id)) =
    pins.map (fun e => (e.1, e.2.id, e.2.name, e.2.component_id)) := by
  induction pins with
  | nil => rfl
  | cons e rest ih =>
    by_cases h : e.2.id == pid
    · rw [updateCompListPin.dictModifyPinById, if_pos h, List.map_cons, List.map_cons]
      congr 1
      show (e.1, (f e.2).id, (f e.2).name, (f e.2).component_id) = _
      rw [hfid, hfname, hfcid]
    · rw [updateCompListPin.dictModifyPinById, if_neg h, List.map_cons, List.map_cons, ih]

theorem compConnShapes_updateCompListPin (pid : String) (f : Pin → Pin)
    (hfid : ∀ p, (f p).id = p.id) (hfname : ∀ p, (f p).name = p.name)
    (hfcid : ∀ p, (f p).component_id = p.component_id) (l : List Component) :
    (updateCompListPin pid f l).map compConnShape = l.map compConnShape := by
  induction l with
  | nil => rfl
  | cons comp rest ih =>
    by_cases hc : comp.pins.any (fun e => e.2.id == pid)
    · rw [updateCompListPin, if_pos hc, List.map_cons, List.map_cons]
      congr 1
      show (comp.id, comp.type, comp.connections,
        (updateCompListPin.dictModifyPinById pid f comp.pins).map
          (fun e => (e.1, e.2.id, e.2.name, e.2.component_id))) = compConnShape comp
      rw [dictModifyPinById_proj pid f hfid hfname hfcid]
      rfl
    · rw [updateCompListPin, if_neg hc, List.map_cons, List.map_cons, ih]

theorem compConnShapes_updatePinById (c : Circuit) (pid : String) (f : Pin → Pin)
    (hfid : ∀ p, (f p).id = p.id) (hfname : ∀ p, (f p).name = p.name)
    (hfcid : ∀ p, (f p).component_id = p.component_id) :
    (c.updatePinById pid f).components.map compConnShape =
      c.components.map compConnShape :=
  compConnShapes_updateCompListPin pid f hfid hfname hfcid c.components

theorem add_connection_shape_effects (c : Circuit) (p1 p2 : String)
    (hdup : (c.connections.any (fun conn =>
      (conn.pin1_id == p1 && conn.pin2_id == p2) ||
      (conn.pin1_id == p2 && conn.pin2_id == p1))) = false) :
    (c.add_connection p1 p2).1.components.map compConnShape =
      c.components.map compConnShape ∧
    (c.add_connection p1 p2).1.connections =
      c.connections ++ [{ id := c.nextId, pin1_id := p1, pin2_id := p2 }] ∧
    (c.add_connection p1 p2).1.nextId = c.nextId + 1 := by
  set conn : Connection := { id := c.nextId, pin1_id := p1, pin2_id := p2 } with hconndef
  set c1 : Circuit :=
    { c with connections := c.connections ++ [conn], nextId := c.nextId + 1 } with hc1def
  have hstep : c.add_connection p1 p2 =
      (match c1.get_pin_by_id p1, c1.get_pin_by_id p2 with
      | some _, some _ =>
        let c2 := c1.updatePinById p1 (fun p => p.add_connection conn)
        let c3 := c2.updatePinById p2 (fun p => p.add_connection conn)
        (c3, some conn)
      | _, _ => (c1, some conn)) := by
    unfold Circuit.add_connection
    rw [if_neg (by simp [hdup])]
  have hg1 : c1.get_pin_by_id p1 = c.get_pin_by_id p1 := rfl
  have hg2 : c1.get_pin_by_id p2 = c.get_pin_by_id p2 := rfl
  have hidf : ∀ p : Pin, (p.add_connection conn).id = p.id := by
    intro p
    unfold Pin.add_connection
    split <;> rfl
  have hnamef : ∀ p : Pin, (p.add_connection conn).name = p.name := by
    intro p
    unfold Pin.add_connection
    split <;> rfl
  have hcidf : ∀ p : Pin, (p.add_connection conn).component_id = p.component_id := by
    intro p
    unfold Pin.add_connection
    split <;> rfl
  cases h1 : c.get_pin_by_id p1 with
  | none =>
    rw [hstep, hg1, hg2, h1]
    cases h2 : c.get_pin_by_id p2 <;> exact ⟨rfl, rfl, rfl⟩
  | some q1 =>
    cases h2 : c.get_pin_by_id p2 with
    | none =>
      rw [hstep, hg1, hg2, h1, h2]
      exact ⟨rfl, rfl, rfl⟩
    | some q2 =>
      rw [hstep, hg1, hg2, h1, h2]
      refine ⟨?_, rfl, rfl⟩
      show ((c1.updatePinById p1 (fun p => p.add_connection conn)).updatePinById p2
        (fun p => p.add_connection conn)).components.map compConnShape = _
      rw [compConnShapes_updatePinById _ _ _ hidf hnamef hcidf,
        compConnShapes_updatePinById _ _ _ hidf hnamef hcidf]

theorem buildConns_append (aid : String) (j1 j2 : List (String × String × String)) :
    ∀ s : Nat, buildConns aid (j1 ++ j2) s =
      buildConns aid j1 s ++ buildConns aid j2 (s + j1.length) := by
  induction j1 with
  | nil =>
    intro s
    simp [buildConns]
  | cons j rest ih =>
    intro s
    rw [List.cons_append, buildConns, buildConns, ih (s + 1), List.cons_append,
      List.length_cons]
    congr 3
    omega

theorem buildConns_length (aid : String) (jobs : List (String × String × String)) :
    ∀ s, (buildConns aid jobs s).length = jobs.length := by
  induction jobs with
  | nil => intro s; rfl
  | cons j rest ih =>
    intro s
    rw [buildConns, List.length_cons, ih, List.length_cons]

theorem buildConns_filterMap {γ : Type u} (aid : String) (res : Connection → Option γ)
    (G : String × String × String → Option γ) :
    ∀ (jobs : List (String × String × String)),
      (∀ job ∈ jobs, ∀ s : Nat,
        res { id := s, pin1_id := mkPinId job.1 job.2.1, pin2_id := mkPinId aid job.2.2 } =
          G job) →
      ∀ s : Nat, (buildConns aid jobs s).filterMap res = jobs.filterMap G := by
  intro jobs
  induction jobs with
  | nil => intro _ s; rfl
  | cons j rest ih =>
    intro hres s
    rw [buildConns, List.filterMap_cons, List.filterMap_cons,
      hres j (List.mem_cons_self j rest) s]
    cases G j with
    | none => exact ih (fun job hj => hres job (List.mem_cons_of_mem _ hj)) (s + 1)
    | some g => rw [ih (fun job hj => hres job (List.mem_cons_of_mem _ hj)) (s + 1)]

theorem mem_buildConns {aid : String} {jobs : List (String × String × String)}
    {conn : Connection} :
    ∀ {s : Nat}, conn ∈ buildConns aid jobs s →
      ∃ job ∈ jobs, conn.pin1_id = mkPinId job.1 job.2.1 ∧
        conn.pin2_id = mkPinId aid job.2.2 := by
  induction jobs with
  | nil => intro s h; cases h
  | cons j rest ih =>
    intro s h
    rcases List.mem_cons.mp h with h | h
    · exact ⟨j, List.mem_cons_self j rest, by rw [h], by rw [h]⟩
    · obtain ⟨job, hm, h1, h2⟩ := ih h
      exact ⟨job, List.mem_cons_of_mem _ hm, h1, h2⟩

theorem dictGet?_pinproj (pins : List (String × Pin)) (k : String) :
    dictGet? (pins.map (fun e => (e.1, e.2.id, e.2.name, e.2.component_id))) k =
      (dictGet? pins k).map (fun p => (p.id, p.name, p.component_id)) := by
  induction pins with
  | nil => rfl
  | cons e rest ih =>
    by_cases h : e.1 = k
    · simp [dictGet?, h]
    · simp only [List.map_cons, dictGet?, if_neg h]
      exact ih

theorem dictGet?_named {γ : Type u} (names : List String) (g : String → γ) (k : String)
    (hk : k ∈ names) :
    dictGet? (names.map (fun m => (m, g m))) k = some (g k) := by
  induction names with
  | nil => cases hk
  | cons m rest ih =>
    by_cases h : m = k
    · subst h
      simp [dictGet?]
    · rcases List.mem_cons.mp hk with hk | hk
      · exact absurd hk.symm h
      · simpa [dictGet?, h] using ih hk

theorem keys_eq_proj_keys (pins : List (String × Pin)) :
    pins.map Prod.fst =
      (pins.map (fun e => (e.1, e.2.id, e.2.name, e.2.component_id))).map Prod.fst := by
  rw [List.map_map]
  rfl

theorem config_tuple_split (t cid : String) :
    (pinConfigs t).map (fun pc => (pc.1, mkPinId cid pc.1, pc.1, cid)) =
      ((pinConfigs t).map Prod.fst).map (fun m => (m, mkPinId cid m, m, cid)) := by
  rw [List.map_map]
  rfl

theorem ardNames_not_digit : ∀ n ∈ ardNames, pyIsDigit n = false := by decide

theorem gnd_mem_ardNames : "GND" ∈ ardNames := by decide

theorem pin_entry_inj (c : Circuit)
    (h2 : (pinIds c).Nodup) (h3 : (c.components.map Component.id).Nodup)
    (h4 : ∀ comp ∈ c.components, CompCatalog comp) :
    ∀ comp1 ∈ c.components, ∀ comp2 ∈ c.components,
    ∀ k1 ∈ comp1.pins.map Prod.fst, ∀ k2 ∈ comp2.pins.map Prod.fst,
      mkPinId comp1.id k1 = mkPinId comp2.id k2 → comp1 = comp2 ∧ k1 = k2 := by
  intro comp1 hm1 comp2 hm2 k1 hk1 k2 hk2 heq
  obtain ⟨e1, he1, hk1e⟩ := List.mem_map.mp hk1
  obtain ⟨e2, he2, hk2e⟩ := List.mem_map.mp hk2
  obtain ⟨-, -, hpt1⟩ := h4 comp1 hm1
  obtain ⟨-, -, hpt2⟩ := h4 comp2 hm2
  obtain ⟨hn1, hid1, hcid1⟩ := hpt1 e1 he1
  obtain ⟨hn2, hid2, hcid2⟩ := hpt2 e2 he2
  have hp1mem : e1.2 ∈ flatPins c :=
    mem_flatPinsL.mpr ⟨comp1, hm1, List.mem_map.mpr ⟨e1, he1, rfl⟩⟩
  have hp2mem : e2.2 ∈ flatPins c :=
    mem_flatPinsL.mpr ⟨comp2, hm2, List.mem_map.mpr ⟨e2, he2, rfl⟩⟩
  have hideq : e1.2.id = e2.2.id := by
    rw [hid1, hid2, hk1e, hk2e, heq]
  have hpeq : e1.2 = e2.2 := List.inj_on_of_nodup_map h2 hp1mem hp2mem hideq
  have hcideq : comp1.id = comp2.id := by
    rw [← hcid1, ← hcid2, hpeq]
  have hceq : comp1 = comp2 := List.inj_on_of_nodup_map h3 hm1 hm2 hcideq
  have hkeq : k1 = k2 := by
    rw [← hk1e, ← hk2e, ← hn1, ← hn2, hpeq]
  exact ⟨hceq, hkeq⟩

theorem facingOf_entry (c : Circuit)
    (h3 : (c.components.map Component.id).Nodup)
    (h4 : ∀ comp ∈ c.components, CompCatalog comp)
    {comp : Component} {en : String × String}
    (he : en ∈ facingOf c comp) :
    en.1 ∈ comp.pins.map Prod.fst ∧ en.2 ∈ ardNames := by
  unfold facingOf at he
  obtain ⟨e, hemem, hcn⟩ := List.mem_flatMap.mp he
  obtain ⟨connection, hconn, hsel⟩ := List.mem_filterMap.mp hcn
  dsimp only at hsel
  cases hgp : c.get_pin_by_id
      (if connection.pin1_id == e.2.id then connection.pin2_id else connection.pin1_id) with
  | none =>
    rw [hgp] at hsel
    simp at hsel
  | some op =>
    rw [hgp] at hsel
    dsimp only at hsel
    cases hgc : c.get_component_by_id op.component_id with
    | none =>
      rw [hgc] at hsel
      simp at hsel
    | some oc =>
      rw [hgc] at hsel
      dsimp only at hsel
      by_cases ht : (oc.type == "arduinouno") = true
      · rw [if_pos ht] at hsel
        have hen : en = (e.1, op.name) := (Option.some.inj hsel).symm
        have hopmem : op ∈ flatPins c := by
          have hf := get_pin_by_id_eq_find c
            (if connection.pin1_id == e.2.id then connection.pin2_id else connection.pin1_id)
          rw [hgp] at hf
          exact List.mem_of_find?_eq_some hf.symm
        obtain ⟨compX, hcXm, hpinX⟩ := mem_flatPinsL.mp hopmem
        obtain ⟨eX, heX, heXe⟩ := List.mem_map.mp hpinX
        obtain ⟨-, hkeysX, hptX⟩ := h4 compX hcXm
        obtain ⟨hnX, -, hcidX⟩ := hptX eX heX
        have hocmem : oc ∈ c.components := List.mem_of_find?_eq_some hgc
        have hocid' := List.find?_some hgc
        have hocid : oc.id = op.component_id := beq_iff_eq.mp hocid'
        have hXid : compX.id = op.component_id := by
          rw [← hcidX, heXe]
        have hocX : oc = compX :=
          List.inj_on_of_nodup_map h3 hocmem hcXm (by rw [hocid, hXid])
        have htX : compX.type = "arduinouno" := by
          rw [← hocX]
          exact beq_iff_eq.mp ht
        constructor
        · rw [hen]
          exact List.mem_map.mpr ⟨e, hemem, rfl⟩
        · rw [hen]
          show op.name ∈ ardNames
          have hopn : op.name = eX.1 := by
            rw [← heXe, hnX]
          have : op.name ∈ compX.pins.map Prod.fst := by
            rw [hopn]
            exact List.mem_map.mpr ⟨eX, heX, rfl⟩
          rw [hkeysX, htX] at this
          exact this
      · rw [if_neg ht] at hsel
        simp at hsel

theorem processConnEntry_step (S : Circuit) (A comp' : Component) (aid cid t k n : String)
    (hA_proj : A.pins.map (fun e => (e.1, e.2.id, e.2.name, e.2.component_id)) =
      (pinConfigs "arduinouno").map (fun pc => (pc.1, mkPinId aid pc.1, pc.1, aid)))
    (hcomp_proj : comp'.pins.map (fun e => (e.1, e.2.id, e.2.name, e.2.component_id)) =
      (pinConfigs t).map (fun pc => (pc.1, mkPinId cid pc.1, pc.1, cid)))
    (hk : k ∈ (pinConfigs t).map Prod.fst)
    (hn : n ∈ ardNames) :
    processConnEntry S A comp' k n =
      (S.add_connection (mkPinId cid k) (mkPinId aid n)).1 := by
  have hAkeys : A.pins.map Prod.fst = ardNames := by
    rw [keys_eq_proj_keys, hA_proj, List.map_map]
    rfl
  have hmemA : dictMem A.pins n = true := by
    rw [dictMem_iff, hAkeys]
    exact hn
  have hdig : pyIsDigit n = false := ardNames_not_digit n hn
  have hcp0 : (dictGet? comp'.pins k).map (fun p => (p.id, p.name, p.component_id)) =
      some (mkPinId cid k, k, cid) := by
    rw [← dictGet?_pinproj, hcomp_proj, config_tuple_split, dictGet?_named _ _ _ hk]
  obtain ⟨comp_pin, hcpeq, hcp3⟩ : ∃ p, dictGet? comp'.pins k = some p ∧
      (p.id, p.name, p.component_id) = (mkPinId cid k, k, cid) := by
    cases hx : dictGet? comp'.pins k with
    | none =>
      rw [hx] at hcp0
      simp at hcp0
    | some p =>
      rw [hx] at hcp0
      exact ⟨p, rfl, by simpa using hcp0⟩
  have hcpid : comp_pin.id = mkPinId cid k := congrArg Prod.fst hcp3
  have hap0 : (dictGet? A.pins n).map (fun p => (p.id, p.name, p.component_id)) =
      some (mkPinId aid n, n, aid) := by
    rw [← dictGet?_pinproj, hA_proj, config_tuple_split]
    exact dictGet?_named ((pinConfigs "arduinouno").map Prod.fst)
      (fun m => (mkPinId aid m, m, aid)) n hn
  obtain ⟨apin, hapeq, hap3⟩ : ∃ p, dictGet? A.pins n = some p ∧
      (p.id, p.name, p.component_id) = (mkPinId aid n, n, aid) := by
    cases hx : dictGet? A.pins n with
    | none =>
      rw [hx] at hap0
      simp at hap0
    | some p =>
      rw [hx] at hap0
      exact ⟨p, rfl, by simpa using hap0⟩
  have hapid : apin.id = mkPinId aid n := congrArg Prod.fst hap3
  unfold processConnEntry
  rw [if_neg (by simp [hmemA])]
  rw [show (if pyIsDigit n then "D" ++ n else n) = n from by rw [hdig]; rfl]
  rw [hcpeq]
  dsimp only
  by_cases hg : (n == "GND") = true
  · have hn' : n = "GND" := beq_iff_eq.mp hg
    subst hn'
    rw [if_pos (by simp [hmemA])]
    rw [hapeq]
    dsimp only
    rw [hcpid, hapid]
  · have hn' : (n == "GND") = false := by simpa using hg
    rw [if_neg (by simp [hn']), if_neg (by simp [hn']), if_pos hmemA, hapeq]
    dsimp only
    rw [hcpid, hapid]

theorem jobsOf_head (c : Circuit) (aid : String) (comp : Component) :
    ∀ job ∈ jobsOf c aid comp, job.1 = comp.id := by
  intro job hj
  unfold jobsOf at hj
  by_cases h : (comp.id == aid) = true
  · rw [if_pos h] at hj
    cases hj
  · rw [if_neg h] at hj
    obtain ⟨e, he, hje⟩ := List.mem_map.mp hj
    rw [← hje]

theorem jobsOf_valid (c : Circuit) (a0 : Component)
    (h3 : (c.components.map Component.id).Nodup)
    (h4 : ∀ comp ∈ c.components, CompCatalog comp) :
    ∀ comp ∈ c.components, ∀ job ∈ jobsOf c a0.id comp, ValidJob c a0 job := by
  intro comp hm job hj
  unfold jobsOf at hj
  by_cases h : (comp.id == a0.id) = true
  · rw [if_pos h] at hj
    cases hj
  · rw [if_neg h] at hj
    obtain ⟨e, he, hje⟩ := List.mem_map.mp hj
    obtain ⟨hk, hn⟩ := facingOf_entry c h3 h4 he
    refine ⟨comp, hm, ?_, ?_, ?_, ?_⟩
    · rw [← hje]
    · intro heq
      exact h (beq_iff_eq.mpr heq)
    · rw [← hje]
      exact hk
    · rw [← hje]
      exact hn

theorem dup_check_false (c : Circuit) (a0 : Component)
    (h2 : (pinIds c).Nodup) (h3 : (c.components.map Component.id).Nodup)
    (h4 : ∀ comp ∈ c.components, CompCatalog comp)
    (ha0m : a0 ∈ c.components) (ha0t : a0.type = "arduinouno")
    (prev : List (String × String × String)) (s : Nat)
    (hprev : ∀ job ∈ prev, ValidJob c a0 job)
    (cid k n : String) (hjob : ValidJob c a0 (cid, k, n))
    (hfresh : ∀ job ∈ prev, ¬(job.1 = cid ∧ job.2.1 = k)) :
    ((buildConns a0.id prev s).any (fun conn =>
      (conn.pin1_id == mkPinId cid k && conn.pin2_id == mkPinId a0.id n) ||
      (conn.pin1_id == mkPinId a0.id n && conn.pin2_id == mkPinId cid k))) = false := by
  obtain ⟨compc, hcm, hcid, hcne, hck, hcn⟩ := hjob
  dsimp only at hcid hck hcn
  have ha0keys : n ∈ a0.pins.map Prod.fst := by
    obtain ⟨-, hkeys0, -⟩ := h4 a0 ha0m
    rw [hkeys0, ha0t]
    exact hcn
  rw [Bool.eq_false_iff]
  intro hany
  obtain ⟨conn, hconn, hpred⟩ := List.any_eq_true.mp hany
  obtain ⟨job', hjm, hp1, hp2⟩ := mem_buildConns hconn
  obtain ⟨compj, hjcm, hjcid, hjcne, hjk, hjn⟩ := hprev job' hjm
  rcases Bool.or_eq_true _ _ |>.mp hpred with hcase | hcase
  · rw [Bool.and_eq_true] at hcase
    have he1 : mkPinId job'.1 job'.2.1 = mkPinId cid k := by
      rw [← hp1]
      exact beq_iff_eq.mp hcase.1
    rw [← hjcid, ← hcid] at he1
    obtain ⟨hcc, hkk⟩ := pin_entry_inj c h2 h3 h4 compj hjcm compc hcm
      job'.2.1 hjk k hck he1
    refine hfresh job' hjm ⟨?_, hkk⟩
    rw [← hjcid, hcc, hcid]
  · rw [Bool.and_eq_true] at hcase
    have he1 : mkPinId job'.1 job'.2.1 = mkPinId a0.id n := by
      rw [← hp1]
      exact beq_iff_eq.mp hcase.1
    rw [← hjcid] at he1
    obtain ⟨hcc, -⟩ := pin_entry_inj c h2 h3 h4 compj hjcm a0 ha0m
      job'.2.1 hjk n ha0keys he1
    exact hjcne (by rw [hcc])

theorem inner_loop
    (c : Circuit) (a0 A : Component)
    (h2 : (pinIds c).Nodup) (h3 : (c.components.map Component.id).Nodup)
    (h4 : ∀ comp ∈ c.components, CompCatalog comp)
    (ha0m : a0 ∈ c.components) (ha0t : a0.type = "arduinouno")
    (hA_proj : A.pins.map (fun e => (e.1, e.2.id, e.2.name, e.2.component_id)) =
      (pinConfigs "arduinouno").map (fun pc => (pc.1, mkPinId a0.id pc.1, pc.1, a0.id)))
    (comp comp' : Component) (hcm : comp ∈ c.components) (hcne : comp.id ≠ a0.id)
    (hshape : compConnShape comp' = rtShape c comp)
    (h5comp : ((facingOf c comp).map Prod.fst).Nodup) :
    ∀ (entries processedE : List (String × String)) (S : Circuit)
      (prevJobs : List (String × String × String)),
    facingOf c comp = processedE ++ entries →
    (∀ job ∈ prevJobs, ValidJob c a0 job) →
    (∀ job ∈ prevJobs, job.1 = comp.id → job.2.1 ∈ processedE.map Prod.fst) →
    S.connections = buildConns a0.id prevJobs 0 →
    S.nextId = prevJobs.length →
    ((entries.foldl (fun acc e => processConnEntry acc A comp' e.1 e.2) S).components.map
        compConnShape = S.components.map compConnShape ∧
     (entries.foldl (fun acc e => processConnEntry acc A comp' e.1 e.2) S).connections =
        buildConns a0.id (prevJobs ++ entries.map (fun e => (comp.id, e.1, e.2))) 0 ∧
     (entries.foldl (fun acc e => processConnEntry acc A comp' e.1 e.2) S).nextId =
        prevJobs.length + entries.length) := by
  intro entries
  induction entries with
  | nil =>
    intro processedE S prevJobs hsplit hvalid htrack hconns hnid
    refine ⟨rfl, ?_, ?_⟩
    · rw [List.foldl_nil, List.map_nil, List.append_nil]
      exact hconns
    · rw [List.foldl_nil, List.length_nil, hnid, Nat.add_zero]
  | cons en rest ih =>
    intro processedE S prevJobs hsplit hvalid htrack hconns hnid
    obtain ⟨k, n⟩ := en
    have hmem_en : (k, n) ∈ facingOf c comp := by
      rw [hsplit]
      exact List.mem_append.mpr (Or.inr (List.mem_cons_self _ _))
    obtain ⟨hk0, hn0⟩ := facingOf_entry c h3 h4 hmem_en
    dsimp only at hk0 hn0
    obtain ⟨hlow, hkeys, -⟩ := h4 comp hcm
    have hk1 : k ∈ (pinConfigs comp.type).map Prod.fst := by
      rw [← hkeys]
      exact hk0
    have hpins' : comp'.pins.map (fun e => (e.1, e.2.id, e.2.name, e.2.component_id)) =
        (pinConfigs comp.type).map (fun pc => (pc.1, mkPinId comp.id pc.1, pc.1, comp.id)) :=
      congrArg (fun sh => sh.2.2.2) hshape
    have hstep := processConnEntry_step S A comp' a0.id comp.id comp.type k n
      hA_proj hpins' hk1 hn0
    have hjob : ValidJob c a0 (comp.id, k, n) := ⟨comp, hcm, rfl, hcne, hk0, hn0⟩
    have hknotproc : k ∉ processedE.map Prod.fst := by
      have hnd := h5comp
      rw [hsplit, List.map_append, List.nodup_append] at hnd
      intro hmem
      exact hnd.2.2 hmem (by simp)
    have hfresh : ∀ job ∈ prevJobs, ¬(job.1 = comp.id ∧ job.2.1 = k) := by
      rintro job hj ⟨hj1, hj2⟩
      exact hknotproc (hj2 ▸ htrack job hj hj1)
    have hdup := dup_check_false c a0 h2 h3 h4 ha0m ha0t prevJobs 0 hvalid
      comp.id k n hjob hfresh
    rw [← hconns] at hdup
    obtain ⟨hshapes1, hconns1, hnid1⟩ :=
      add_connection_shape_effects S (mkPinId comp.id k) (mkPinId a0.id n) hdup
    have hfold : (((k, n) :: rest).foldl
        (fun acc e => processConnEntry acc A comp' e.1 e.2) S) =
        rest.foldl (fun acc e => processConnEntry acc A comp' e.1 e.2)
          (S.add_connection (mkPinId comp.id k) (mkPinId a0.id n)).1 := by
      rw [List.foldl_cons]
      congr 1
    rw [hfold]
    have hres := ih (processedE ++ [(k, n)])
      (S.add_connection (mkPinId comp.id k) (mkPinId a0.id n)).1
      (prevJobs ++ [(comp.id, k, n)])
      (by rw [hsplit, List.append_cons])
      (by
        intro job hj
        rcases List.mem_append.mp hj with hj | hj
        · exact hvalid job hj
        · have : job = (comp.id, k, n) := by simpa using hj
          subst this
          exact hjob)
      (by
        intro job hj hjid
        rcases List.mem_append.mp hj with hj | hj
        · rw [List.map_append]
          exact List.mem_append_left _ (htrack job hj hjid)
        · have : job = (comp.id, k, n) := by simpa using hj
          subst this
          rw [List.map_append]
          exact List.mem_append_right _ (List.mem_cons_self k [])
        )
      (by
        rw [hconns1, hconns, hnid, buildConns_append]
        simp [buildConns])
      (by
        rw [hnid1, hnid, List.length_append]
        rfl)
    obtain ⟨f1, f2, f3⟩ := hres
    refine ⟨?_, ?_, ?_⟩
    · rw [f1, hshapes1]
    · rw [f2, List.map_cons]
      simp
    · rw [f3]
      simp only [List.length_append, List.length_cons, List.length_nil]
      omega

theorem outer_loop
    (c : Circuit) (a0 A : Component)
    (h2 : (pinIds c).Nodup) (h3 : (c.components.map Component.id).Nodup)
    (h4 : ∀ comp ∈ c.components, CompCatalog comp)
    (h5 : ∀ comp ∈ c.components, ((facingOf c comp).map Prod.fst).Nodup)
    (ha0m : a0 ∈ c.components) (ha0t : a0.type = "arduinouno")
    (hA_proj : A.pins.map (fun e => (e.1, e.2.id, e.2.name, e.2.component_id)) =
      (pinConfigs "arduinouno").map (fun pc => (pc.1, mkPinId a0.id pc.1, pc.1, a0.id)))
    (haid : A.id = a0.id) :
    ∀ (rest done : List Component) (S : Circuit),
    c.components = done ++ rest →
    S.components.map compConnShape = c.components.map (rtShape c) →
    S.connections = buildConns a0.id (done.flatMap (jobsOf c a0.id)) 0 →
    S.nextId = (done.flatMap (jobsOf c a0.id)).length →
    (((List.range' done.length rest.length).foldl
        (processComponentConnections A) S).components.map compConnShape =
      c.components.map (rtShape c) ∧
     ((List.range' done.length rest.length).foldl
        (processComponentConnections A) S).connections =
      buildConns a0.id (c.components.flatMap (jobsOf c a0.id)) 0 ∧
     ((List.range' done.length rest.length).foldl
        (processComponentConnections A) S).nextId =
      (c.components.flatMap (jobsOf c a0.id)).length) := by
  intro rest
  induction rest with
  | nil =>
    intro done S hsplit hshapes hconns hnid
    have hd : done = c.components := by
      rw [hsplit, List.append_nil]
    subst hd
    simp only [List.length_nil, show ∀ s : Nat, List.range' s 0 = [] from fun s => rfl,
      List.foldl_nil]
    exact ⟨hshapes, hconns, hnid⟩
  | cons comp rest' ih =>
    intro done S hsplit hshapes hconns hnid
    simp only [List.length_cons]
    rw [List.range'_succ, List.foldl_cons]
    have hget0 : c.components.get? done.length = some comp := by
      rw [hsplit, List.get?_append_right (Nat.le_refl _)]
      simp
    have hcm : comp ∈ c.components := by
      rw [hsplit]
      exact List.mem_append.mpr (Or.inr (List.mem_cons_self _ _))
    obtain ⟨comp'', hget, hcsh⟩ : ∃ comp'', S.components.get? done.length = some comp'' ∧
        compConnShape comp'' = rtShape c comp := by
      have h1 : (S.components.map compConnShape).get? done.length =
          (c.components.map (rtShape c)).get? done.length := by
        rw [hshapes]
      rw [List.get?_map, List.get?_map, hget0] at h1
      cases hx : S.components.get? done.length with
      | none =>
        rw [hx] at h1
        simp at h1
      | some comp'' =>
        rw [hx] at h1
        exact ⟨comp'', rfl, by simpa using h1⟩
    have hid'' : comp''.id = comp.id := congrArg (fun sh => sh.1) hcsh
    have hcon'' : comp''.connections = facingOf c comp := congrArg (fun sh => sh.2.2.1) hcsh
    have hlen1 : (done ++ [comp]).length = done.length + 1 := by
      simp
    have hsplit' : c.components = (done ++ [comp]) ++ rest' := by
      rw [hsplit, List.append_cons]
    by_cases hskip : (comp''.id == A.id) = true
    · have hS1 : processComponentConnections A S done.length = S := by
        unfold processComponentConnections
        rw [hget]
        dsimp only
        rw [if_pos hskip]
      have hjempty : jobsOf c a0.id comp = [] := by
        unfold jobsOf
        have : comp.id = a0.id := by
          rw [← hid'', beq_iff_eq.mp hskip, haid]
        rw [if_pos (beq_iff_eq.mpr this)]
      have hres := ih (done ++ [comp]) S hsplit' hshapes
        (by rw [hconns]; simp [List.flatMap_append, hjempty])
        (by rw [hnid]; simp [List.flatMap_append, hjempty])
      rw [hlen1] at hres
      rw [hS1]
      exact hres
    · have hcne : comp.id ≠ a0.id := by
        intro he
        exact hskip (beq_iff_eq.mpr (by rw [hid'', he, haid]))
      have hS1 : processComponentConnections A S done.length =
          (facingOf c comp).foldl (fun acc e => processConnEntry acc A comp'' e.1 e.2) S := by
        unfold processComponentConnections
        rw [hget]
        dsimp only
        rw [if_neg hskip, hcon'']
      rw [hS1]
      obtain ⟨g1, g2, g3⟩ := inner_loop c a0 A h2 h3 h4 ha0m ha0t hA_proj comp comp''
        hcm hcne hcsh (h5 comp hcm)
        (facingOf c comp) [] S (done.flatMap (jobsOf c a0.id))
        (by rw [List.nil_append])
        (by
          intro job hj
          obtain ⟨compd, hcd, hjd⟩ := List.mem_flatMap.mp hj
          exact jobsOf_valid c a0 h3 h4 compd
            (by rw [hsplit]; exact List.mem_append_left _ hcd) job hjd)
        (by
          intro job hj hjid
          exfalso
          obtain ⟨compd, hcd, hjd⟩ := List.mem_flatMap.mp hj
          have hj1 : job.1 = compd.id := jobsOf_head c a0.id compd job hjd
          have hcdid : compd.id = comp.id := by
            rw [← hj1, hjid]
          have hnd := h3
          rw [hsplit, List.map_append, List.nodup_append] at hnd
          exact hnd.2.2 (List.mem_map.mpr ⟨compd, hcd, rfl⟩)
            (by rw [hcdid, List.map_cons]; exact List.mem_cons_self _ _))
        hconns hnid
      have hjfull : jobsOf c a0.id comp =
          (facingOf c comp).map (fun e => (comp.id, e.1, e.2)) := by
        unfold jobsOf
        rw [if_neg (by simp [hcne])]
      have hres := ih (done ++ [comp])
        ((facingOf c comp).foldl (fun acc e => processConnEntry acc A comp'' e.1 e.2) S)
        hsplit'
        (by rw [g1, hshapes])
        (by rw [g2]; simp [List.flatMap_append, hjfull])
        (by rw [g3]; simp [List.flatMap_append, hjfull])
      rw [hlen1] at hres
      exact hres

theorem roundtrip_characterization (c : Circuit)
    (h2 : (pinIds c).Nodup) (h3 : (c.components.map Component.id).Nodup)
    (h4 : ∀ comp ∈ c.components, CompCatalog comp)
    (h5 : ∀ comp ∈ c.components, ((facingOf c comp).map Prod.fst).Nodup)
    (h6 : ∃ comp ∈ c.components, comp.type = "arduinouno") :
    ∃ a0, c.components.find? (fun comp => comp.type == "arduinouno") = some a0 ∧
      (Circuit.empty.update_from_data c.get_data).components.map compConnShape =
        c.components.map (rtShape c) ∧
      (Circuit.empty.update_from_data c.get_data).connections =
        buildConns a0.id (c.components.flatMap (jobsOf c a0.id)) 0 := by
  rw [get_data_eq, update_from_data_some]
  have hRsh : ((c.components.map (serComp c)).enum.map rebuildComp).map compConnShape =
      c.components.map (rtShape c) := rebuild_shapes c h4 h5
  obtain ⟨A, a0, hAfind, ha0find, hAsh⟩ := find_ard_rebuild c hRsh h6
  have ha0m : a0 ∈ c.components := List.mem_of_find?_eq_some ha0find
  have ha0t' := List.find?_some ha0find
  have ha0t : a0.type = "arduinouno" := beq_iff_eq.mp ha0t'
  have haid : A.id = a0.id := congrArg (fun sh => sh.1) hAsh
  have hA_proj : A.pins.map (fun e => (e.1, e.2.id, e.2.name, e.2.component_id)) =
      (pinConfigs "arduinouno").map (fun pc => (pc.1, mkPinId a0.id pc.1, pc.1, a0.id)) := by
    have hx : A.pins.map (fun e => (e.1, e.2.id, e.2.name, e.2.component_id)) =
        (pinConfigs a0.type).map (fun pc => (pc.1, mkPinId a0.id pc.1, pc.1, a0.id)) :=
      congrArg (fun sh => sh.2.2.2) hAsh
    rw [ha0t] at hx
    exact hx
  have hlenR : ((c.components.map (serComp c)).enum.map rebuildComp).length =
      c.components.length := by
    have := congrArg List.length hRsh
    simpa using this
  have hFeq : Circuit.create_connections_from_components
      (⟨(c.components.map (serComp c)).enum.map rebuildComp, [], none, ⟨[]⟩, 0⟩ : Circuit) =
      (List.range' 0 c.components.length).foldl (processComponentConnections A)
        ⟨(c.components.map (serComp c)).enum.map rebuildComp, [], none, ⟨[]⟩, 0⟩ := by
    unfold Circuit.create_connections_from_components
    rw [show ((⟨(c.components.map (serComp c)).enum.map rebuildComp, [], none, ⟨[]⟩, 0⟩ :
        Circuit).components.find? (fun comp => comp.type == "arduinouno")) = some A
      from hAfind]
    dsimp only
    rw [List.range_eq_range', show ((⟨(c.components.map (serComp c)).enum.map rebuildComp, [],
      none, ⟨[]⟩, 0⟩ : Circuit).components.length) = c.components.length from hlenR]
  rw [hFeq]
  obtain ⟨f1, f2, -⟩ := outer_loop c a0 A h2 h3 h4 h5 ha0m ha0t hA_proj haid
    c.components []
    (⟨(c.components.map (serComp c)).enum.map rebuildComp, [], none, ⟨[]⟩, 0⟩ : Circuit)
    (by rw [List.nil_append]) hRsh rfl rfl
  exact ⟨a0, ha0find, f1, f2⟩

theorem flatMap_of_map {α : Type u} {β : Type v} {γ : Type w}
    (l : List α) (f : α → β) (g : β → List γ) :
    (l.map f).flatMap g = l.flatMap (fun x => g (f x)) := by
  induction l with
  | nil => rfl
  | cons x xs ih =>
    rw [List.map_cons, List.flatMap_cons, List.flatMap_cons, ih]

theorem filterMap_flatMap_fuse {α : Type u} {β : Type v} {γ : Type w}
    (l : List α) (g : α → List β) (f : β → Option γ) :
    (l.flatMap g).filterMap f = l.flatMap (fun x => (g x).filterMap f) := by
  induction l with
  | nil => rfl
  | cons x xs ih =>
    rw [List.flatMap_cons, List.flatMap_cons, List.filterMap_append, ih]

theorem filterMap_eq_self {α : Type u} {l : List α} {f : α → Option α}
    (h : ∀ a ∈ l, f a = some a) : l.filterMap f = l := by
  induction l with
  | nil => rfl
  | cons x xs ih =>
    rw [List.filterMap_cons, h x (List.mem_cons_self x xs),
      ih (fun y hy => h y (List.mem_cons_of_mem _ hy))]

theorem get_pin_catalog (c : Circuit) (h2 : (pinIds c).Nodup)
    {comp : Component} (hm : comp ∈ c.components) (hcat : CompCatalog comp)
    {k : String} (hk : k ∈ comp.pins.map Prod.fst) :
    (c.get_pin_by_id (mkPinId comp.id k)).map pinRef =
      some (mkPinId comp.id k, k, comp.id) := by
  obtain ⟨e, he, hek⟩ := List.mem_map.mp hk
  obtain ⟨-, -, hpt⟩ := hcat
  obtain ⟨hn, hid, hcid⟩ := hpt e he
  have hmem : e.2 ∈ flatPins c :=
    mem_flatPinsL.mpr ⟨comp, hm, List.mem_map.mpr ⟨e, he, rfl⟩⟩
  have hfind := find?_id_of_nodup (flatPins c) e.2 hmem h2
  rw [get_pin_by_id_eq_find, show mkPinId comp.id k = e.2.id from by rw [hid, hek], hfind]
  show some (pinRef e.2) = _
  unfold pinRef
  rw [hid, hn, hcid, hek]

theorem facingPairs_roundtrip (c : Circuit)
    (h2 : (pinIds c).Nodup) (h3 : (c.components.map Component.id).Nodup)
    (h4 : ∀ comp ∈ c.components, CompCatalog comp)
    (h5 : ∀ comp ∈ c.components, ((facingOf c comp).map Prod.fst).Nodup)
    (h6 : ∃ comp ∈ c.components, comp.type = "arduinouno") :
    facingPairs (Circuit.empty.update_from_data c.get_data) = allFacing c := by
  obtain ⟨a0, ha0find, hsh, hconns⟩ := roundtrip_characterization c h2 h3 h4 h5 h6
  have ha0m : a0 ∈ c.components := List.mem_of_find?_eq_some ha0find
  have ha0t' := List.find?_some ha0find
  have ha0t : a0.type = "arduinouno" := beq_iff_eq.mp ha0t'
  have hflatref : (flatPins (Circuit.empty.update_from_data c.get_data)).map pinRef =
      (flatPins c).map pinRef := by
    show (flatPinsL (Circuit.empty.update_from_data c.get_data).components).map pinRef =
      (flatPinsL c.components).map pinRef
    rw [flatPinsL_pinRef, flatPinsL_pinRef, hsh, flatMap_of_map, flatMap_of_map]
    refine flatMap_congr_mem ?_
    intro comp hm
    show ((pinConfigs comp.type).map
        (fun pc => (pc.1, mkPinId comp.id pc.1, pc.1, comp.id))).map Prod.snd =
      (comp.pins.map (fun e => (e.1, e.2.id, e.2.name, e.2.component_id))).map Prod.snd
    rw [catalog_pins_proj (h4 comp hm)]
  have hgp : ∀ pid, ((Circuit.empty.update_from_data c.get_data).get_pin_by_id pid).map
      pinRef = (c.get_pin_by_id pid).map pinRef :=
    fun pid => get_pin_pinRef_of_flatRef hflatref pid
  have hgc : ∀ comp ∈ c.components,
      ((Circuit.empty.update_from_data c.get_data).get_component_by_id comp.id).map
        compConnShape = some (rtShape c comp) := by
    intro comp hm
    have h1 : ((Circuit.empty.update_from_data c.get_data).components.find?
        (fun x => x.id == comp.id)).map compConnShape =
        (c.components.find? (fun x => x.id == comp.id)).map (rtShape c) :=
      find?_map_rel (r := fun sh => sh.1 == comp.id) (fun a => rfl) (fun b => rfl) hsh
    rw [find?_comp_id_of_nodup c.components comp hm h3] at h1
    exact h1
  show (Circuit.empty.update_from_data c.get_data).connections.filterMap _ = allFacing c
  rw [hconns]
  refine (buildConns_filterMap a0.id _ (jobPair c) _ ?_ 0).trans ?_
  · -- per-job resolution
    intro job hjm s
    obtain ⟨compd, hcdm, hjd⟩ := List.mem_flatMap.mp hjm
    obtain ⟨comp, hm, hjid, hcne, hk, hn⟩ := jobsOf_valid c a0 h3 h4 compd hcdm job hjd
    have hna0 : job.2.2 ∈ a0.pins.map Prod.fst := by
      obtain ⟨-, hkeys0, -⟩ := h4 a0 ha0m
      rw [hkeys0, ha0t]
      exact hn
    have hp1 : ((Circuit.empty.update_from_data c.get_data).get_pin_by_id
        (mkPinId job.1 job.2.1)).map pinRef =
        some (mkPinId comp.id job.2.1, job.2.1, comp.id) := by
      rw [hgp, ← hjid]
      exact get_pin_catalog c h2 hm (h4 comp hm) hk
    have hp2 : ((Circuit.empty.update_from_data c.get_data).get_pin_by_id
        (mkPinId a0.id job.2.2)).map pinRef =
        some (mkPinId a0.id job.2.2, job.2.2, a0.id) := by
      rw [hgp]
      exact get_pin_catalog c h2 ha0m (h4 a0 ha0m) hna0
    obtain ⟨pin1, hp1eq, hpr1⟩ : ∃ p, (Circuit.empty.update_from_data c.get_data).get_pin_by_id
        (mkPinId job.1 job.2.1) = some p ∧
        pinRef p = (mkPinId comp.id job.2.1, job.2.1, comp.id) := by
      cases hx : (Circuit.empty.update_from_data c.get_data).get_pin_by_id
          (mkPinId job.1 job.2.1) with
      | none =>
        rw [hx] at hp1
        simp at hp1
      | some p =>
        rw [hx] at hp1
        exact ⟨p, rfl, by simpa using hp1⟩
    obtain ⟨pin2, hp2eq, hpr2⟩ : ∃ p, (Circuit.empty.update_from_data c.get_data).get_pin_by_id
        (mkPinId a0.id job.2.2) = some p ∧
        pinRef p = (mkPinId a0.id job.2.2, job.2.2, a0.id) := by
      cases hx : (Circuit.empty.update_from_data c.get_data).get_pin_by_id
          (mkPinId a0.id job.2.2) with
      | none =>
        rw [hx] at hp2
        simp at hp2
      | some p =>
        rw [hx] at hp2
        exact ⟨p, rfl, by simpa using hp2⟩
    have hpc1 : pin1.component_id = comp.id := congrArg (fun t => t.2.2) hpr1
    have hpn1 : pin1.name = job.2.1 := congrArg (fun t => t.2.1) hpr1
    have hpc2 : pin2.component_id = a0.id := congrArg (fun t => t.2.2) hpr2
    have hpn2 : pin2.name = job.2.2 := congrArg (fun t => t.2.1) hpr2
    obtain ⟨fc1, hfc1eq, hfc1sh⟩ : ∃ fc, (Circuit.empty.update_from_data
        c.get_data).get_component_by_id pin1.component_id = some fc ∧
        compConnShape fc = rtShape c comp := by
      have := hgc comp hm
      rw [← hpc1] at this
      cases hx : (Circuit.empty.update_from_data c.get_data).get_component_by_id
          pin1.component_id with
      | none =>
        rw [hx] at this
        simp at this
      | some fc =>
        rw [hx] at this
        exact ⟨fc, rfl, by simpa using this⟩
    obtain ⟨fc2, hfc2eq, hfc2sh⟩ : ∃ fc, (Circuit.empty.update_from_data
        c.get_data).get_component_by_id pin2.component_id = some fc ∧
        compConnShape fc = rtShape c a0 := by
      have := hgc a0 ha0m
      rw [← hpc2] at this
      cases hx : (Circuit.empty.update_from_data c.get_data).get_component_by_id
          pin2.component_id with
      | none =>
        rw [hx] at this
        simp at this
      | some fc =>
        rw [hx] at this
        exact ⟨fc, rfl, by simpa using this⟩
    have hfc1t : fc1.type = comp.type := congrArg (fun sh => sh.2.1) hfc1sh
    have hfc2t : fc2.type = a0.type := congrArg (fun sh => sh.2.1) hfc2sh
    show (match (Circuit.empty.update_from_data c.get_data).get_pin_by_id
        (mkPinId job.1 job.2.1), (Circuit.empty.update_from_data c.get_data).get_pin_by_id
        (mkPinId a0.id job.2.2) with
      | some p1, some p2 =>
        match (Circuit.empty.update_from_data c.get_data).get_component_by_id
            p1.component_id, (Circuit.empty.update_from_data c.get_data).get_component_by_id
            p2.component_id with
        | some comp1, some comp2 =>
          if comp1.type != "arduinouno" && comp2.type == "arduinouno" then
            some (p1.name, p2.name)
          else if comp2.type != "arduinouno" && comp1.type == "arduinouno" then
            some (p2.name, p1.name)
          else none
        | _, _ => none
      | _, _ => none) = jobPair c job
    rw [hp1eq, hp2eq]
    dsimp only
    rw [hfc1eq, hfc2eq]
    dsimp only
    unfold jobPair
    rw [← hjid, find?_comp_id_of_nodup c.components comp hm h3]
    dsimp only
    by_cases ht : (comp.type == "arduinouno") = true
    · rw [if_pos ht]
      rw [show (fc1.type != "arduinouno") = false from by
        rw [hfc1t]
        simpa using ht]
      rw [show (fc2.type != "arduinouno") = false from by
        rw [hfc2t, ha0t]
        simp]
      simp
    · rw [if_neg ht]
      rw [show (fc1.type != "arduinouno") = true from by
        rw [hfc1t]
        simpa using ht]
      rw [show (fc2.type == "arduinouno") = true from by
        rw [hfc2t, ha0t]
        decide]
      rw [show (true && true) = true from rfl]
      rw [if_pos rfl]
      rw [hpn1, hpn2]
  · -- job pairs collapse to allFacing
    rw [filterMap_flatMap_fuse]
    unfold allFacing
    refine flatMap_congr_mem ?_
    intro comp hm
    dsimp only
    by_cases hc : (comp.id == a0.id) = true
    · have hca : comp = a0 := List.inj_on_of_nodup_map h3 hm ha0m (beq_iff_eq.mp hc)
      rw [show jobsOf c a0.id comp = [] from by unfold jobsOf; rw [if_pos hc]]
      rw [if_pos (beq_iff_eq.mpr (by rw [hca, ha0t]))]
      rfl
    · have hjfull : jobsOf c a0.id comp =
          (facingOf c comp).map (fun e => (comp.id, e.1, e.2)) := by
        unfold jobsOf
        rw [if_neg hc]
      rw [hjfull, List.filterMap_map]
      by_cases ht : (comp.type == "arduinouno") = true
      · rw [if_pos ht, List.filterMap_eq_nil_iff]
        intro e he
        show jobPair c (comp.id, e.1, e.2) = none
        unfold jobPair
        dsimp only
        rw [find?_comp_id_of_nodup c.components comp hm h3]
        dsimp only
        rw [if_pos ht]
      · rw [if_neg ht]
        refine filterMap_eq_self ?_
        intro e he
        show jobPair c (comp.id, e.1, e.2) = some e
        unfold jobPair
        dsimp only
        rw [find?_comp_id_of_nodup c.components comp hm h3]
        dsimp only
        rw [if_neg ht]

theorem typesList_roundtrip (c : Circuit)
    (h2 : (pinIds c).Nodup) (h3 : (c.components.map Component.id).Nodup)
    (h4 : ∀ comp ∈ c.components, CompCatalog comp)
    (h5 : ∀ comp ∈ c.components, ((facingOf c comp).map Prod.fst).Nodup)
    (h6 : ∃ comp ∈ c.components, comp.type = "arduinouno") :
    typesList (Circuit.empty.update_from_data c.get_data) = typesList c := by
  obtain ⟨a0, -, hsh, -⟩ := roundtrip_characterization c h2 h3 h4 h5 h6
  show (Circuit.empty.update_from_data c.get_data).components.map Component.type =
    c.components.map Component.type
  have k1 : (Circuit.empty.update_from_data c.get_data).components.map Component.type =
      ((Circuit.empty.update_from_data c.get_data).components.map compConnShape).map
        (fun sh => sh.2.1) := by
    rw [List.map_map]
    rfl
  rw [k1, hsh, List.map_map]
  rfl

theorem mem_facingPairs_iff (c : Circuit)
    (h1 : PinInvariant c)
    (h2 : (pinIds c).Nodup) (h3 : (c.components.map Component.id).Nodup)
    (h4 : ∀ comp ∈ c.components, CompCatalog comp) :
    ∀ pr : String × String, pr ∈ facingPairs c ↔ pr ∈ allFacing c := by
  intro pr
  constructor
  · intro hpr
    obtain ⟨conn, hconn, hsel⟩ := List.mem_filterMap.mp hpr
    cases hg1 : c.get_pin_by_id conn.pin1_id with
    | none =>
      rw [hg1] at hsel
      simp at hsel
    | some p1 =>
      rw [hg1] at hsel
      cases hg2 : c.get_pin_by_id conn.pin2_id with
      | none =>
        rw [hg2] at hsel
        simp at hsel
      | some p2 =>
        rw [hg2] at hsel
        dsimp only at hsel
        cases hc1 : c.get_component_by_id p1.component_id with
        | none =>
          rw [hc1] at hsel
          simp at hsel
        | some comp1 =>
          rw [hc1] at hsel
          cases hc2 : c.get_component_by_id p2.component_id with
          | none =>
            rw [hc2] at hsel
            simp at hsel
          | some comp2 =>
            rw [hc2] at hsel
            dsimp only at hsel
            -- structural facts about p1/p2 and their components
            have hp1id : p1.id = conn.pin1_id := by
              have hf := get_pin_by_id_eq_find c conn.pin1_id
              rw [hg1] at hf
              have := List.find?_some hf.symm
              simpa [idMatch] using this
            have hp2id : p2.id = conn.pin2_id := by
              have hf := get_pin_by_id_eq_find c conn.pin2_id
              rw [hg2] at hf
              have := List.find?_some hf.symm
              simpa [idMatch] using this
            have hp1mem : p1 ∈ flatPins c := by
              have hf := get_pin_by_id_eq_find c conn.pin1_id
              rw [hg1] at hf
              exact List.mem_of_find?_eq_some hf.symm
            have hp2mem : p2 ∈ flatPins c := by
              have hf := get_pin_by_id_eq_find c conn.pin2_id
              rw [hg2] at hf
              exact List.mem_of_find?_eq_some hf.symm
            obtain ⟨compX1, hX1m, hpinX1⟩ := mem_flatPinsL.mp hp1mem
            obtain ⟨e1, he1, he1e⟩ := List.mem_map.mp hpinX1
            obtain ⟨compX2, hX2m, hpinX2⟩ := mem_flatPinsL.mp hp2mem
            obtain ⟨e2, he2, he2e⟩ := List.mem_map.mp hpinX2
            obtain ⟨-, -, hptX1⟩ := h4 compX1 hX1m
            obtain ⟨hn1, -, hcid1⟩ := hptX1 e1 he1
            obtain ⟨-, -, hptX2⟩ := h4 compX2 hX2m
            obtain ⟨hn2, -, hcid2⟩ := hptX2 e2 he2
            have hcomp1X : comp1 = compX1 := by
              have hocm : comp1 ∈ c.components := List.mem_of_find?_eq_some hc1
              have h1' := List.find?_some hc1
              have hocid : comp1.id = p1.component_id := beq_iff_eq.mp h1'
              refine List.inj_on_of_nodup_map h3 hocm hX1m ?_
              rw [hocid, ← he1e, hcid1]
            have hcomp2X : comp2 = compX2 := by
              have hocm : comp2 ∈ c.components := List.mem_of_find?_eq_some hc2
              have h2' := List.find?_some hc2
              have hocid : comp2.id = p2.component_id := beq_iff_eq.mp h2'
              refine List.inj_on_of_nodup_map h3 hocm hX2m ?_
              rw [hocid, ← he2e, hcid2]
            by_cases hb1 : (comp1.type != "arduinouno" && comp2.type == "arduinouno") = true
            · rw [if_pos hb1] at hsel
              have hb1' := hb1
              rw [Bool.and_eq_true] at hb1'
              have hpr1 : pr = (p1.name, p2.name) := (Option.some.inj hsel).symm
              -- the facing entry sits on compX1's pin e1
              have hct : conn ∈ e1.2.connected_to := by
                rw [h1 e1.2 (mem_flatPinsL.mpr ⟨compX1, hX1m,
                  List.mem_map.mpr ⟨e1, he1, rfl⟩⟩)]
                refine List.mem_filter.mpr ⟨hconn, ?_⟩
                show (conn.pin1_id == e1.2.id || conn.pin2_id == e1.2.id) = true
                rw [Bool.or_eq_true]
                exact Or.inl (beq_iff_eq.mpr (by rw [he1e, hp1id]))
              have hface : (e1.1, p2.name) ∈ facingOf c compX1 := by
                unfold facingOf
                refine List.mem_flatMap.mpr ⟨e1, he1, List.mem_filterMap.mpr ⟨conn, hct, ?_⟩⟩
                dsimp only
                rw [show (conn.pin1_id == e1.2.id) = true from
                  beq_iff_eq.mpr (by rw [he1e, hp1id]), if_pos rfl, hg2]
                dsimp only
                rw [hc2]
                dsimp only
                rw [if_pos hb1'.2]
              refine List.mem_flatMap.mpr ⟨compX1, hX1m, ?_⟩
              rw [if_neg (by
                rw [← hcomp1X]
                simpa using hb1'.1)]
              rw [hpr1, show p1.name = e1.1 from by rw [← he1e, hn1]]
              exact hface
            · rw [if_neg hb1] at hsel
              by_cases hb2 : (comp2.type != "arduinouno" && comp1.type == "arduinouno") = true
              · rw [if_pos hb2] at hsel
                have hb2' := hb2
                rw [Bool.and_eq_true] at hb2'
                have hpr2 : pr = (p2.name, p1.name) := (Option.some.inj hsel).symm
                have hne12 : conn.pin1_id ≠ conn.pin2_id := by
                  intro he
                  rw [he, hg2] at hg1
                  have hpp : p2 = p1 := Option.some.inj hg1
                  have hcc : comp1 = comp2 := by
                    rw [hcomp1X, hcomp2X]
                    refine List.inj_on_of_nodup_map h3 hX1m hX2m ?_
                    rw [← hcid1, ← hcid2, he1e, he2e, hpp]
                  have hx := hb2'.1
                  have hy := hb2'.2
                  rw [← hcc] at hx
                  have hx' : comp1.type ≠ "arduinouno" := by simpa using hx
                  exact hx' (beq_iff_eq.mp hy)
                have hct : conn ∈ e2.2.connected_to := by
                  rw [h1 e2.2 (mem_flatPinsL.mpr ⟨compX2, hX2m,
                    List.mem_map.mpr ⟨e2, he2, rfl⟩⟩)]
                  refine List.mem_filter.mpr ⟨hconn, ?_⟩
                  show (conn.pin1_id == e2.2.id || conn.pin2_id == e2.2.id) = true
                  rw [Bool.or_eq_true]
                  exact Or.inr (beq_iff_eq.mpr (by rw [he2e, hp2id]))
                have hface : (e2.1, p1.name) ∈ facingOf c compX2 := by
                  unfold facingOf
                  refine List.mem_flatMap.mpr ⟨e2, he2,
                    List.mem_filterMap.mpr ⟨conn, hct, ?_⟩⟩
                  dsimp only
                  rw [show (conn.pin1_id == e2.2.id) = false from by
                    rw [beq_eq_false_iff_ne]
                    rw [he2e, hp2id]
                    exact hne12, if_neg (by simp), hg1]
                  dsimp only
                  rw [hc1]
                  dsimp only
                  rw [if_pos hb2'.2]
                refine List.mem_flatMap.mpr ⟨compX2, hX2m, ?_⟩
                rw [if_neg (by
                  rw [← hcomp2X]
                  simpa using hb2'.1)]
                rw [hpr2, show p2.name = e2.1 from by rw [← he2e, hn2]]
                exact hface
              · rw [if_neg hb2] at hsel
                simp at hsel
  · intro hpr
    obtain ⟨comp, hm, hbr⟩ := List.mem_flatMap.mp hpr
    by_cases ht : (comp.type == "arduinouno") = true
    · rw [if_pos ht] at hbr
      cases hbr
    · rw [if_neg ht] at hbr
      unfold facingOf at hbr
      obtain ⟨e, he, hcn⟩ := List.mem_flatMap.mp hbr
      obtain ⟨conn, hct, hsel⟩ := List.mem_filterMap.mp hcn
      dsimp only at hsel
      have hemem : e.2 ∈ flatPins c :=
        mem_flatPinsL.mpr ⟨comp, hm, List.mem_map.mpr ⟨e, he, rfl⟩⟩
      have hconnc : conn ∈ c.connections ∧ touches e.2.id conn = true := by
        have := hct
        rw [h1 e.2 hemem] at this
        exact ⟨List.mem_of_mem_filter this, List.of_mem_filter this⟩
      obtain ⟨-, -, hpt⟩ := h4 comp hm
      obtain ⟨hne, -, hcide⟩ := hpt e he
      have hgete : c.get_pin_by_id e.2.id = some e.2 := by
        rw [get_pin_by_id_eq_find]
        exact find?_id_of_nodup (flatPins c) e.2 hemem h2
      have hgetc : c.get_component_by_id e.2.component_id = some comp := by
        show c.components.find? (fun x => x.id == e.2.component_id) = some comp
        rw [hcide]
        exact find?_comp_id_of_nodup c.components comp hm h3
      by_cases hb : (conn.pin1_id == e.2.id) = true
      · rw [if_pos hb] at hsel
        cases hop : c.get_pin_by_id conn.pin2_id with
        | none =>
          rw [hop] at hsel
          simp at hsel
        | some op =>
          rw [hop] at hsel
          dsimp only at hsel
          cases hoc : c.get_component_by_id op.component_id with
          | none =>
            rw [hoc] at hsel
            simp at hsel
          | some oc =>
            rw [hoc] at hsel
            dsimp only at hsel
            by_cases hta : (oc.type == "arduinouno") = true
            · rw [if_pos hta] at hsel
              have hprv : pr = (e.1, op.name) := (Option.some.inj hsel).symm
              refine List.mem_filterMap.mpr ⟨conn, hconnc.1, ?_⟩
              rw [show conn.pin1_id = e.2.id from beq_iff_eq.mp hb, hgete, hop]
              dsimp only
              rw [hgetc, hoc]
              dsimp only
              rw [if_pos (by
                rw [Bool.and_eq_true]
                exact ⟨by simpa using ht, hta⟩)]
              rw [hprv, hne]
            · rw [if_neg hta] at hsel
              simp at hsel
      · rw [if_neg hb] at hsel
        have htouch2 : (conn.pin2_id == e.2.id) = true := by
          have := hconnc.2
          show _ = true
          rw [show touches e.2.id conn =
            (conn.pin1_id == e.2.id || conn.pin2_id == e.2.id) from rfl] at this
          rcases Bool.or_eq_true _ _ |>.mp this with hx | hx
          · exact absurd hx hb
          · exact hx
        cases hop : c.get_pin_by_id conn.pin1_id with
        | none =>
          rw [hop] at hsel
          simp at hsel
        | some op =>
          rw [hop] at hsel
          dsimp only at hsel
          cases hoc : c.get_component_by_id op.component_id with
          | none =>
            rw [hoc] at hsel
            simp at hsel
          | some oc =>
            rw [hoc] at hsel
            dsimp only at hsel
            by_cases hta : (oc.type == "arduinouno") = true
            · rw [if_pos hta] at hsel
              have hprv : pr = (e.1, op.name) := (Option.some.inj hsel).symm
              refine List.mem_filterMap.mpr ⟨conn, hconnc.1, ?_⟩
              rw [hop, show conn.pin2_id = e.2.id from beq_iff_eq.mp htouch2, hgete]
              dsimp only
              rw [hoc, hgetc]
              dsimp only
              rw [if_neg (by
                rw [Bool.and_eq_true]
                intro hand
                exact ht hand.2), if_pos (by
                rw [Bool.and_eq_true]
                exact ⟨by simpa using ht, hta⟩)]
              rw [hprv, hne]
            · rw [if_neg hta] at hsel
              simp at hsel

/-! ### C4: serialization round trip -/

/-- **C4** (corrected).  For circuits whose state is reachable by the
modelled constructors — back-references exact, pin ids and component ids
unique, every component built from the catalog — which contain an
`arduinouno`-typed component, and in which each component pin carries at most
one Arduino-facing connection (the facing entries of each component have
distinct pin names), `get_data` followed by a fresh `update_from_data`
reproduces the component-type list exactly and the Arduino-facing
`(component pin name, arduino pin name)` pairs as a set.  Without an Arduino
the round trip adds a synthesized one, and with two facing connections on one
pin the per-component dict keeps only the last: both restrictions are forced
by the counterexample. -/
theorem C4_round_trip (c : Circuit)
    (h1 : PinInvariant c)
    (h2 : (pinIds c).Nodup)
    (h3 : (c.components.map Component.id).Nodup)
    (h4 : ∀ comp ∈ c.components, CompCatalog comp)
    (h5 : ∀ comp ∈ c.components, ((facingOf c comp).map Prod.fst).Nodup)
    (h6 : ∃ comp ∈ c.components, comp.type = "arduinouno") :
    typesList (Circuit.empty.update_from_data c.get_data) = typesList c ∧
    ∀ pr : String × String,
      pr ∈ facingPairs (Circuit.empty.update_from_data c.get_data) ↔ pr ∈ facingPairs c := by
  refine ⟨typesList_roundtrip c h2 h3 h4 h5 h6, ?_⟩
  intro pr
  rw [facingPairs_roundtrip c h2 h3 h4 h5 h6]
  exact (mem_facingPairs_iff c h1 h2 h3 h4 pr).symm

/-- Witness for C4 at a concrete circuit: an Arduino and an LED wired
anode–D13 and cathode–GND. -/
theorem C4_round_trip_witness :
    typesList (Circuit.empty.update_from_data
      ((((Circuit.empty.add_component "arduinouno" (0, 0)).1.add_component "led"
        (0, 0)).1.add_connection "pin_led_1_anode" "pin_arduinouno_0_D13").1.add_connection
        "pin_led_1_cathode" "pin_arduinouno_0_GND").1.get_data) =
      typesList ((((Circuit.empty.add_component "arduinouno" (0, 0)).1.add_component "led"
        (0, 0)).1.add_connection "pin_led_1_anode" "pin_arduinouno_0_D13").1.add_connection
        "pin_led_1_cathode" "pin_arduinouno_0_GND").1 ∧
    (("anode", "D13") ∈ facingPairs (Circuit.empty.update_from_data
      ((((Circuit.empty.add_component "arduinouno" (0, 0)).1.add_component "led"
        (0, 0)).1.add_connection "pin_led_1_anode" "pin_arduinouno_0_D13").1.add_connection
        "pin_led_1_cathode" "pin_arduinouno_0_GND").1.get_data) ↔
     ("anode", "D13") ∈ facingPairs ((((Circuit.empty.add_component "arduinouno"
        (0, 0)).1.add_component "led"
        (0, 0)).1.add_connection "pin_led_1_anode" "pin_arduinouno_0_D13").1.add_connection
        "pin_led_1_cathode" "pin_arduinouno_0_GND").1) := by
  have h := C4_round_trip
    ((((Circuit.empty.add_component "arduinouno" (0, 0)).1.add_component "led"
      (0, 0)).1.add_connection "pin_led_1_anode" "pin_arduinouno_0_D13").1.add_connection
      "pin_led_1_cathode" "pin_arduinouno_0_GND").1
    (by unfold PinInvariant; decide)
    (by decide)
    (by decide)
    (by unfold CompCatalog; decide)
    (by decide)
    (by decide)
  exact ⟨h.1, h.2 ("anode", "D13")⟩

/-- **C4 counterexample**.  Two failures of the unrestricted claim: (a) a
circuit with no Arduino gains a synthesized `arduinouno` on the round trip,
changing the component-type multiset; (b) a pin wired to two Arduino pins
(anode to both D1 and D2) loses the pair `("anode", "D1")` because
`get_data`'s per-component dict keeps only the last entry per pin name. -/
theorem C4_counterexample :
    (typesList Circuit.empty = [] ∧
     typesList (Circuit.empty.update_from_data Circuit.empty.get_data) = ["arduinouno"]) ∧
    (("anode", "D1") ∈ facingPairs
      ((((Circuit.empty.add_component "arduinouno" (0, 0)).1.add_component "led"
        (0, 0)).1.add_connection "pin_led_1_anode" "pin_arduinouno_0_D1").1.add_connection
        "pin_led_1_anode" "pin_arduinouno_0_D2").1 ∧
     ("anode", "D1") ∉ facingPairs (Circuit.empty.update_from_data
      ((((Circuit.empty.add_component "arduinouno" (0, 0)).1.add_component "led"
        (0, 0)).1.add_connection "pin_led_1_anode" "pin_arduinouno_0_D1").1.add_connection
        "pin_led_1_anode" "pin_arduinouno_0_D2").1.get_data)) :=
  ⟨⟨rfl, by decide⟩, by decide, by decide⟩

end ACAD
